import Mathlib

/-!
# Flux dispatch and Tillotson equation of state

A shallow embedding of
* `source/newtonian/two_dimensional/condition_action_sequence.cpp` (rule dispatch), and
* `source/newtonian/common/Tillotson.cpp` (three-region equation of state),
followed by theorems about the embedded functions.

Conventions.
* A C++ call that can stop with `throw` or a failed `assert` returns `Except`.
* `double` is embedded as an arbitrary linearly ordered field `R`; the theorems
  instantiate `R := ℝ`, `sqrt := Real.sqrt`, `exp := Real.exp` (exact real arithmetic).
* Division is the total division of the field (`x / 0 = 0`); every statement
  that depends on the value of a quotient carries hypotheses that make the
  divisor non-zero.
* Library routines that are not part of the repository (`std::sqrt`, `std::exp`,
  `boost::math::tools::bisect`) are parameters of the functions that call them.
-/

/-! ## Part 1: definitions -/

namespace ConditionActionSequence

/-- Modelled from the spec: the `Tessellation` interface is declared outside the
available sources; only the two members read by the dispatcher and by the
condition predicates are kept: the stable-ordered edge list and the number
of interior mesh points. -/
structure Tessellation (Edge : Type) where
  /-- Embeds `getAllEdges()`: every edge, in enumeration order. -/
  getAllEdges : List Edge
  /-- Embeds `GetPointNo()`: the number of interior points. -/
  GetPointNo : Int

/-- Embeds `ConditionActionSequence::Condition::operator()`: a classifier
`(edge, tess, cells) ↦ (matches, auxFlag)`. -/
abbrev Condition (Edge Cell : Type) : Type :=
  Edge → Tessellation Edge → List Cell → Bool × Bool

/-- Embeds `ConditionActionSequence::Action::operator()`: a flux rule
`(edge, tess, point_velocities, cells, eos, aux) ↦ Extensive`. A rule may stop
with an exception or a failed assertion, hence `Except`. -/
abbrev Action (Edge Cell PV EOS Ext : Type) : Type :=
  Edge → Tessellation Edge → List PV → List Cell → EOS → Bool → Except String Ext

/-- Embeds the member `sequence_`: the ordered `(Condition, Action)` pairs. -/
abbrev Sequence (Edge Cell PV EOS Ext : Type) : Type :=
  List (Condition Edge Cell × Action Edge Cell PV EOS Ext)

/-- Embeds `choose_action` (condition_action_sequence.cpp, lines 17-33): scan
the sequence from index 0; the first condition whose `first` flag is set
decides, and its action is called with the `second` flag; when the loop runs
off the end the C string `"Error in ConditionActionSequence"` is thrown. -/
def choose_action {Edge Cell PV EOS Ext : Type}
    (edge : Edge) (tess : Tessellation Edge) (cells : List Cell) (eos : EOS)
    (point_velocities : List PV) :
    Sequence Edge Cell PV EOS Ext → Except String Ext
  | [] => Except.error "Error in ConditionActionSequence"
  | rule :: rest =>
    let flag_aux := rule.1 edge tess cells
    if flag_aux.1 then
      rule.2 edge tess point_velocities cells eos flag_aux.2
    else
      choose_action edge tess cells eos point_velocities rest

/-- Embeds the loop of `ConditionActionSequence::operator()` (lines 47-54):
walk the edges in enumeration order with the running index `i` and store
the flux of the edge at `res[i]`; an exception leaves the loop at once. -/
def fillFluxes {Edge Ext : Type} (flux : Edge → Except String Ext) :
    List Edge → Nat → List Ext → Except String (List Ext)
  | [], _, res => Except.ok res
  | edge :: rest, i, res =>
    match flux edge with
    | Except.error msg => Except.error msg
    | Except.ok x => fillFluxes flux rest (i + 1) (res.set i x)

/-- Embeds `ConditionActionSequence::operator()` (lines 36-56): `res` starts
as `getAllEdges().size()` default-constructed entries and entry `i` is
overwritten by `choose_action` for edge `i`. The unused arguments
(`extensives`, cache data, `time`, `dt`) are dropped. -/
def call {Edge Cell PV EOS Ext : Type} [Inhabited Ext]
    (sequence_ : Sequence Edge Cell PV EOS Ext)
    (tess : Tessellation Edge) (point_velocities : List PV) (cells : List Cell)
    (eos : EOS) : Except String (List Ext) :=
  fillFluxes (fun edge => choose_action edge tess cells eos point_velocities sequence_)
    tess.getAllEdges 0 (List.replicate tess.getAllEdges.length default)

/-! ### Data of the flux rules and of the condition predicates -/

/-- Modelled from the spec: `Vector2D` is declared outside the available
sources; a plane vector with the two coordinates `x`, `y`. -/
structure Vector2D (R : Type) where
  x : R
  y : R

/-- Modelled from the spec: `Edge` is declared outside the available sources;
the two members read here are the end points `vertices` and the neighbor cell
indices `neighbors` (an index outside `[0, GetPointNo())` stands for "no
interior neighbor"). -/
structure Edge (R : Type) where
  vertices : Vector2D R × Vector2D R
  neighbors : Int × Int

/-- Modelled from the spec: `ComputationalCell` is declared outside the
available sources: density, pressure, velocity, the string-keyed tracer
mass fractions and the string-keyed boolean stickers. A `flat_map` is the
list of its `(key, value)` entries in iteration order. -/
structure ComputationalCell (R : Type) where
  density : R
  pressure : R
  velocity : Vector2D R
  tracers : List (String × R)
  stickers : List (String × Bool)

/-- Modelled from the spec: `Primitive` is declared outside the available
sources: density, pressure, velocity, energy and sound speed at a point. -/
structure Primitive (R : Type) where
  Density : R
  Pressure : R
  Velocity : Vector2D R
  Energy : R
  SoundSpeed : R

/-- Modelled from the spec: `Conserved` is declared outside the available
sources: the mass, momentum and energy flux returned by the Riemann solver. -/
structure Conserved (R : Type) where
  Mass : R
  Momentum : Vector2D R
  Energy : R

/-- Modelled from the spec: `Extensive` is declared outside the available
sources: mass, momentum, energy and the string-keyed tracer masses. -/
structure Extensive (R : Type) where
  mass : R
  momentum : Vector2D R
  energy : R
  tracers : List (String × R)

section FluxRules

variable {R : Type} [LinearOrderedField R]

/-- Modelled from the spec: the default-constructed `Extensive`, with zero
mass, momentum and energy and an empty tracer map. -/
instance : Inhabited (Extensive R) := ⟨⟨0, ⟨0, 0⟩, 0, []⟩⟩

/-- Modelled from the spec: `flat_map::find`, the value stored under `key`,
if any. -/
def flatFind {α : Type} (m : List (String × α)) (key : String) : Option α :=
  match m with
  | [] => none
  | entry :: rest => if entry.1 = key then some entry.2 else flatFind rest key

/-- Modelled from the spec: `flat_map::operator[](key) = value`: the value of
an existing key is replaced, a new key is inserted at its place in the key
order. -/
def flatAssign {α : Type} (m : List (String × α)) (key : String) (value : α) :
    List (String × α) :=
  match m with
  | [] => [(key, value)]
  | entry :: rest =>
    if entry.1 = key then (key, value) :: rest
    else if key < entry.1 then (key, value) :: entry :: rest
    else entry :: flatAssign rest key value

/-- Modelled from the spec: `operator-` of `Vector2D`. -/
def Vector2D.sub (a b : Vector2D R) : Vector2D R := ⟨a.x - b.x, a.y - b.y⟩

/-- Modelled from the spec: `operator/` of `Vector2D` by a scalar. -/
def Vector2D.div (v : Vector2D R) (s : R) : Vector2D R := ⟨v.x / s, v.y / s⟩

/-- Modelled from the spec: the product of a scalar and a `Vector2D`. -/
def Vector2D.smul (s : R) (v : Vector2D R) : Vector2D R := ⟨s * v.x, s * v.y⟩

/-- Modelled from the spec: `ScalarProd`, the dot product of two vectors. -/
def ScalarProd (a b : Vector2D R) : R := a.x * b.x + a.y * b.y

/-- Modelled from the spec: `abs` of a `Vector2D`, its Euclidean length. -/
def Vector2D.abs (sqrt : R → R) (v : Vector2D R) : R := sqrt (ScalarProd v v)

/-- Modelled from the spec: `reflect(state, axis)`, the ghost state of a rigid
wall: every scalar of the state is kept and the velocity is mirrored about
`axis`, so that its component along the axis is kept and its component normal
to the axis changes sign. -/
def reflect (state : Primitive R) (axis : Vector2D R) : Primitive R :=
  { state with
    Velocity := Vector2D.sub
      (Vector2D.smul (2 * ScalarProd state.Velocity axis / ScalarProd axis axis) axis)
      state.Velocity }

/-- The functions called by the flux rules whose definitions lie outside the
available sources; each is a parameter. The first three are members of the
`Tessellation` interface and take the tessellation as their first argument. -/
structure External (R EOS RS : Type) where
  /-- `tess.GetMeshPoint(index)`. -/
  GetMeshPoint : Tessellation (Edge R) → Int → Vector2D R
  /-- `tess.GetCellCM(index)`. -/
  GetCellCM : Tessellation (Edge R) → Int → Vector2D R
  /-- `tess.CalcFaceVelocity(wl, wr, rl, rr, f)`. -/
  CalcFaceVelocity : Tessellation (Edge R) → Vector2D R → Vector2D R → Vector2D R →
    Vector2D R → Vector2D R → Vector2D R
  /-- `calc_centroid(edge)`. -/
  calc_centroid : Edge R → Vector2D R
  /-- `remove_parallel_component(v, p)`. -/
  remove_parallel_component : Vector2D R → Vector2D R → Vector2D R
  /-- `convert_to_primitive(cell, eos)`; it calls the equation of state and may stop. -/
  convert_to_primitive : ComputationalCell R → EOS → Except String (Primitive R)
  /-- `rotate_solve_rotate_back(rs, left, right, velocity, n, p)`; the Riemann
  solver may stop. -/
  rotate_solve_rotate_back : RS → Primitive R → Primitive R → R → Vector2D R →
    Vector2D R → Except String (Conserved R)
  /-- `std::sqrt`, used by `abs`. -/
  sqrt : R → R

/-- Embeds `cells.at(static_cast<size_t>(index))`: `std::vector::at` throws
`std::out_of_range` past the end. -/
def cellAt (cells : List (ComputationalCell R)) (index : Int) :
    Except String (ComputationalCell R) :=
  match cells[index.toNat]? with
  | some cell => Except.ok cell
  | none => Except.error "vector::at: out of range"

/-- Embeds `point_velocities[static_cast<size_t>(index)]`: the access is
unchecked in C++; the model stops when the index is past the end. -/
def velocityAt (point_velocities : List (Vector2D R)) (index : Int) :
    Except String (Vector2D R) :=
  match point_velocities[index.toNat]? with
  | some v => Except.ok v
  | none => Except.error "vector::operator[]: out of range"

/-- Embeds `conserved_to_extensive` (condition_action_sequence.cpp, lines
66-78): mass, momentum and energy are copied from the conserved flux and, for
each tracer of `cell` in iteration order, `res.tracers[name] = value * c.Mass`. -/
def conserved_to_extensive (c : Conserved R) (cell : ComputationalCell R) : Extensive R :=
  let res : Extensive R := default
  let res := { res with mass := c.Mass }
  let res := { res with momentum := c.Momentum }
  let res := { res with energy := c.Energy }
  cell.tracers.foldl
    (fun acc it => { acc with tracers := flatAssign acc.tracers it.1 (it.2 * c.Mass) }) res

/-- Embeds `normalize` (lines 80-83): `v / abs(v)`. -/
def normalize (sqrt : R → R) (v : Vector2D R) : Vector2D R :=
  Vector2D.div v (Vector2D.abs sqrt v)

/-- Embeds the two assertions at the entry of `RegularFlux::operator()`
(lines 94-95). -/
def regularFluxAsserts (edge : Edge R) (tess : Tessellation (Edge R)) : Except String Unit :=
  if ¬ (edge.neighbors.1 ≥ 0 ∧ edge.neighbors.1 < tess.GetPointNo) then
    Except.error "assert(edge.neighbors.first>=0 && edge.neighbors.first<tess.GetPointNo())"
  else if ¬ (edge.neighbors.2 ≥ 0 ∧ edge.neighbors.2 < tess.GetPointNo) then
    Except.error "assert(edge.neighbors.second>=0 && edge.neighbors.second<tess.GetPointNo())"
  else
    Except.ok ()

/-- Embeds the assertion at the entry of `RigidWallFlux::operator()` (lines
156-159) and of `FreeFlowFlux::operator()` (lines 199-202), the same text in
both: the neighbor picked by `aux` is tested. -/
def oneSidedAsserts (edge : Edge R) (tess : Tessellation (Edge R)) (aux : Bool) :
    Except String Unit :=
  if aux then
    if ¬ (edge.neighbors.1 ≥ 0 ∧ edge.neighbors.1 < tess.GetPointNo) then
      Except.error "assert(edge.neighbors.first>=0 && edge.neighbors.first<tess.GetPointNo())"
    else
      Except.ok ()
  else
    if ¬ (edge.neighbors.2 ≥ 0 ∧ edge.neighbors.2 < tess.GetPointNo) then
      Except.error "assert(edge.neighbors.second>=0 && edge.neighbors.second<tess.GetPointNo())"
    else
      Except.ok ()

/-- The local `p` of the three flux rules (lines 96-98, 160-161, 203-204): the
unit tangent of the edge. -/
def edgeTangent {EOS RS : Type} (ext : External R EOS RS) (edge : Edge R) : Vector2D R :=
  normalize ext.sqrt (Vector2D.sub edge.vertices.2 edge.vertices.1)

/-- The local `n` of `RegularFlux::operator()` (lines 99-101): the unit vector
from the first to the second mesh point. -/
def regularNormal {EOS RS : Type} (ext : External R EOS RS) (edge : Edge R)
    (tess : Tessellation (Edge R)) : Vector2D R :=
  normalize ext.sqrt
    (Vector2D.sub (ext.GetMeshPoint tess edge.neighbors.2)
      (ext.GetMeshPoint tess edge.neighbors.1))

/-- The local `v` of `RegularFlux::operator()` (lines 102-110): the face
velocity along `n`, from the two point velocities `w1`, `w2`. -/
def regularVelocity {EOS RS : Type} (ext : External R EOS RS) (edge : Edge R)
    (tess : Tessellation (Edge R)) (w1 w2 : Vector2D R) : R :=
  ScalarProd (regularNormal ext edge tess)
    (ext.CalcFaceVelocity tess w1 w2 (ext.GetCellCM tess edge.neighbors.1)
      (ext.GetCellCM tess edge.neighbors.2) (ext.calc_centroid edge))

/-- The local `n` of `RigidWallFlux::operator()` (lines 162-168) and of
`FreeFlowFlux::operator()` (lines 205-211), the same text in both. -/
def oneSidedNormal {EOS RS : Type} (ext : External R EOS RS) (edge : Edge R)
    (tess : Tessellation (Edge R)) (aux : Bool) : Vector2D R :=
  normalize ext.sqrt
    (ext.remove_parallel_component
      (if aux then Vector2D.sub edge.vertices.1 (ext.GetMeshPoint tess edge.neighbors.1)
       else Vector2D.sub (ext.GetMeshPoint tess edge.neighbors.2) edge.vertices.1)
      (edgeTangent ext edge))

/-- Embeds `RegularFlux::operator()` (lines 86-123). -/
def RegularFlux {EOS RS : Type} (ext : External R EOS RS) (rs_ : RS) :
    Action (Edge R) (ComputationalCell R) (Vector2D R) EOS (Extensive R) :=
  fun edge tess point_velocities cells eos _ =>
    match regularFluxAsserts edge tess with
    | Except.error msg => Except.error msg
    | Except.ok _ =>
      let p := edgeTangent ext edge
      let n := regularNormal ext edge tess
      match velocityAt point_velocities edge.neighbors.1 with
      | Except.error msg => Except.error msg
      | Except.ok w1 =>
      match velocityAt point_velocities edge.neighbors.2 with
      | Except.error msg => Except.error msg
      | Except.ok w2 =>
      let v := regularVelocity ext edge tess w1 w2
      match cellAt cells edge.neighbors.1 with
      | Except.error msg => Except.error msg
      | Except.ok cell1 =>
      match ext.convert_to_primitive cell1 eos with
      | Except.error msg => Except.error msg
      | Except.ok left =>
      match cellAt cells edge.neighbors.2 with
      | Except.error msg => Except.error msg
      | Except.ok cell2 =>
      match ext.convert_to_primitive cell2 eos with
      | Except.error msg => Except.error msg
      | Except.ok right =>
      match ext.rotate_solve_rotate_back rs_ left right v n p with
      | Except.error msg => Except.error msg
      | Except.ok c =>
        Except.ok (conserved_to_extensive c (if c.Mass > 0 then cell1 else cell2))

/-- Embeds `rigid_wall_states` (lines 130-145). -/
def rigid_wall_states (state : Primitive R) (p : Vector2D R) (aux : Bool) :
    Primitive R × Primitive R :=
  if aux then
    let left := state
    let right := reflect left p
    (left, right)
  else
    let right := state
    let left := reflect right p
    (left, right)

/-- Embeds `RigidWallFlux::operator()` (lines 148-186). -/
def RigidWallFlux {EOS RS : Type} (ext : External R EOS RS) (rs_ : RS) :
    Action (Edge R) (ComputationalCell R) (Vector2D R) EOS (Extensive R) :=
  fun edge tess _ cells eos aux =>
    match oneSidedAsserts edge tess aux with
    | Except.error msg => Except.error msg
    | Except.ok _ =>
      let p := edgeTangent ext edge
      let n := oneSidedNormal ext edge tess aux
      let v : R := 0
      match cellAt cells (if aux then edge.neighbors.1 else edge.neighbors.2) with
      | Except.error msg => Except.error msg
      | Except.ok cell =>
      match ext.convert_to_primitive cell eos with
      | Except.error msg => Except.error msg
      | Except.ok state =>
      let left_right := rigid_wall_states state p aux
      match ext.rotate_solve_rotate_back rs_ left_right.1 left_right.2 v n p with
      | Except.error msg => Except.error msg
      | Except.ok c => Except.ok (conserved_to_extensive c cell)

/-- Embeds `FreeFlowFlux::operator()` (lines 191-226). -/
def FreeFlowFlux {EOS RS : Type} (ext : External R EOS RS) (rs_ : RS) :
    Action (Edge R) (ComputationalCell R) (Vector2D R) EOS (Extensive R) :=
  fun edge tess _ cells eos aux =>
    match oneSidedAsserts edge tess aux with
    | Except.error msg => Except.error msg
    | Except.ok _ =>
      let p := edgeTangent ext edge
      let n := oneSidedNormal ext edge tess aux
      let v : R := 0
      match cellAt cells (if aux then edge.neighbors.1 else edge.neighbors.2) with
      | Except.error msg => Except.error msg
      | Except.ok cell =>
      match ext.convert_to_primitive cell eos with
      | Except.error msg => Except.error msg
      | Except.ok state =>
      match ext.rotate_solve_rotate_back rs_ state state v n p with
      | Except.error msg => Except.error msg
      | Except.ok c => Except.ok (conserved_to_extensive c cell)

/-- Embeds `IsBoundaryEdge::operator()` (lines 230-242), its assertion included. -/
def IsBoundaryEdge (edge : Edge R) (tess : Tessellation (Edge R))
    (_ : List (ComputationalCell R)) : Except String (Bool × Bool) :=
  if edge.neighbors.1 < 0 ∨ edge.neighbors.1 ≥ tess.GetPointNo then
    if ¬ (edge.neighbors.2 ≥ 0 ∧ edge.neighbors.2 < tess.GetPointNo) then
      Except.error "assert(edge.neighbors.second>=0 && edge.neighbors.second<tess.GetPointNo())"
    else
      Except.ok (true, false)
  else if edge.neighbors.2 < 0 ∨ edge.neighbors.2 ≥ tess.GetPointNo then
    Except.ok (true, true)
  else
    Except.ok (false, false)

/-- The same `IsBoundaryEdge::operator()` with the assertion compiled out
(`NDEBUG`): a classifier that always returns. -/
def IsBoundaryEdgeNoAssert : Condition (Edge R) (ComputationalCell R) :=
  fun edge tess _ =>
    if edge.neighbors.1 < 0 ∨ edge.neighbors.1 ≥ tess.GetPointNo then
      (true, false)
    else if edge.neighbors.2 < 0 ∨ edge.neighbors.2 ≥ tess.GetPointNo then
      (true, true)
    else
      (false, false)

/-- Embeds `IsBulkEdge::operator()` (lines 246-257). -/
def IsBulkEdge : Condition (Edge R) (ComputationalCell R) :=
  fun edge tess _ =>
    (decide (edge.neighbors.1 ≥ 0 ∧ edge.neighbors.2 ≥ 0 ∧
        edge.neighbors.1 < tess.GetPointNo ∧ edge.neighbors.2 < tess.GetPointNo),
     false)

/-- Embeds `cells.at(index).stickers.find(sticker_name_)->second`: `at` throws
past the end, and dereferencing `find` of an absent name is undefined in C++,
where the model stops. -/
def stickerAt (cells : List (ComputationalCell R)) (index : Int) (sticker_name_ : String) :
    Except String Bool :=
  match cellAt cells index with
  | Except.error msg => Except.error msg
  | Except.ok cell =>
    match flatFind cell.stickers sticker_name_ with
    | some flag => Except.ok flag
    | none => Except.error "stickers.find: no such sticker"

/-- Embeds `RegularSpecialEdge::operator()` (lines 262-280). -/
def RegularSpecialEdge (sticker_name_ : String) (edge : Edge R)
    (tess : Tessellation (Edge R)) (cells : List (ComputationalCell R)) :
    Except String (Bool × Bool) :=
  if edge.neighbors.1 < 0 ∨ edge.neighbors.2 < 0 ∨
      edge.neighbors.1 ≥ tess.GetPointNo ∨ edge.neighbors.2 ≥ tess.GetPointNo then
    Except.ok (false, false)
  else
    match stickerAt cells edge.neighbors.1 sticker_name_ with
    | Except.error msg => Except.error msg
    | Except.ok first_tagged =>
      if first_tagged then
        match stickerAt cells edge.neighbors.2 sticker_name_ with
        | Except.error msg => Except.error msg
        | Except.ok second_tagged =>
          if second_tagged then Except.ok (false, false) else Except.ok (true, false)
      else
        match stickerAt cells edge.neighbors.2 sticker_name_ with
        | Except.error msg => Except.error msg
        | Except.ok second_tagged =>
          if second_tagged then Except.ok (true, true) else Except.ok (false, false)

end FluxRules

/-! ### A two-cell sample mesh for the worked instances -/

/-- An edge between the interior cells `0` and `1`. -/
def interiorEdge : Edge ℚ := ⟨(⟨0, 0⟩, ⟨0, 1⟩), (0, 1)⟩

/-- An edge whose second neighbor is outside the mesh. -/
def boundaryEdge : Edge ℚ := ⟨(⟨1, 0⟩, ⟨1, 1⟩), (1, -1)⟩

/-- An edge whose first neighbor is outside the mesh. -/
def boundaryEdgeFirst : Edge ℚ := ⟨(⟨-1, 0⟩, ⟨-1, 1⟩), (2, 0)⟩

/-- An edge with both neighbors outside the mesh. -/
def ghostEdge : Edge ℚ := ⟨(⟨2, 0⟩, ⟨2, 1⟩), (-1, -1)⟩

/-- A mesh of two interior points with one interior and two boundary edges. -/
def meshTess : Tessellation (Edge ℚ) :=
  ⟨[interiorEdge, boundaryEdge, boundaryEdgeFirst], 2⟩

/-- Cell `0`: tagged `"wall"`, dye fraction `1/2`. -/
def cellZero : ComputationalCell ℚ := ⟨1, 1, ⟨1, 0⟩, [("dye", 1 / 2)], [("wall", true)]⟩

/-- Cell `1`: not tagged, dye fraction `1/4` and a second tracer. -/
def cellOne : ComputationalCell ℚ :=
  ⟨2, 1, ⟨0, 1⟩, [("dye", 1 / 4), ("salt", 1)], [("wall", false)]⟩

/-- The cell vector of the sample mesh. -/
def meshCells : List (ComputationalCell ℚ) := [cellZero, cellOne]

/-- Stand-ins over `ℚ` for the functions declared outside the sources: mesh
point `i` sits at `(i, 0)`, the face velocity is the mean of the two point
velocities, the primitive state copies the cell, and the solver returns the
mass flux `2 * left.Density - right.Density - 1 + velocity`. The square root is the
identity, exact on `0` and `1`, the only values it meets on the sample mesh. -/
def sampleExt : External ℚ Unit Unit where
  GetMeshPoint := fun _ i => ⟨i, 0⟩
  GetCellCM := fun _ i => ⟨i, 0⟩
  CalcFaceVelocity := fun _ wl wr _ _ _ => ⟨(wl.x + wr.x) / 2, (wl.y + wr.y) / 2⟩
  calc_centroid := fun edge =>
    ⟨(edge.vertices.1.x + edge.vertices.2.x) / 2, (edge.vertices.1.y + edge.vertices.2.y) / 2⟩
  remove_parallel_component := fun v p =>
    Vector2D.sub v (Vector2D.smul (ScalarProd v p / ScalarProd p p) p)
  convert_to_primitive := fun cell _ =>
    Except.ok ⟨cell.density, cell.pressure, cell.velocity, 0, 1⟩
  rotate_solve_rotate_back := fun _ left right velocity _ _ =>
    Except.ok ⟨2 * left.Density - right.Density - 1 + velocity, ⟨0, 0⟩, 0⟩
  sqrt := fun x => x

/-- The point velocities of the sample mesh. -/
def meshVelocities : List (Vector2D ℚ) := [⟨0, 0⟩, ⟨0, 0⟩]

/-- The standard rule set on the sample mesh: boundary edges get the rigid
wall, interior edges the regular flux. -/
def sampleSequence :
    Sequence (Edge ℚ) (ComputationalCell ℚ) (Vector2D ℚ) Unit (Extensive ℚ) :=
  [(IsBoundaryEdgeNoAssert, RigidWallFlux sampleExt ()),
   (IsBulkEdge, RegularFlux sampleExt ())]

/-- An incomplete rule set: interior edges get the regular flux and no rule
covers the boundary edges. -/
def bulkOnlySequence :
    Sequence (Edge ℚ) (ComputationalCell ℚ) (Vector2D ℚ) Unit (Extensive ℚ) :=
  [(IsBulkEdge, RegularFlux sampleExt ())]

/-- A three-edge mesh for the worked instances; an edge is named by a number. -/
def sampleTess : Tessellation Nat := ⟨[0, 1, 2], 2⟩

/-- Sample rule: matches the even-numbered edges, with auxFlag set. -/
def evenRule : Condition Nat Unit × Action Nat Unit Unit Unit Nat :=
  (fun e _ _ => (e % 2 == 0, true),
   fun e _ _ _ _ aux => Except.ok (if aux then e + 100 else e))

/-- Sample rule: matches every edge, with auxFlag clear. -/
def anyRule : Condition Nat Unit × Action Nat Unit Unit Unit Nat :=
  (fun _ _ _ => (true, false),
   fun e _ _ _ _ aux => Except.ok (if aux then e + 200 else e + 300))

end ConditionActionSequence

/-- The ways a call into the equation of state can stop without a value. -/
inductive EosFailure (R : Type) where
  /-- A failed `assert(cond)`; `cond` is the asserted expression. -/
  | assertion (cond : String)
  /-- A thrown `UniversalError` with its message and its `AddEntry` fields. -/
  | universalError (msg : String) (entries : List (String × R))
  /-- An exception raised inside a library routine. -/
  | library (msg : String)

/-- Embeds the data members of class `Tillotson`: the ten material constants
set by the constructor and the two scratch members `temp_d_`, `temp_p_` that
`dp2e` writes for the root-finder callback. -/
structure Tillotson (R : Type) where
  a_ : R
  b_ : R
  A_ : R
  B_ : R
  rho0_ : R
  E0_ : R
  EIV_ : R
  ECV_ : R
  alpha_ : R
  beta_ : R
  temp_d_ : R
  temp_p_ : R

namespace Tillotson

variable {R : Type} [LinearOrderedField R]

/-- Embeds `boost::math::tools::bisect(f, min, max, eps_tolerance<double>(bits), max_iter)`
as seen by its caller: the callback, the two ends of the start interval, the
number of bits of the tolerance and the iteration ceiling go in, a bracket
`(first, second)` or an exception comes out. -/
abbrev Bisect (R : Type) : Type :=
  (R → R) → R → R → Nat → Nat → Except (EosFailure R) (R × R)

/-- Embeds `Tillotson::dp2EI` (Tillotson.cpp, lines 11-23). -/
def dp2EI (sqrt : R → R) (t : Tillotson R) (d p : R) : Except (EosFailure R) R :=
  let eta := d / t.rho0_
  let mu := eta - 1
  let c := t.E0_ * eta * eta
  let A := t.A_ * mu
  let B := t.B_ * mu * mu
  let sqr := sqrt (4 * t.a_ * c * d * (p - A - B) + (A + B + (t.a_ + t.b_) * c * d - p) ^ 2)
  let first_part := p - A - B - t.a_ * c * d - t.b_ * c * d
  let E := (first_part + sqr) / (2 * t.a_ * d)
  if E > 0 then Except.ok E else Except.error (EosFailure.assertion "E > 0")

/-- Embeds `Tillotson::dp2EIV` (lines 25-39). -/
def dp2EIV (sqrt exp : R → R) (t : Tillotson R) (d p : R) : Except (EosFailure R) R :=
  let eta := d / t.rho0_
  let mu := eta - 1
  let c := t.E0_ * eta * eta
  let A := t.A_ * mu
  let exp_alpha := exp (-t.alpha_ * (t.rho0_ / d - 1) ^ 2)
  let exp_beta := A * exp (-t.beta_ * (t.rho0_ / d - 1))
  let b := t.b_ * exp_alpha
  let AB := exp_alpha * exp_beta
  let E := (p - AB - t.a_ * c * d - b * c * d
      + sqrt (4 * t.a_ * c * d * (p - AB) + (AB + (t.a_ + b) * c * d - p) ^ 2))
    / (2 * t.a_ * d)
  if E > 0 then Except.ok E else Except.error (EosFailure.assertion "E > 0")

/-- Embeds `Tillotson::de2pI` (lines 41-50). -/
def de2pI (t : Tillotson R) (d e : R) : R :=
  let eta := d / t.rho0_
  let mu := eta - 1
  let c := t.E0_ * eta * eta
  let A := t.A_ * mu
  let B := t.B_ * mu * mu
  let res := (t.a_ + t.b_ / (e / c + 1)) * d * e + A + B
  res

/-- Embeds `Tillotson::de2pIV` (lines 59-70), the early return for
`alpha_ > 35*eta*eta` included. -/
def de2pIV (exp : R → R) (t : Tillotson R) (d e : R) : R :=
  let eta := d / t.rho0_
  if t.alpha_ > 35 * eta * eta then
    t.a_ * d * e
  else
    let mu := eta - 1
    let c := t.E0_ * eta * eta
    let A := t.A_ * mu
    let exp_alpha := exp (-t.alpha_ * (t.rho0_ / d - 1) ^ 2)
    let exp_beta := A * exp (-t.beta_ * (t.rho0_ / d - 1))
    t.a_ * d * e + exp_alpha * (t.b_ * d * e / (e / c + 1) + exp_beta)

/-- Embeds `Tillotson::de2pII` (lines 52-57). -/
def de2pII (exp : R → R) (t : Tillotson R) (d e : R) : R :=
  let P2 := t.de2pI d e
  let P3 := t.de2pIV exp d e
  ((e - t.EIV_) * P3 + (t.ECV_ - e) * P2) / (t.ECV_ - t.EIV_)

/-- Embeds `Tillotson::dep2cI` (lines 72-80). -/
def dep2cI (sqrt : R → R) (t : Tillotson R) (d e p : R) : R :=
  let eta := d / t.rho0_
  let mu := eta - 1
  let w0 := e / (t.E0_ * eta * eta) + 1
  let res := (t.A_ + 2 * t.B_ * mu) / t.rho0_ + 2 * t.b_ * e * e / (eta * eta * t.E0_ * w0 * w0)
    + e * (t.a_ + t.b_ / w0) + p * (t.b_ + t.a_ * w0 * w0) / (d * w0)
  let res := max res (1e-10 * t.E0_)
  sqrt res

/-- Embeds `Tillotson::dep2cIV` (lines 82-94). -/
def dep2cIV (sqrt exp : R → R) (t : Tillotson R) (d e p : R) : R :=
  let eta := d / t.rho0_
  let w0 := e / (t.E0_ * eta * eta) + 1
  let z := 1.0 - 1.0 / eta
  let afactor := exp (-t.alpha_ * z * z)
  let res0 := p * (t.a_ + t.b_ * afactor / (w0 * w0)) / d
  let res1 := t.a_ * e + afactor * (t.A_ * exp (t.beta_ * z)
      * (eta - 2 * t.alpha_ / (eta * eta) + (4 * t.alpha_ - t.beta_) / eta + t.beta_
          - 2 * t.alpha_) / d
    + e * t.b_ * (1 + 3 * e / (t.E0_ * eta * eta) - 2 * t.alpha_ * z * w0 / eta) / w0)
  let res := max (res0 + res1) (1e-10 * t.E0_)
  sqrt res

/-- Embeds `Tillotson::de2p` (lines 178-192); the tracer arguments are unused. -/
def de2p (exp : R → R) (t : Tillotson R) (d e : R) : R :=
  if d ≥ t.rho0_ then
    t.de2pI d e
  else if e ≤ t.EIV_ then
    t.de2pI d e
  else if e ≥ t.ECV_ then
    t.de2pIV exp d e
  else
    t.de2pII exp d e

/-- Embeds the callback `dp2eII::operator()` (lines 96-108): the relative
pressure residual at the density and pressure parked in the scratch members. -/
def dp2eII (exp : R → R) (eos_ : Tillotson R) (e : R) : R :=
  let res := 1 - eos_.de2pII exp eos_.temp_d_ e / eos_.temp_p_
  res

/-- Embeds lines 138-152 of `Tillotson::dp2e`: the scratch members are
written, then the callback built on the updated object is handed to `bisect`
over `[EIV_, ECV_]`, with 30 bits and 50 iterations when `d*1000 > rho0_`
and with 40 bits and 100 iterations otherwise. -/
def bisectCall (exp : R → R) (bisect : Bisect R) (t : Tillotson R) (d p : R) :
    Except (EosFailure R) (R × R) :=
  let t2 : Tillotson R := { t with temp_d_ := d, temp_p_ := p }
  if d * 1000 > t.rho0_ then
    bisect (dp2eII exp t2) t.EIV_ t.ECV_ 30 50
  else
    bisect (dp2eII exp t2) t.EIV_ t.ECV_ 40 100

/-- Embeds `Tillotson::dp2e` (lines 111-176); the root-finder call of lines
138-152 is `bisectCall`. The tracer arguments are unused. -/
def dp2e (sqrt exp : R → R) (bisect : Bisect R) (t : Tillotson R) (d p : R) :
    Except (EosFailure R) R :=
  let eta := d / t.rho0_
  let mu := eta - 1
  let c := t.E0_ * eta * eta
  let A := t.A_ * mu
  let B := t.B_ * mu * mu
  if d ≥ t.rho0_ then
    t.dp2EI sqrt d p
  else
    let PIV := (t.a_ + t.b_ / (t.EIV_ / c + 1)) * d * t.EIV_ + A + B
    if p ≤ PIV then
      t.dp2EI sqrt d p
    else
      let exp_alpha := exp (-t.alpha_ * (t.rho0_ / d - 1) ^ 2)
      let exp_beta := A * exp (-t.beta_ * (t.rho0_ / d - 1))
      let PCV := t.a_ * d * t.ECV_ + exp_alpha * (t.b_ * d * t.ECV_ / (t.ECV_ / c + 1) + exp_beta)
      if p ≥ PCV then
        t.dp2EIV sqrt exp d p
      else
        let t2 : Tillotson R := { t with temp_d_ := d, temp_p_ := p }
        match t.bisectCall exp bisect d p with
        | Except.error err => Except.error err
        | Except.ok res =>
          let result := 0.5 * (res.1 + res.2)
          let newp := t2.de2p exp d result
          if newp > PIV * 2 ∧ |p - newp| > 0.001 * p then
            Except.error (EosFailure.universalError "No dp2e convergence"
              [("Density", d), ("Pressure", p), ("New Pressure", newp),
               ("EIV", t.EIV_), ("ECV", t.ECV_),
               ("First energy", res.1), ("Second energy", res.2),
               ("First pressure", t2.de2p exp d res.1),
               ("Second pressure", t2.de2p exp d res.2)])
          else if result > 0 then
            Except.ok result
          else
            Except.error (EosFailure.assertion "result > 0")

/-- The value `res` formed in the last branch of `Tillotson::dp2c` (line 219),
before the assertion and the final square root. -/
def dp2cII (sqrt exp : R → R) (t : Tillotson R) (d e p : R) : R :=
  (t.dep2cIV sqrt exp d e p * (t.ECV_ - e) + t.dep2cI sqrt d e p * (e - t.EIV_))
    / (t.ECV_ - t.EIV_)

/-- Embeds `Tillotson::dp2c` (lines 200-224); the tracer arguments are unused. -/
def dp2c (sqrt exp : R → R) (bisect : Bisect R) (t : Tillotson R) (d p : R) :
    Except (EosFailure R) R :=
  match t.dp2e sqrt exp bisect d p with
  | Except.error err => Except.error err
  | Except.ok e =>
    if d ≥ t.rho0_ ∨ e ≤ t.EIV_ then
      let res := t.dep2cI sqrt d e p
      if res > 0 then Except.ok (sqrt res) else Except.error (EosFailure.assertion "res > 0")
    else if e ≥ t.ECV_ then
      let res := t.dep2cIV sqrt exp d e p
      if res > 0 then Except.ok (sqrt res) else Except.error (EosFailure.assertion "res > 0")
    else
      let res := t.dp2cII sqrt exp d e p
      if res > 0 then Except.ok (sqrt res) else Except.error (EosFailure.assertion "res > 0")

/-- The local `PIV` of `Tillotson::dp2e` (line 124): the pressure threshold
below which `dp2e` inverts the region-I form. -/
def PIV (t : Tillotson R) (d : R) : R :=
  let eta := d / t.rho0_
  let mu := eta - 1
  let c := t.E0_ * eta * eta
  let A := t.A_ * mu
  let B := t.B_ * mu * mu
  (t.a_ + t.b_ / (t.EIV_ / c + 1)) * d * t.EIV_ + A + B

/-- The local `PCV` of `Tillotson::dp2e` (lines 129-131): the pressure threshold
from which `dp2e` inverts the region-IV form. -/
def PCV (exp : R → R) (t : Tillotson R) (d : R) : R :=
  let eta := d / t.rho0_
  let mu := eta - 1
  let c := t.E0_ * eta * eta
  let A := t.A_ * mu
  let exp_alpha := exp (-t.alpha_ * (t.rho0_ / d - 1) ^ 2)
  let exp_beta := A * exp (-t.beta_ * (t.rho0_ / d - 1))
  t.a_ * d * t.ECV_ + exp_alpha * (t.b_ * d * t.ECV_ / (t.ECV_ / c + 1) + exp_beta)

/-- Embeds `Tillotson::de2c` (lines 194-198). -/
def de2c (sqrt exp : R → R) (bisect : Bisect R) (t : Tillotson R) (d e : R) :
    Except (EosFailure R) R :=
  let p := t.de2p exp d e
  t.dp2c sqrt exp bisect d p

/-- Embeds the constructor `Tillotson::Tillotson` (lines 7-9): the ten
constants are stored and both scratch members start at `0`. -/
def new (a b A B rho0 E0 EIV ECV alpha beta : R) : Tillotson R :=
  { a_ := a, b_ := b, A_ := A, B_ := B, rho0_ := rho0, E0_ := E0, EIV_ := EIV,
    ECV_ := ECV, alpha_ := alpha, beta_ := beta, temp_d_ := 0, temp_p_ := 0 }

/-- The region-I closed form in the words of the specification:
`P_I(d,e) = (a + b/(e/c+1))*d*e + A*mu + B*mu^2` with `eta = d/rho0`,
`mu = eta - 1`, `c = E0*eta^2`. -/
def specPI (t : Tillotson R) (d e : R) : R :=
  (t.a_ + t.b_ / (e / (t.E0_ * (d / t.rho0_) ^ 2) + 1)) * d * e
    + t.A_ * (d / t.rho0_ - 1) + t.B_ * (d / t.rho0_ - 1) ^ 2

/-- The blend weight of region II in the words of the specification:
`w = (e - EIV)/(ECV - EIV)`. -/
def specWeight (t : Tillotson R) (e : R) : R :=
  (e - t.EIV_) / (t.ECV_ - t.EIV_)

/-- A root-finder that is never expected to run: it raises at once. Used where
the evaluated path does not reach the bisection. -/
def idleBisect : Bisect R :=
  fun _ _ _ _ _ => Except.error (EosFailure.library "bisect")

/-- A root-finder that reports the degenerate bracket `(root, root)`, as a
bisection does when one of its midpoints is an exact zero of the callback. -/
def exactBisect (root : R) : Bisect R :=
  fun _ _ _ _ _ => Except.ok (root, root)

/-- The material of the specification's scenario: `rho0=2.7, a=0.5, b=1.5,
A=B=2.67e11, E0=4.87e12, EIV=4.72e10, ECV=1.82e11, alpha=beta=5`. -/
def scenarioEos (R : Type) [LinearOrderedField R] : Tillotson R :=
  new 0.5 1.5 2.67e11 2.67e11 2.7 4.87e12 4.72e10 1.82e11 5 5

/-- A material whose thresholds are in the reverse order (`ECV < EIV`). -/
def reversedEos (R : Type) [LinearOrderedField R] : Tillotson R :=
  new 1 0 1 4 1 1 2 1 0 0

/-- A material for which `de2pIV` takes its early return at half the reference
density (`alpha = 9 > 35/4`), with a large bulk modulus `A`. -/
def shortcutEos (R : Type) [LinearOrderedField R] : Tillotson R :=
  new 1 0 100000 0 1 1 1 2 9 0

/-- A material with a large quadratic coefficient `B`, so that at half the
reference density the region-I pressure at `EIV` lies above the region-IV
pressure at `ECV`. -/
def stiffEos (R : Type) [LinearOrderedField R] : Tillotson R :=
  new 1 0 1 100 1 1 1 2 0 0

/-- The material of `stiffEos` with `b = 1`, all six of `a, b, A, B, rho0, E0` positive. -/
def stiffEosB (R : Type) [LinearOrderedField R] : Tillotson R :=
  new 1 1 1 100 1 1 1 2 0 0

/-- A small well-ordered material without exponential damping (`alpha = beta = 0`). -/
def plainEos (R : Type) [LinearOrderedField R] : Tillotson R :=
  new 1 1 1 0 1 1 1 2 0 0

/-- A material with all constants positive for which, at half the reference
density, the region-IV pressure lies above the region-I pressure on `[EIV, ECV]`. -/
def orderedEos (R : Type) [LinearOrderedField R] : Tillotson R :=
  new 1 1 2 1 1 1 1 2 9 0

/-- A material with a negative lower threshold (`EIV = -1`, `ECV = 1`) whose
region-II residual at `d = 1/2`, `p = 1/4` is `e ↦ -e`. -/
def negativeEos (R : Type) [LinearOrderedField R] : Tillotson R :=
  new 1 0 0 2 1 1 (-1) 1 0 0

/-- A material whose two sound speeds at `d = 1/2`, `e = 2`, `p = 3/4` are the
whole numbers `4` (region I) and `2` (region IV). -/
def soundEos (R : Type) [LinearOrderedField R] : Tillotson R :=
  new 1 0 (1 / 2) 0 1 1 1 5 0 0

/-- A material whose squared sound speed is `16` at `d = rho0`, `e = p = 1`
and at `d = rho0/2`, `e = 8`, `p = -5/2`. -/
def squareEos (R : Type) [LinearOrderedField R] : Tillotson R :=
  new 1 0 13 0 1 1 1 2 0 0

/-- The region-I squared sound speed: the first value of `res` in
`Tillotson::dep2cI` (line 77), before the floor and the square root. -/
def S_I (t : Tillotson R) (d e p : R) : R :=
  let eta := d / t.rho0_
  let mu := eta - 1
  let w0 := e / (t.E0_ * eta * eta) + 1
  (t.A_ + 2 * t.B_ * mu) / t.rho0_ + 2 * t.b_ * e * e / (eta * eta * t.E0_ * w0 * w0)
    + e * (t.a_ + t.b_ / w0) + p * (t.b_ + t.a_ * w0 * w0) / (d * w0)

/-- The region-IV squared sound speed: `res0 + res1` of `Tillotson::dep2cIV`
(lines 89-91), before the floor and the square root. -/
def S_IV (exp : R → R) (t : Tillotson R) (d e p : R) : R :=
  let eta := d / t.rho0_
  let w0 := e / (t.E0_ * eta * eta) + 1
  let z := 1.0 - 1.0 / eta
  let afactor := exp (-t.alpha_ * z * z)
  let res0 := p * (t.a_ + t.b_ * afactor / (w0 * w0)) / d
  let res1 := t.a_ * e + afactor * (t.A_ * exp (t.beta_ * z)
      * (eta - 2 * t.alpha_ / (eta * eta) + (4 * t.alpha_ - t.beta_) / eta + t.beta_
          - 2 * t.alpha_) / d
    + e * t.b_ * (1 + 3 * e / (t.E0_ * eta * eta) - 2 * t.alpha_ * z * w0 / eta) / w0)
  res0 + res1

/-- A material with all ten constants positive for which `de2pIV` takes its
early return at half the reference density (`alpha = 9 > 35/4`) while the
bracketed term of the full region-IV form is positive there. -/
def thresholdEos (R : Type) [LinearOrderedField R] : Tillotson R :=
  new 1 1 (1 / 10) (1 / 10) 1 1 1 2 9 1

end Tillotson

/-! ## Part 2: theorems -/

namespace ConditionActionSequence

section Dispatch

variable {Edge Cell PV EOS Ext : Type}

/-- A rule that matches decides the outcome whatever comes after it. -/
theorem choose_action_first_match
    (edge : Edge) (tess : Tessellation Edge) (cells : List Cell) (eos : EOS)
    (pv : List PV) (pre post : Sequence Edge Cell PV EOS Ext)
    (rule : Condition Edge Cell × Action Edge Cell PV EOS Ext)
    (hpre : ∀ q ∈ pre, (q.1 edge tess cells).1 = false)
    (hrule : (rule.1 edge tess cells).1 = true) :
    choose_action edge tess cells eos pv (pre ++ rule :: post)
      = rule.2 edge tess pv cells eos (rule.1 edge tess cells).2 := by
  induction pre with
  | nil => simp [choose_action, hrule]
  | cons q qs ih =>
    have hq : (q.1 edge tess cells).1 = false := hpre q (List.mem_cons_self _ _)
    have hqs : ∀ r ∈ qs, (r.1 edge tess cells).1 = false :=
      fun r hr => hpre r (List.mem_cons_of_mem _ hr)
    simp [choose_action, hq, ih hqs]

/-- A matched edge has a first matching rule. -/
theorem exists_first_match
    (edge : Edge) (tess : Tessellation Edge) (cells : List Cell)
    (seq : Sequence Edge Cell PV EOS Ext)
    (h : ∃ r ∈ seq, (r.1 edge tess cells).1 = true) :
    ∃ pre rule post, seq = pre ++ rule :: post ∧
      (∀ q ∈ pre, (q.1 edge tess cells).1 = false) ∧
      (rule.1 edge tess cells).1 = true := by
  induction seq with
  | nil => obtain ⟨r, hr, _⟩ := h; simp at hr
  | cons q qs ih =>
    by_cases hq : (q.1 edge tess cells).1 = true
    · exact ⟨[], q, qs, rfl, by simp, hq⟩
    · have hq2 : (q.1 edge tess cells).1 = false := by simpa using hq
      obtain ⟨r, hr, hrm⟩ := h
      have hr2 : r ∈ qs := by
        rcases List.mem_cons.1 hr with h1 | h1
        · subst h1; rw [hq2] at hrm; cases hrm
        · exact h1
      obtain ⟨pre, rule, post, hseq, hpre, hrule⟩ := ih ⟨r, hr2, hrm⟩
      refine ⟨q :: pre, rule, post, by simp [hseq], ?_, hrule⟩
      intro x hx
      rcases List.mem_cons.1 hx with h1 | h1
      · subst h1; exact hq2
      · exact hpre x h1

/-- An edge no rule matches raises the dispatcher's error. -/
theorem choose_action_no_match
    (edge : Edge) (tess : Tessellation Edge) (cells : List Cell) (eos : EOS)
    (pv : List PV) (seq : Sequence Edge Cell PV EOS Ext)
    (h : ∀ r ∈ seq, (r.1 edge tess cells).1 = false) :
    choose_action edge tess cells eos pv seq
      = Except.error "Error in ConditionActionSequence" := by
  induction seq with
  | nil => rfl
  | cons q qs ih =>
    have hq : (q.1 edge tess cells).1 = false := h q (List.mem_cons_self _ _)
    simp [choose_action, hq, ih (fun r hr => h r (List.mem_cons_of_mem _ hr))]

/-- The loop succeeds when every edge has a flux, keeps the length of `res`,
leaves the entries outside its index window alone and stores the flux of the
`k`-th remaining edge at `res[i + k]`. -/
theorem fillFluxes_ok (flux : Edge → Except String Ext) :
    ∀ (edges : List Edge) (i : Nat) (res : List Ext),
      (∀ e ∈ edges, ∃ x, flux e = Except.ok x) →
      ∃ out, fillFluxes flux edges i res = Except.ok out ∧
        out.length = res.length ∧
        (∀ k, k < i → out[k]? = res[k]?) ∧
        (∀ k e, edges[k]? = some e → i + k < res.length →
          ∃ x, flux e = Except.ok x ∧ out[i + k]? = some x) := by
  intro edges
  induction edges with
  | nil =>
    intro i res _
    exact ⟨res, rfl, rfl, fun _ _ => rfl, by simp⟩
  | cons e es ih =>
    intro i res h
    obtain ⟨x, hx⟩ := h e (List.mem_cons_self _ _)
    obtain ⟨out, hout, hlen, hlow, hval⟩ :=
      ih (i + 1) (res.set i x) (fun e2 he2 => h e2 (List.mem_cons_of_mem _ he2))
    refine ⟨out, by simp [fillFluxes, hx, hout], by simpa using hlen, ?_, ?_⟩
    · intro k hk
      rw [hlow k (by omega)]
      simp [List.getElem?_set]
      intro hik; omega
    · intro k e2 hk hbound
      cases k with
      | zero =>
        simp at hk
        subst hk
        refine ⟨x, hx, ?_⟩
        rw [Nat.add_zero, hlow i (by omega)]
        simp [List.getElem?_set, hbound]
        simpa using hbound
      | succ k =>
        simp at hk
        obtain ⟨y, hy, hyo⟩ := hval k e2 hk (by simp; omega)
        exact ⟨y, hy, by rw [← hyo]; congr 1; omega⟩

/-- The loop stops with the exception of the first edge whose flux raises. -/
theorem fillFluxes_error (flux : Edge → Except String Ext) (e : Edge) (post : List Edge)
    (msg : String) (he : flux e = Except.error msg) :
    ∀ (pre : List Edge) (i : Nat) (res : List Ext),
      (∀ e2 ∈ pre, ∃ x, flux e2 = Except.ok x) →
      fillFluxes flux (pre ++ e :: post) i res = Except.error msg := by
  intro pre
  induction pre with
  | nil => intro i res _; simp [fillFluxes, he]
  | cons q qs ih =>
    intro i res h
    obtain ⟨x, hx⟩ := h q (List.mem_cons_self _ _)
    simp [fillFluxes, hx, ih (i + 1) (res.set i x)
      (fun e2 he2 => h e2 (List.mem_cons_of_mem _ he2))]

/-- Two flux functions that agree on the listed edges fill the same vector. -/
theorem fillFluxes_congr (f g : Edge → Except String Ext) :
    ∀ (edges : List Edge) (i : Nat) (res : List Ext),
      (∀ e ∈ edges, f e = g e) → fillFluxes f edges i res = fillFluxes g edges i res := by
  intro edges
  induction edges with
  | nil => intro i res _; rfl
  | cons e es ih =>
    intro i res h
    have he : f e = g e := h e (List.mem_cons_self _ _)
    have hes : ∀ e2 ∈ es, f e2 = g e2 := fun e2 he2 => h e2 (List.mem_cons_of_mem _ he2)
    simp only [fillFluxes, he]
    cases g e with
    | error m => rfl
    | ok x => exact ih (i + 1) (res.set i x) hes

/-- A list with an element satisfying `p` splits at the first such element. -/
theorem split_at_first {α : Type} (p : α → Prop) (l : List α) (h : ∃ x ∈ l, p x) :
    ∃ pre x post, l = pre ++ x :: post ∧ (∀ y ∈ pre, ¬ p y) ∧ p x := by
  induction l with
  | nil => obtain ⟨x, hx, _⟩ := h; simp at hx
  | cons a as ih =>
    by_cases ha : p a
    · exact ⟨[], a, as, rfl, by simp, ha⟩
    · obtain ⟨x, hx, hpx⟩ := h
      have hx2 : x ∈ as := by
        rcases List.mem_cons.1 hx with h1 | h1
        · subst h1; exact absurd hpx ha
        · exact h1
      obtain ⟨pre, y, post, hl, hpre, hy⟩ := ih ⟨x, hx2, hpx⟩
      refine ⟨a :: pre, y, post, by simp [hl], ?_, hy⟩
      intro z hz
      rcases List.mem_cons.1 hz with h1 | h1
      · subst h1; exact ha
      · exact hpre z h1

/-- A matched edge gets a flux as soon as the action of its first matching
rule, called with that rule's flag, returns. -/
theorem choose_action_ok_of_first
    (edge : Edge) (tess : Tessellation Edge) (cells : List Cell) (eos : EOS)
    (pv : List PV) (seq : Sequence Edge Cell PV EOS Ext)
    (hret : ∀ pre rule post, seq = pre ++ rule :: post →
      (∀ q ∈ pre, (q.1 edge tess cells).1 = false) → (rule.1 edge tess cells).1 = true →
      ∃ x, rule.2 edge tess pv cells eos (rule.1 edge tess cells).2 = Except.ok x)
    (h : ∃ r ∈ seq, (r.1 edge tess cells).1 = true) :
    ∃ x, choose_action edge tess cells eos pv seq = Except.ok x := by
  obtain ⟨pre, rule, post, hseq, hpre, hrule⟩ := exists_first_match edge tess cells seq h
  obtain ⟨x, hx⟩ := hret pre rule post hseq hpre hrule
  refine ⟨x, ?_⟩
  rw [hseq, choose_action_first_match edge tess cells eos pv pre post rule hpre hrule, hx]

/-- Claim C1. When every edge of the tessellation is matched by some condition
(and the action of the first matching rule returns a flux for it),
`ConditionActionSequence::operator()` returns a vector with exactly one entry
per edge of `getAllEdges()`; entry `i` is the result of the action paired with
the first condition that matches edge `i` (the rule at the lowest index: all
rules `pre` before it do not match), called on edge `i` with that condition's
auxFlag; the rules after it have no influence: replacing them by any other
rules `post2` leaves the flux of edge `i` the same, and appending rules to the
sequence leaves the whole returned vector the same. -/
theorem call_first_match_wins [Inhabited Ext]
    (seq : Sequence Edge Cell PV EOS Ext) (tess : Tessellation Edge)
    (pv : List PV) (cells : List Cell) (eos : EOS)
    (hcover : ∀ e ∈ tess.getAllEdges, ∃ r ∈ seq, (r.1 e tess cells).1 = true)
    (hret : ∀ e ∈ tess.getAllEdges, ∀ pre rule post, seq = pre ++ rule :: post →
      (∀ q ∈ pre, (q.1 e tess cells).1 = false) → (rule.1 e tess cells).1 = true →
      ∃ x, rule.2 e tess pv cells eos (rule.1 e tess cells).2 = Except.ok x) :
    ∃ res : List Ext, call seq tess pv cells eos = Except.ok res ∧
      res.length = tess.getAllEdges.length ∧
      (∀ (i : Nat) (e : Edge), tess.getAllEdges[i]? = some e →
        ∃ pre rule post x, seq = pre ++ rule :: post ∧
          (∀ q ∈ pre, (q.1 e tess cells).1 = false) ∧
          (rule.1 e tess cells).1 = true ∧
          rule.2 e tess pv cells eos (rule.1 e tess cells).2 = Except.ok x ∧
          res[i]? = some x ∧
          ∀ post2, choose_action e tess cells eos pv (pre ++ rule :: post2) = Except.ok x) ∧
      (∀ more, call (seq ++ more) tess pv cells eos = Except.ok res) := by
  have hflux : ∀ e ∈ tess.getAllEdges,
      ∃ x, choose_action e tess cells eos pv seq = Except.ok x := by
    intro e he
    obtain ⟨pre, rule, post, hseq, hpre, hrule⟩ :=
      exists_first_match e tess cells seq (hcover e he)
    obtain ⟨x, hx⟩ := hret e he pre rule post hseq hpre hrule
    exact ⟨x, by rw [hseq, choose_action_first_match e tess cells eos pv pre post rule
      hpre hrule, hx]⟩
  obtain ⟨out, hout, hlen, _, hval⟩ :=
    fillFluxes_ok (fun e => choose_action e tess cells eos pv seq) tess.getAllEdges 0
      (List.replicate tess.getAllEdges.length default) hflux
  refine ⟨out, hout, by simpa using hlen, ?_, ?_⟩
  · intro i e hie
    have hmem : e ∈ tess.getAllEdges := List.getElem?_mem hie
    have hi : i < tess.getAllEdges.length := by
      rcases List.getElem?_eq_some_iff.1 hie with ⟨h, _⟩
      exact h
    obtain ⟨pre, rule, post, hseq, hpre, hrule⟩ :=
      exists_first_match e tess cells seq (hcover e hmem)
    obtain ⟨x, hx⟩ := hret e hmem pre rule post hseq hpre hrule
    obtain ⟨y, hy, hyo⟩ := hval i e hie (by simpa using hi)
    have hyx : y = x := by
      have h1 : choose_action e tess cells eos pv seq = Except.ok x := by
        rw [hseq, choose_action_first_match e tess cells eos pv pre post rule hpre hrule, hx]
      have h2 : choose_action e tess cells eos pv seq = Except.ok y := hy
      rw [h1] at h2
      cases h2; rfl
    subst hyx
    refine ⟨pre, rule, post, y, hseq, hpre, hrule, hx, by simpa using hyo, ?_⟩
    intro post2
    rw [choose_action_first_match e tess cells eos pv pre post2 rule hpre hrule, hx]
  · intro more
    unfold call
    rw [fillFluxes_congr (fun e => choose_action e tess cells eos pv (seq ++ more))
      (fun e => choose_action e tess cells eos pv seq) tess.getAllEdges 0 _ ?_]
    · exact hout
    · intro e he
      obtain ⟨pre, rule, post, hseq, hpre, hrule⟩ :=
        exists_first_match e tess cells seq (hcover e he)
      show choose_action e tess cells eos pv (seq ++ more)
        = choose_action e tess cells eos pv seq
      rw [hseq, List.append_assoc, List.cons_append,
        choose_action_first_match e tess cells eos pv pre (post ++ more) rule hpre hrule,
        choose_action_first_match e tess cells eos pv pre post rule hpre hrule]

/-- Worked instance of `call_first_match_wins`: the covering sequence
`[evenRule, anyRule]` on the three-edge sample mesh. -/
theorem call_first_match_wins_witness :
    (∀ e ∈ sampleTess.getAllEdges, ∃ r ∈ [evenRule, anyRule],
      (r.1 e sampleTess ([] : List Unit)).1 = true) ∧
    ∃ res : List Nat, call [evenRule, anyRule] sampleTess ([] : List Unit) [] () = Except.ok res ∧
      res.length = sampleTess.getAllEdges.length ∧
      (∀ (i : Nat) (e : Nat), sampleTess.getAllEdges[i]? = some e →
        ∃ pre rule post x, [evenRule, anyRule] = pre ++ rule :: post ∧
          (∀ q ∈ pre, (q.1 e sampleTess []).1 = false) ∧
          (rule.1 e sampleTess []).1 = true ∧
          rule.2 e sampleTess [] [] () (rule.1 e sampleTess []).2 = Except.ok x ∧
          res[i]? = some x ∧
          ∀ post2, choose_action e sampleTess [] () ([] : List Unit) (pre ++ rule :: post2)
            = Except.ok x) ∧
      (∀ more, call ([evenRule, anyRule] ++ more) sampleTess ([] : List Unit) [] ()
        = Except.ok res) :=
  ⟨by decide,
   call_first_match_wins [evenRule, anyRule] sampleTess [] [] () (by decide)
    (fun e _ pre rule post hseq _ _ => by
      have hmem : rule ∈ [evenRule, anyRule] := by rw [hseq]; simp
      simp only [List.mem_cons, List.mem_singleton, List.not_mem_nil, or_false] at hmem
      rcases hmem with h | h <;> subst h <;> exact ⟨_, rfl⟩)⟩

/-- Claim C2. Assuming the actions do not fail where the dispatcher calls them
(for every edge, the action of the first matching rule, called with that
rule's auxFlag, returns a flux; nothing is asked of an action on an edge or
with a flag it is not called with), `ConditionActionSequence::operator()`
fails with `"Error in ConditionActionSequence"` if and only if some edge of the
tessellation is matched by no condition; a sequence that matches every edge
returns a vector; and when the edges split as `pre ++ e :: post` with every
edge of `pre` matched and `e` unmatched, the loop over `pre` alone completes,
`choose_action` raises the error on `e`, and the call as a whole ends with that
error, so no flux vector is returned. -/
theorem call_error_iff_unmatched [Inhabited Ext]
    (seq : Sequence Edge Cell PV EOS Ext) (tess : Tessellation Edge)
    (pv : List PV) (cells : List Cell) (eos : EOS)
    (hret : ∀ e ∈ tess.getAllEdges, ∀ pre rule post, seq = pre ++ rule :: post →
      (∀ q ∈ pre, (q.1 e tess cells).1 = false) → (rule.1 e tess cells).1 = true →
      ∃ x, rule.2 e tess pv cells eos (rule.1 e tess cells).2 = Except.ok x) :
    (call seq tess pv cells eos = Except.error "Error in ConditionActionSequence" ↔
      ∃ e ∈ tess.getAllEdges, ∀ r ∈ seq, (r.1 e tess cells).1 = false) ∧
    ((∀ e ∈ tess.getAllEdges, ∃ r ∈ seq, (r.1 e tess cells).1 = true) →
      ∃ res : List Ext, call seq tess pv cells eos = Except.ok res) ∧
    (∀ pre e post, tess.getAllEdges = pre ++ e :: post →
      (∀ e2 ∈ pre, ∃ r ∈ seq, (r.1 e2 tess cells).1 = true) →
      (∀ r ∈ seq, (r.1 e tess cells).1 = false) →
      (∃ done, fillFluxes (fun e2 => choose_action e2 tess cells eos pv seq) pre 0
          (List.replicate tess.getAllEdges.length default) = Except.ok done) ∧
        choose_action e tess cells eos pv seq
          = Except.error "Error in ConditionActionSequence" ∧
        call seq tess pv cells eos = Except.error "Error in ConditionActionSequence" ∧
        ∀ res : List Ext, call seq tess pv cells eos ≠ Except.ok res) := by
  have hok : (∀ e ∈ tess.getAllEdges, ∃ r ∈ seq, (r.1 e tess cells).1 = true) →
      ∃ res : List Ext, call seq tess pv cells eos = Except.ok res := by
    intro hcover
    obtain ⟨out, hout, _⟩ :=
      fillFluxes_ok (fun e => choose_action e tess cells eos pv seq) tess.getAllEdges 0
        (List.replicate tess.getAllEdges.length default)
        (fun e he => choose_action_ok_of_first e tess cells eos pv seq (hret e he)
          (hcover e he))
    exact ⟨out, hout⟩
  have hsplit : ∀ pre e post, tess.getAllEdges = pre ++ e :: post →
      (∀ e2 ∈ pre, ∃ r ∈ seq, (r.1 e2 tess cells).1 = true) →
      (∀ r ∈ seq, (r.1 e tess cells).1 = false) →
      (∃ done, fillFluxes (fun e2 => choose_action e2 tess cells eos pv seq) pre 0
          (List.replicate tess.getAllEdges.length default) = Except.ok done) ∧
        choose_action e tess cells eos pv seq
          = Except.error "Error in ConditionActionSequence" ∧
        call seq tess pv cells eos = Except.error "Error in ConditionActionSequence" ∧
        ∀ res : List Ext, call seq tess pv cells eos ≠ Except.ok res := by
    intro pre e post hedges hpre he
    have hpre_ok : ∀ e2 ∈ pre, ∃ x, choose_action e2 tess cells eos pv seq = Except.ok x := by
      intro e2 he2
      have hmem : e2 ∈ tess.getAllEdges := by rw [hedges]; simp [he2]
      exact choose_action_ok_of_first e2 tess cells eos pv seq (hret e2 hmem) (hpre e2 he2)
    have herr := choose_action_no_match e tess cells eos pv seq he
    have hcall : call seq tess pv cells eos
        = Except.error "Error in ConditionActionSequence" := by
      unfold call
      rw [hedges]
      exact fillFluxes_error (fun e2 => choose_action e2 tess cells eos pv seq) e post _
        herr pre 0 _ hpre_ok
    obtain ⟨done, hdone, _⟩ :=
      fillFluxes_ok (fun e2 => choose_action e2 tess cells eos pv seq) pre 0
        (List.replicate tess.getAllEdges.length default) hpre_ok
    refine ⟨⟨done, hdone⟩, herr, hcall, ?_⟩
    intro res hres
    rw [hcall] at hres
    cases hres
  refine ⟨⟨?_, ?_⟩, hok, hsplit⟩
  · intro herr
    by_contra hno
    have hcover : ∀ e ∈ tess.getAllEdges, ∃ r ∈ seq, (r.1 e tess cells).1 = true := by
      intro e he
      by_contra hne
      apply hno
      refine ⟨e, he, ?_⟩
      intro r hr
      by_contra hrt
      exact hne ⟨r, hr, by simpa using hrt⟩
    obtain ⟨res, hres⟩ := hok hcover
    rw [hres] at herr
    cases herr
  · intro hex
    obtain ⟨pre, e, post, hedges, hpre, he⟩ :=
      split_at_first (fun e => ∀ r ∈ seq, (r.1 e tess cells).1 = false) tess.getAllEdges hex
    have hpre2 : ∀ e2 ∈ pre, ∃ r ∈ seq, (r.1 e2 tess cells).1 = true := by
      intro e2 he2
      by_contra hne
      apply hpre e2 he2
      intro r hr
      by_contra hrt
      exact hne ⟨r, hr, by simpa using hrt⟩
    exact (hsplit pre e post hedges hpre2 he).2.2.1

end Dispatch

section Predicates

variable {R : Type}

/-- `IsBoundaryEdge` on an edge with at least one neighbor in range: it returns,
it matches exactly when the other neighbor is out of range, and the flag is
clear when the first neighbor is the one out of range and set otherwise. -/
theorem IsBoundaryEdge_value (edge : Edge R) (tess : Tessellation (Edge R))
    (cells : List (ComputationalCell R))
    (h : (0 ≤ edge.neighbors.1 ∧ edge.neighbors.1 < tess.GetPointNo) ∨
      (0 ≤ edge.neighbors.2 ∧ edge.neighbors.2 < tess.GetPointNo)) :
    IsBoundaryEdge edge tess cells = Except.ok
      (decide (¬ (0 ≤ edge.neighbors.1 ∧ edge.neighbors.1 < tess.GetPointNo) ∨
          ¬ (0 ≤ edge.neighbors.2 ∧ edge.neighbors.2 < tess.GetPointNo)),
       decide ((0 ≤ edge.neighbors.1 ∧ edge.neighbors.1 < tess.GetPointNo) ∧
          ¬ (0 ≤ edge.neighbors.2 ∧ edge.neighbors.2 < tess.GetPointNo))) := by
  simp only [IsBoundaryEdge]
  by_cases h1 : 0 ≤ edge.neighbors.1 ∧ edge.neighbors.1 < tess.GetPointNo
  · have c1 : ¬ (edge.neighbors.1 < 0 ∨ edge.neighbors.1 ≥ tess.GetPointNo) := by
      rintro (hc | hc) <;> omega
    rw [if_neg c1]
    by_cases h2 : 0 ≤ edge.neighbors.2 ∧ edge.neighbors.2 < tess.GetPointNo
    · have c2 : ¬ (edge.neighbors.2 < 0 ∨ edge.neighbors.2 ≥ tess.GetPointNo) := by
        rintro (hc | hc) <;> omega
      rw [if_neg c2]
      simp [h1, h2]
    · have c2 : edge.neighbors.2 < 0 ∨ edge.neighbors.2 ≥ tess.GetPointNo := by
        by_contra hc
        apply h2
        constructor <;> omega
      rw [if_pos c2]
      simp [h1, h2]
  · have h2 : 0 ≤ edge.neighbors.2 ∧ edge.neighbors.2 < tess.GetPointNo := by
      rcases h with h | h
      · exact absurd h h1
      · exact h
    have c1 : edge.neighbors.1 < 0 ∨ edge.neighbors.1 ≥ tess.GetPointNo := by
      by_contra hc
      apply h1
      constructor <;> omega
    have c2 : ¬ ¬ (edge.neighbors.2 ≥ 0 ∧ edge.neighbors.2 < tess.GetPointNo) :=
      fun hc => hc ⟨h2.1, h2.2⟩
    rw [if_pos c1, if_neg c2]
    simp [h1, h2]

/-- `IsBoundaryEdge` on an edge with both neighbors out of range stops at its
assertion. -/
theorem IsBoundaryEdge_assert (edge : Edge R) (tess : Tessellation (Edge R))
    (cells : List (ComputationalCell R))
    (h1 : ¬ (0 ≤ edge.neighbors.1 ∧ edge.neighbors.1 < tess.GetPointNo))
    (h2 : ¬ (0 ≤ edge.neighbors.2 ∧ edge.neighbors.2 < tess.GetPointNo)) :
    IsBoundaryEdge edge tess cells = Except.error
      "assert(edge.neighbors.second>=0 && edge.neighbors.second<tess.GetPointNo())" := by
  simp only [IsBoundaryEdge]
  have c1 : edge.neighbors.1 < 0 ∨ edge.neighbors.1 ≥ tess.GetPointNo := by
    by_contra hc
    apply h1
    constructor <;> omega
  have c2 : ¬ (edge.neighbors.2 ≥ 0 ∧ edge.neighbors.2 < tess.GetPointNo) :=
    fun hc => h2 ⟨hc.1, hc.2⟩
  rw [if_pos c1, if_pos c2]

/-- Claim C13 (amended). `IsBoundaryEdge` with `N = GetPointNo()`: for every edge
with at least one neighbor in `[0,N)` the predicate returns a pair, reports
`matches = true` if and only if exactly one of the two neighbors lies outside
`[0,N)`, and when it matches the flag is `false` exactly when the first
neighbor is the out-of-range one and `true` exactly when the second is; for an
edge with both neighbors outside `[0,N)` the assertion of line 236 stops the
call and no pair is reported. -/
theorem IsBoundaryEdge_spec (edge : Edge R) (tess : Tessellation (Edge R))
    (cells : List (ComputationalCell R)) :
    (((0 ≤ edge.neighbors.1 ∧ edge.neighbors.1 < tess.GetPointNo) ∨
        (0 ≤ edge.neighbors.2 ∧ edge.neighbors.2 < tess.GetPointNo)) →
      ∃ fa : Bool × Bool, IsBoundaryEdge edge tess cells = Except.ok fa ∧
        (fa.1 = true ↔
          (¬ (0 ≤ edge.neighbors.1 ∧ edge.neighbors.1 < tess.GetPointNo) ∧
            (0 ≤ edge.neighbors.2 ∧ edge.neighbors.2 < tess.GetPointNo)) ∨
          ((0 ≤ edge.neighbors.1 ∧ edge.neighbors.1 < tess.GetPointNo) ∧
            ¬ (0 ≤ edge.neighbors.2 ∧ edge.neighbors.2 < tess.GetPointNo))) ∧
        (fa.1 = true →
          (fa.2 = false ↔ ¬ (0 ≤ edge.neighbors.1 ∧ edge.neighbors.1 < tess.GetPointNo)) ∧
          (fa.2 = true ↔ ¬ (0 ≤ edge.neighbors.2 ∧ edge.neighbors.2 < tess.GetPointNo)))) ∧
    ((¬ (0 ≤ edge.neighbors.1 ∧ edge.neighbors.1 < tess.GetPointNo) ∧
        ¬ (0 ≤ edge.neighbors.2 ∧ edge.neighbors.2 < tess.GetPointNo)) →
      IsBoundaryEdge edge tess cells = Except.error
        "assert(edge.neighbors.second>=0 && edge.neighbors.second<tess.GetPointNo())" ∧
      ∀ fa : Bool × Bool, IsBoundaryEdge edge tess cells ≠ Except.ok fa) := by
  constructor
  · intro h
    refine ⟨_, IsBoundaryEdge_value edge tess cells h, ?_, ?_⟩
    · simp only [decide_eq_true_eq]
      tauto
    · simp only [decide_eq_true_eq, decide_eq_false_iff_not]
      intro hm
      tauto
  · rintro ⟨h1, h2⟩
    have he := IsBoundaryEdge_assert edge tess cells h1 h2
    refine ⟨he, ?_⟩
    intro fa hfa
    rw [he] at hfa
    cases hfa

/-- Worked instance of `IsBoundaryEdge_spec` on the sample mesh: the interior
edge, the two boundary edges and the edge with no interior neighbor. -/
theorem IsBoundaryEdge_spec_witness :
    IsBoundaryEdge interiorEdge meshTess meshCells = Except.ok (false, false) ∧
    IsBoundaryEdge boundaryEdge meshTess meshCells = Except.ok (true, true) ∧
    IsBoundaryEdge boundaryEdgeFirst meshTess meshCells = Except.ok (true, false) ∧
    (∃ fa : Bool × Bool, IsBoundaryEdge boundaryEdge meshTess meshCells = Except.ok fa ∧
      (fa.1 = true ↔
        (¬ (0 ≤ boundaryEdge.neighbors.1 ∧ boundaryEdge.neighbors.1 < meshTess.GetPointNo) ∧
          (0 ≤ boundaryEdge.neighbors.2 ∧ boundaryEdge.neighbors.2 < meshTess.GetPointNo)) ∨
        ((0 ≤ boundaryEdge.neighbors.1 ∧ boundaryEdge.neighbors.1 < meshTess.GetPointNo) ∧
          ¬ (0 ≤ boundaryEdge.neighbors.2 ∧
            boundaryEdge.neighbors.2 < meshTess.GetPointNo))) ∧
      (fa.1 = true →
        (fa.2 = false ↔
          ¬ (0 ≤ boundaryEdge.neighbors.1 ∧ boundaryEdge.neighbors.1 < meshTess.GetPointNo)) ∧
        (fa.2 = true ↔
          ¬ (0 ≤ boundaryEdge.neighbors.2 ∧
            boundaryEdge.neighbors.2 < meshTess.GetPointNo)))) ∧
    (∀ fa : Bool × Bool, IsBoundaryEdge ghostEdge meshTess meshCells ≠ Except.ok fa) :=
  ⟨rfl, rfl, rfl,
   (IsBoundaryEdge_spec boundaryEdge meshTess meshCells).1 (Or.inl ⟨by decide, by decide⟩),
   ((IsBoundaryEdge_spec ghostEdge meshTess meshCells).2 ⟨by decide, by decide⟩).2⟩

/-- Claim C13, counterexample. On the two-point sample mesh the edge with
neighbors `(-1, -1)` has both neighbors outside `[0, 2)`; `IsBoundaryEdge` does
not report `matches = false` for it, it stops at its assertion. -/
theorem IsBoundaryEdge_counterexample :
    ghostEdge.neighbors = (-1, -1) ∧ meshTess.GetPointNo = 2 ∧
    IsBoundaryEdge ghostEdge meshTess meshCells = Except.error
      "assert(edge.neighbors.second>=0 && edge.neighbors.second<tess.GetPointNo())" ∧
    IsBoundaryEdge ghostEdge meshTess meshCells ≠ Except.ok (false, false) ∧
    IsBoundaryEdge ghostEdge meshTess meshCells ≠ Except.ok (false, true) := by
  have h : IsBoundaryEdge ghostEdge meshTess meshCells = Except.error
      "assert(edge.neighbors.second>=0 && edge.neighbors.second<tess.GetPointNo())" := rfl
  refine ⟨rfl, rfl, h, ?_, ?_⟩
  · rw [h]; exact fun hc => by cases hc
  · rw [h]; exact fun hc => by cases hc

/-- A match of `IsBulkEdge` has both neighbors in range. -/
theorem IsBulkEdge_inRange (edge : Edge R) (tess : Tessellation (Edge R))
    (cells : List (ComputationalCell R)) (h : (IsBulkEdge edge tess cells).1 = true) :
    (0 ≤ edge.neighbors.1 ∧ edge.neighbors.1 < tess.GetPointNo) ∧
    (0 ≤ edge.neighbors.2 ∧ edge.neighbors.2 < tess.GetPointNo) := by
  simp only [IsBulkEdge, decide_eq_true_eq] at h
  exact ⟨⟨h.1, h.2.2.1⟩, ⟨h.2.1, h.2.2.2⟩⟩

/-- An edge with both neighbors in range is matched by `IsBulkEdge`. -/
theorem IsBulkEdge_of_inRange (edge : Edge R) (tess : Tessellation (Edge R))
    (cells : List (ComputationalCell R))
    (h1 : 0 ≤ edge.neighbors.1 ∧ edge.neighbors.1 < tess.GetPointNo)
    (h2 : 0 ≤ edge.neighbors.2 ∧ edge.neighbors.2 < tess.GetPointNo) :
    (IsBulkEdge edge tess cells).1 = true := by
  simp only [IsBulkEdge, decide_eq_true_eq]
  exact ⟨h1.1, h2.1, h1.2, h2.2⟩

/-- Claim C15. `IsBulkEdge` with `N = GetPointNo()`: for every edge and every
tessellation the predicate reports `matches = true` if and only if both
neighbors lie in `[0,N)`, and its auxFlag is `false` for every input. -/
theorem IsBulkEdge_spec (edge : Edge R) (tess : Tessellation (Edge R))
    (cells : List (ComputationalCell R)) :
    ((IsBulkEdge edge tess cells).1 = true ↔
      (0 ≤ edge.neighbors.1 ∧ edge.neighbors.1 < tess.GetPointNo) ∧
      (0 ≤ edge.neighbors.2 ∧ edge.neighbors.2 < tess.GetPointNo)) ∧
    (IsBulkEdge edge tess cells).2 = false := by
  constructor
  · constructor
    · intro h
      simp only [IsBulkEdge, decide_eq_true_eq] at h
      exact ⟨⟨h.1, h.2.2.1⟩, ⟨h.2.1, h.2.2.2⟩⟩
    · rintro ⟨⟨a, c⟩, ⟨b, d⟩⟩
      simp only [IsBulkEdge, decide_eq_true_eq]
      exact ⟨a, b, c, d⟩
  · rfl

/-- The sticker read of `RegularSpecialEdge` on a cell that exists and has the
sticker. -/
theorem stickerAt_of_entry (cells : List (ComputationalCell R)) (index : Int) (name : String)
    (cell : ComputationalCell R) (flag : Bool)
    (hcell : cells[index.toNat]? = some cell)
    (hflag : flatFind cell.stickers name = some flag) :
    stickerAt cells index name = Except.ok flag := by
  simp only [stickerAt, cellAt, hcell, hflag]

/-- `RegularSpecialEdge` on an edge with both neighbors in range whose two
cells carry the sticker: it matches when the two flags differ, and its flag
says that the second cell is the tagged one. -/
theorem RegularSpecialEdge_value (name : String) (edge : Edge R)
    (tess : Tessellation (Edge R)) (cells : List (ComputationalCell R))
    (t1 t2 : Bool)
    (h1 : 0 ≤ edge.neighbors.1 ∧ edge.neighbors.1 < tess.GetPointNo)
    (h2 : 0 ≤ edge.neighbors.2 ∧ edge.neighbors.2 < tess.GetPointNo)
    (hs1 : stickerAt cells edge.neighbors.1 name = Except.ok t1)
    (hs2 : stickerAt cells edge.neighbors.2 name = Except.ok t2) :
    RegularSpecialEdge name edge tess cells = Except.ok (t1 != t2, !t1 && t2) := by
  have c : ¬ (edge.neighbors.1 < 0 ∨ edge.neighbors.2 < 0 ∨
      edge.neighbors.1 ≥ tess.GetPointNo ∨ edge.neighbors.2 ≥ tess.GetPointNo) := by
    rintro (hc | hc | hc | hc) <;> omega
  simp only [RegularSpecialEdge]
  rw [if_neg c, hs1, hs2]
  cases t1 <;> cases t2 <;> rfl

/-- `RegularSpecialEdge` on an edge with a neighbor out of range: no match,
whatever the cells. -/
theorem RegularSpecialEdge_out (name : String) (edge : Edge R)
    (tess : Tessellation (Edge R)) (cells : List (ComputationalCell R))
    (h : ¬ (0 ≤ edge.neighbors.1 ∧ edge.neighbors.1 < tess.GetPointNo) ∨
      ¬ (0 ≤ edge.neighbors.2 ∧ edge.neighbors.2 < tess.GetPointNo)) :
    RegularSpecialEdge name edge tess cells = Except.ok (false, false) := by
  have c : edge.neighbors.1 < 0 ∨ edge.neighbors.2 < 0 ∨
      edge.neighbors.1 ≥ tess.GetPointNo ∨ edge.neighbors.2 ≥ tess.GetPointNo := by
    by_contra hc
    rcases h with h | h
    · apply h; constructor <;> omega
    · apply h; constructor <;> omega
  simp only [RegularSpecialEdge]
  rw [if_pos c]

/-- A match of `RegularSpecialEdge` has both neighbors in range, and the two
sticker reads succeeded with one flag set and the other clear; the flag of the
match says which. -/
theorem RegularSpecialEdge_match (name : String) (edge : Edge R)
    (tess : Tessellation (Edge R)) (cells : List (ComputationalCell R)) (aux : Bool)
    (h : RegularSpecialEdge name edge tess cells = Except.ok (true, aux)) :
    (0 ≤ edge.neighbors.1 ∧ edge.neighbors.1 < tess.GetPointNo) ∧
    (0 ≤ edge.neighbors.2 ∧ edge.neighbors.2 < tess.GetPointNo) ∧
    stickerAt cells edge.neighbors.1 name = Except.ok (!aux) ∧
    stickerAt cells edge.neighbors.2 name = Except.ok aux := by
  by_cases hin : (0 ≤ edge.neighbors.1 ∧ edge.neighbors.1 < tess.GetPointNo) ∧
      (0 ≤ edge.neighbors.2 ∧ edge.neighbors.2 < tess.GetPointNo)
  · have c : ¬ (edge.neighbors.1 < 0 ∨ edge.neighbors.2 < 0 ∨
        edge.neighbors.1 ≥ tess.GetPointNo ∨ edge.neighbors.2 ≥ tess.GetPointNo) := by
      rintro (hc | hc | hc | hc) <;> omega
    simp only [RegularSpecialEdge] at h
    rw [if_neg c] at h
    refine ⟨hin.1, hin.2, ?_⟩
    cases hs1 : stickerAt cells edge.neighbors.1 name with
    | error m => rw [hs1] at h; cases h
    | ok t1 =>
      cases hs2 : stickerAt cells edge.neighbors.2 name with
      | error m => rw [hs1, hs2] at h; cases t1 <;> cases h
      | ok t2 =>
        rw [hs1, hs2] at h
        cases t1 <;> cases t2 <;> cases aux <;> simp at h <;> simp
  · have hout : ¬ (0 ≤ edge.neighbors.1 ∧ edge.neighbors.1 < tess.GetPointNo) ∨
        ¬ (0 ≤ edge.neighbors.2 ∧ edge.neighbors.2 < tess.GetPointNo) := by
      by_contra hc
      apply hin
      constructor
      · by_contra h1; exact hc (Or.inl h1)
      · by_contra h2; exact hc (Or.inr h2)
    rw [RegularSpecialEdge_out name edge tess cells hout] at h
    cases h

/-- Claim C14. `RegularSpecialEdge(tagName)` with `N = GetPointNo()`: for every
edge whose two neighbor indices lie in `[0,N)` and whose two neighbor cells
exist and both have an entry for `tagName` in their sticker map, the predicate
matches if and only if exactly one of the two cells has the tag set (two
tagged or two untagged neighbors never match); when it matches, auxFlag is
`true` iff the tagged cell is the second neighbor. An edge with any
out-of-range neighbor never matches, and no cell is read for it: the result
is `(false, false)` for every cell vector. -/
theorem RegularSpecialEdge_spec (name : String) (edge : Edge R)
    (tess : Tessellation (Edge R)) (cells : List (ComputationalCell R)) :
    (∀ (c1 c2 : ComputationalCell R) (t1 t2 : Bool),
      (0 ≤ edge.neighbors.1 ∧ edge.neighbors.1 < tess.GetPointNo) →
      (0 ≤ edge.neighbors.2 ∧ edge.neighbors.2 < tess.GetPointNo) →
      cells[edge.neighbors.1.toNat]? = some c1 → cells[edge.neighbors.2.toNat]? = some c2 →
      flatFind c1.stickers name = some t1 → flatFind c2.stickers name = some t2 →
      ∃ fa : Bool × Bool, RegularSpecialEdge name edge tess cells = Except.ok fa ∧
        (fa.1 = true ↔ (t1 = true ∧ t2 = false) ∨ (t1 = false ∧ t2 = true)) ∧
        (fa.1 = true → (fa.2 = true ↔ t2 = true))) ∧
    ((¬ (0 ≤ edge.neighbors.1 ∧ edge.neighbors.1 < tess.GetPointNo) ∨
        ¬ (0 ≤ edge.neighbors.2 ∧ edge.neighbors.2 < tess.GetPointNo)) →
      ∀ cells2 : List (ComputationalCell R),
        RegularSpecialEdge name edge tess cells2 = Except.ok (false, false)) := by
  constructor
  · intro c1 c2 t1 t2 h1 h2 hc1 hc2 hf1 hf2
    refine ⟨_, RegularSpecialEdge_value name edge tess cells t1 t2 h1 h2
      (stickerAt_of_entry cells _ name c1 t1 hc1 hf1)
      (stickerAt_of_entry cells _ name c2 t2 hc2 hf2), ?_, ?_⟩
    · cases t1 <;> cases t2 <;> simp
    · cases t1 <;> cases t2 <;> simp
  · intro h cells2
    exact RegularSpecialEdge_out name edge tess cells2 h

/-- Worked instance of `RegularSpecialEdge_spec` on the sample mesh: the
interior edge lies between the tagged cell `0` and the untagged cell `1`, the
boundary edge has a neighbor out of range. -/
theorem RegularSpecialEdge_spec_witness :
    (∃ fa : Bool × Bool,
      RegularSpecialEdge "wall" interiorEdge meshTess meshCells = Except.ok fa ∧
      (fa.1 = true ↔ (true = true ∧ false = false) ∨ (true = false ∧ false = true)) ∧
      (fa.1 = true → (fa.2 = true ↔ false = true))) ∧
    (∀ cells2 : List (ComputationalCell ℚ),
      RegularSpecialEdge "wall" boundaryEdge meshTess cells2 = Except.ok (false, false)) :=
  ⟨(RegularSpecialEdge_spec "wall" interiorEdge meshTess meshCells).1 cellZero cellOne
      true false (by decide) (by decide) rfl rfl rfl rfl,
   (RegularSpecialEdge_spec "wall" boundaryEdge meshTess meshCells).2
      (Or.inr (by decide))⟩

/-- The entry assertions of `RegularFlux` pass on an edge with both neighbors
in range. -/
theorem regularFluxAsserts_ok (edge : Edge R) (tess : Tessellation (Edge R))
    (h1 : 0 ≤ edge.neighbors.1 ∧ edge.neighbors.1 < tess.GetPointNo)
    (h2 : 0 ≤ edge.neighbors.2 ∧ edge.neighbors.2 < tess.GetPointNo) :
    regularFluxAsserts edge tess = Except.ok () := by
  simp only [regularFluxAsserts]
  rw [if_neg (fun hc => hc ⟨h1.1, h1.2⟩), if_neg (fun hc => hc ⟨h2.1, h2.2⟩)]

/-- The entry assertion of the one-sided rules passes when the neighbor picked
by `aux` is in range. -/
theorem oneSidedAsserts_ok (edge : Edge R) (tess : Tessellation (Edge R)) (aux : Bool)
    (h : 0 ≤ (if aux then edge.neighbors.1 else edge.neighbors.2) ∧
      (if aux then edge.neighbors.1 else edge.neighbors.2) < tess.GetPointNo) :
    oneSidedAsserts edge tess aux = Except.ok () := by
  cases aux
  · simp only [oneSidedAsserts]
    simp only [Bool.false_eq_true, if_false] at h ⊢
    rw [if_neg (fun hc => hc ⟨h.1, h.2⟩)]
  · simp only [oneSidedAsserts]
    simp only [if_true] at h ⊢
    rw [if_neg (fun hc => hc ⟨h.1, h.2⟩)]

/-- The one-sided rules read only the cell picked by `aux`. -/
theorem cellAt_congr (cells cells2 : List (ComputationalCell R)) (index : Int)
    (h : cells2[index.toNat]? = cells[index.toNat]?) :
    cellAt cells2 index = cellAt cells index := by
  simp only [cellAt, h]

/-- Claim C19. The standard rule pairings do not trip the neighbor-index
assertions of the actions. For every edge that `IsBulkEdge` matches, and for
every edge that `RegularSpecialEdge` matches, both assertions at the entry of
`RegularFlux` pass. For every edge that `IsBoundaryEdge` or
`RegularSpecialEdge` matches with auxFlag `x`, the assertion at the entry of
`RigidWallFlux` and of `FreeFlowFlux` called with `aux = x` passes: the
neighbor selected by `x` (first if `x`, second otherwise) lies in `[0,N)`; for
`IsBoundaryEdge` the other neighbor is out of range, so the selected one is the
interior side of the boundary edge, and for `RegularSpecialEdge` the selected
cell is the untagged one and the other the tagged one. -/
theorem matched_edges_pass_asserts (edge : Edge R) (tess : Tessellation (Edge R))
    (cells : List (ComputationalCell R)) :
    ((IsBulkEdge edge tess cells).1 = true → regularFluxAsserts edge tess = Except.ok ()) ∧
    (∀ (name : String) (x : Bool),
      RegularSpecialEdge name edge tess cells = Except.ok (true, x) →
      regularFluxAsserts edge tess = Except.ok () ∧
      oneSidedAsserts edge tess x = Except.ok () ∧
      (0 ≤ (if x then edge.neighbors.1 else edge.neighbors.2) ∧
        (if x then edge.neighbors.1 else edge.neighbors.2) < tess.GetPointNo) ∧
      stickerAt cells (if x then edge.neighbors.1 else edge.neighbors.2) name
        = Except.ok false ∧
      stickerAt cells (if x then edge.neighbors.2 else edge.neighbors.1) name
        = Except.ok true) ∧
    (∀ x : Bool, IsBoundaryEdge edge tess cells = Except.ok (true, x) →
      oneSidedAsserts edge tess x = Except.ok () ∧
      (0 ≤ (if x then edge.neighbors.1 else edge.neighbors.2) ∧
        (if x then edge.neighbors.1 else edge.neighbors.2) < tess.GetPointNo) ∧
      ¬ (0 ≤ (if x then edge.neighbors.2 else edge.neighbors.1) ∧
        (if x then edge.neighbors.2 else edge.neighbors.1) < tess.GetPointNo)) := by
  have hreg : (0 ≤ edge.neighbors.1 ∧ edge.neighbors.1 < tess.GetPointNo) →
      (0 ≤ edge.neighbors.2 ∧ edge.neighbors.2 < tess.GetPointNo) →
      regularFluxAsserts edge tess = Except.ok () := by
    intro h1 h2
    simp only [regularFluxAsserts]
    rw [if_neg (fun hc => hc ⟨h1.1, h1.2⟩), if_neg (fun hc => hc ⟨h2.1, h2.2⟩)]
  have hone : ∀ x : Bool,
      (0 ≤ (if x then edge.neighbors.1 else edge.neighbors.2) ∧
        (if x then edge.neighbors.1 else edge.neighbors.2) < tess.GetPointNo) →
      oneSidedAsserts edge tess x = Except.ok () := by
    intro x hx
    cases x
    · simp only [oneSidedAsserts]
      simp only [Bool.false_eq_true, if_false] at hx ⊢
      rw [if_neg (fun hc => hc ⟨hx.1, hx.2⟩)]
    · simp only [oneSidedAsserts]
      simp only [if_true] at hx ⊢
      rw [if_neg (fun hc => hc ⟨hx.1, hx.2⟩)]
  refine ⟨?_, ?_, ?_⟩
  · intro hm
    have hb := IsBulkEdge_inRange edge tess cells hm
    exact hreg hb.1 hb.2
  · intro name x hm
    obtain ⟨h1, h2, hs1, hs2⟩ := RegularSpecialEdge_match name edge tess cells x hm
    have hsel : 0 ≤ (if x then edge.neighbors.1 else edge.neighbors.2) ∧
        (if x then edge.neighbors.1 else edge.neighbors.2) < tess.GetPointNo := by
      cases x
      · simpa using h2
      · simpa using h1
    refine ⟨hreg h1 h2, hone x hsel, hsel, ?_, ?_⟩
    · cases x
      · simpa using hs2
      · simpa using hs1
    · cases x
      · simpa using hs1
      · simpa using hs2
  · intro x hm
    by_cases hin : (0 ≤ edge.neighbors.1 ∧ edge.neighbors.1 < tess.GetPointNo) ∨
        (0 ≤ edge.neighbors.2 ∧ edge.neighbors.2 < tess.GetPointNo)
    · rw [IsBoundaryEdge_value edge tess cells hin] at hm
      injection hm with hm
      have hm1 := congrArg Prod.fst hm
      have hm2 := congrArg Prod.snd hm
      simp only [decide_eq_true_eq] at hm1
      cases x
      · simp only [decide_eq_false_iff_not] at hm2
        have h2 : 0 ≤ edge.neighbors.2 ∧ edge.neighbors.2 < tess.GetPointNo := by tauto
        have h1 : ¬ (0 ≤ edge.neighbors.1 ∧ edge.neighbors.1 < tess.GetPointNo) := by tauto
        have hsel : 0 ≤ (if false = true then edge.neighbors.1 else edge.neighbors.2) ∧
            (if false = true then edge.neighbors.1 else edge.neighbors.2)
              < tess.GetPointNo := by simpa using h2
        exact ⟨hone false hsel, hsel, by simpa using h1⟩
      · simp only [decide_eq_true_eq] at hm2
        have hsel : 0 ≤ (if true = true then edge.neighbors.1 else edge.neighbors.2) ∧
            (if true = true then edge.neighbors.1 else edge.neighbors.2)
              < tess.GetPointNo := by simpa using hm2.1
        exact ⟨hone true hsel, hsel, by simpa using hm2.2⟩
    · have h1 : ¬ (0 ≤ edge.neighbors.1 ∧ edge.neighbors.1 < tess.GetPointNo) :=
        fun h => hin (Or.inl h)
      have h2 : ¬ (0 ≤ edge.neighbors.2 ∧ edge.neighbors.2 < tess.GetPointNo) :=
        fun h => hin (Or.inr h)
      rw [IsBoundaryEdge_assert edge tess cells h1 h2] at hm
      cases hm

/-- Worked instance of `matched_edges_pass_asserts` on the sample mesh: the
interior edge (matched by `IsBulkEdge` and by `RegularSpecialEdge "wall"` with
flag `false`) and the boundary edge (matched by `IsBoundaryEdge` with flag
`true`). -/
theorem matched_edges_pass_asserts_witness :
    (IsBulkEdge interiorEdge meshTess meshCells).1 = true ∧
    regularFluxAsserts interiorEdge meshTess = Except.ok () ∧
    RegularSpecialEdge "wall" interiorEdge meshTess meshCells = Except.ok (true, false) ∧
    oneSidedAsserts interiorEdge meshTess false = Except.ok () ∧
    IsBoundaryEdge boundaryEdge meshTess meshCells = Except.ok (true, true) ∧
    oneSidedAsserts boundaryEdge meshTess true = Except.ok () :=
  ⟨rfl, (matched_edges_pass_asserts interiorEdge meshTess meshCells).1 rfl, rfl,
   ((matched_edges_pass_asserts interiorEdge meshTess meshCells).2.1 "wall" false rfl).2.1,
   rfl, ((matched_edges_pass_asserts boundaryEdge meshTess meshCells).2.2 true rfl).1⟩

/-- Rules that do not match are skipped. -/
theorem choose_action_skip {Edge Cell PV EOS Ext : Type}
    (edge : Edge) (tess : Tessellation Edge) (cells : List Cell) (eos : EOS)
    (pv : List PV) (pre rest : Sequence Edge Cell PV EOS Ext)
    (hpre : ∀ q ∈ pre, (q.1 edge tess cells).1 = false) :
    choose_action edge tess cells eos pv (pre ++ rest)
      = choose_action edge tess cells eos pv rest := by
  induction pre with
  | nil => rfl
  | cons q qs ih =>
    have hq : (q.1 edge tess cells).1 = false := hpre q (List.mem_cons_self _ _)
    have hqs : ∀ r ∈ qs, (r.1 edge tess cells).1 = false :=
      fun r hr => hpre r (List.mem_cons_of_mem _ hr)
    simp [choose_action, hq, ih hqs]

/-- When each action returns on the edges its condition matches, a matched
edge gets a flux. -/
theorem choose_action_ok_of_matched {Edge Cell PV EOS Ext : Type}
    (edge : Edge) (tess : Tessellation Edge) (cells : List Cell) (eos : EOS)
    (pv : List PV) (seq : Sequence Edge Cell PV EOS Ext)
    (hact : ∀ r ∈ seq, (r.1 edge tess cells).1 = true →
      ∃ x, r.2 edge tess pv cells eos (r.1 edge tess cells).2 = Except.ok x)
    (h : ∃ r ∈ seq, (r.1 edge tess cells).1 = true) :
    ∃ x, choose_action edge tess cells eos pv seq = Except.ok x := by
  obtain ⟨pre, rule, post, hseq, hpre, hrule⟩ := exists_first_match edge tess cells seq h
  have hmem : rule ∈ seq := by rw [hseq]; simp
  obtain ⟨x, hx⟩ := hact rule hmem hrule
  refine ⟨x, ?_⟩
  rw [hseq, choose_action_first_match edge tess cells eos pv pre post rule hpre hrule, hx]

/-- Where `IsBoundaryEdge` returns, the build without the assertion returns the
same pair. -/
theorem IsBoundaryEdge_noAssert (edge : Edge R) (tess : Tessellation (Edge R))
    (cells : List (ComputationalCell R)) (fa : Bool × Bool)
    (h : IsBoundaryEdge edge tess cells = Except.ok fa) :
    IsBoundaryEdgeNoAssert edge tess cells = fa := by
  simp only [IsBoundaryEdge] at h
  simp only [IsBoundaryEdgeNoAssert]
  split_ifs at h ⊢ <;> cases h <;> rfl

/-- On an edge with a neighbor in range, `IsBoundaryEdge` returns and exactly
one of `IsBoundaryEdge`, `IsBulkEdge` matches. -/
theorem boundary_xor_bulk (edge : Edge R) (tess : Tessellation (Edge R))
    (cells : List (ComputationalCell R))
    (h : (0 ≤ edge.neighbors.1 ∧ edge.neighbors.1 < tess.GetPointNo) ∨
      (0 ≤ edge.neighbors.2 ∧ edge.neighbors.2 < tess.GetPointNo)) :
    ∃ fa : Bool × Bool, IsBoundaryEdge edge tess cells = Except.ok fa ∧
      ((fa.1 = true ∧ (IsBulkEdge edge tess cells).1 = false) ∨
        (fa.1 = false ∧ (IsBulkEdge edge tess cells).1 = true)) := by
  refine ⟨_, IsBoundaryEdge_value edge tess cells h, ?_⟩
  by_cases hb : (0 ≤ edge.neighbors.1 ∧ edge.neighbors.1 < tess.GetPointNo) ∧
      (0 ≤ edge.neighbors.2 ∧ edge.neighbors.2 < tess.GetPointNo)
  · right
    refine ⟨?_, IsBulkEdge_of_inRange edge tess cells hb.1 hb.2⟩
    simp only [decide_eq_false_iff_not]
    tauto
  · left
    constructor
    · simp only [decide_eq_true_eq]
      tauto
    · cases hk : (IsBulkEdge edge tess cells).1 with
      | false => rfl
      | true => exact absurd (IsBulkEdge_inRange edge tess cells hk) hb

/-- A sequence holding a rule with the condition `IsBulkEdge` and a rule whose
condition returns what `IsBoundaryEdge` returns selects a rule for an edge with
a neighbor in range. -/
theorem boundary_bulk_select {PV EOS Ext : Type} (edge : Edge R)
    (tess : Tessellation (Edge R)) (cells : List (ComputationalCell R))
    (seq : Sequence (Edge R) (ComputationalCell R) PV EOS Ext)
    (rB rK : Condition (Edge R) (ComputationalCell R)
      × Action (Edge R) (ComputationalCell R) PV EOS Ext)
    (hB : rB ∈ seq) (hK : rK ∈ seq) (hKc : rK.1 = IsBulkEdge)
    (hBc : ∀ fa, IsBoundaryEdge edge tess cells = Except.ok fa → rB.1 edge tess cells = fa)
    (h : (0 ≤ edge.neighbors.1 ∧ edge.neighbors.1 < tess.GetPointNo) ∨
      (0 ≤ edge.neighbors.2 ∧ edge.neighbors.2 < tess.GetPointNo)) :
    ∃ r ∈ seq, (r.1 edge tess cells).1 = true := by
  obtain ⟨fa, hfa, hx⟩ := boundary_xor_bulk edge tess cells h
  rcases hx with ⟨hm, _⟩ | ⟨_, hm⟩
  · exact ⟨rB, hB, by rw [hBc fa hfa]; exact hm⟩
  · exact ⟨rK, hK, by rw [hKc]; exact hm⟩

/-- Claim C20. `IsBoundaryEdge` and `IsBulkEdge` partition the edges that have an
interior neighbor: for every edge with at least one neighbor index in `[0,N)`,
`IsBoundaryEdge` returns and exactly one of the two predicates matches.
Therefore, in any rule sequence holding a rule with each of the two conditions,
`choose_action` selects a rule for such an edge (it does not run off the end
of the sequence), and on a mesh all of whose edges have an in-range neighbor
the call returns a flux vector as soon as every action returns on the edges
its condition matches. Every edge
matched by `RegularSpecialEdge` is matched by `IsBulkEdge`, so a
`RegularSpecialEdge` rule placed after an `IsBulkEdge` rule is never selected:
deleting it from the sequence changes the outcome for no edge. -/
theorem boundary_bulk_partition {PV EOS Ext : Type} [Inhabited Ext]
    (tess : Tessellation (Edge R)) (cells : List (ComputationalCell R))
    (pv : List PV) (eos : EOS) :
    (∀ edge : Edge R,
      ((0 ≤ edge.neighbors.1 ∧ edge.neighbors.1 < tess.GetPointNo) ∨
        (0 ≤ edge.neighbors.2 ∧ edge.neighbors.2 < tess.GetPointNo)) →
      ∃ fa : Bool × Bool, IsBoundaryEdge edge tess cells = Except.ok fa ∧
        ((fa.1 = true ∧ (IsBulkEdge edge tess cells).1 = false) ∨
          (fa.1 = false ∧ (IsBulkEdge edge tess cells).1 = true))) ∧
    (∀ (seq : Sequence (Edge R) (ComputationalCell R) PV EOS Ext)
      (rB rK : Condition (Edge R) (ComputationalCell R)
        × Action (Edge R) (ComputationalCell R) PV EOS Ext) (edge : Edge R),
      rB ∈ seq → rK ∈ seq → rK.1 = IsBulkEdge →
      (∀ fa, IsBoundaryEdge edge tess cells = Except.ok fa → rB.1 edge tess cells = fa) →
      ((0 ≤ edge.neighbors.1 ∧ edge.neighbors.1 < tess.GetPointNo) ∨
        (0 ≤ edge.neighbors.2 ∧ edge.neighbors.2 < tess.GetPointNo)) →
      ∃ pre rule post, seq = pre ++ rule :: post ∧
        (∀ q ∈ pre, (q.1 edge tess cells).1 = false) ∧
        (rule.1 edge tess cells).1 = true ∧
        choose_action edge tess cells eos pv seq
          = rule.2 edge tess pv cells eos (rule.1 edge tess cells).2) ∧
    (∀ (seq : Sequence (Edge R) (ComputationalCell R) PV EOS Ext)
      (rB rK : Condition (Edge R) (ComputationalCell R)
        × Action (Edge R) (ComputationalCell R) PV EOS Ext),
      rB ∈ seq → rK ∈ seq → rK.1 = IsBulkEdge →
      (∀ edge ∈ tess.getAllEdges, ∀ fa,
        IsBoundaryEdge edge tess cells = Except.ok fa → rB.1 edge tess cells = fa) →
      (∀ edge ∈ tess.getAllEdges,
        (0 ≤ edge.neighbors.1 ∧ edge.neighbors.1 < tess.GetPointNo) ∨
        (0 ≤ edge.neighbors.2 ∧ edge.neighbors.2 < tess.GetPointNo)) →
      (∀ edge ∈ tess.getAllEdges, ∀ r ∈ seq, (r.1 edge tess cells).1 = true →
        ∃ x, r.2 edge tess pv cells eos (r.1 edge tess cells).2 = Except.ok x) →
      ∃ res : List Ext, call seq tess pv cells eos = Except.ok res ∧
        res.length = tess.getAllEdges.length) ∧
    (∀ (name : String) (edge : Edge R) (x : Bool),
      RegularSpecialEdge name edge tess cells = Except.ok (true, x) →
      (IsBulkEdge edge tess cells).1 = true) ∧
    (∀ (name : String) (pre mid post : Sequence (Edge R) (ComputationalCell R) PV EOS Ext)
      (rK rS : Condition (Edge R) (ComputationalCell R)
        × Action (Edge R) (ComputationalCell R) PV EOS Ext) (edge : Edge R),
      rK.1 = IsBulkEdge →
      (∀ fa, RegularSpecialEdge name edge tess cells = Except.ok fa →
        rS.1 edge tess cells = fa) →
      choose_action edge tess cells eos pv (pre ++ rK :: (mid ++ rS :: post))
        = choose_action edge tess cells eos pv (pre ++ rK :: (mid ++ post))) := by
  refine ⟨?_, ?_, ?_, ?_, ?_⟩
  · intro edge h
    exact boundary_xor_bulk edge tess cells h
  · intro seq rB rK edge hB hK hKc hBc h
    obtain ⟨pre, rule, post, hseq, hpre, hrule⟩ := exists_first_match edge tess cells seq
      (boundary_bulk_select edge tess cells seq rB rK hB hK hKc hBc h)
    refine ⟨pre, rule, post, hseq, hpre, hrule, ?_⟩
    rw [hseq]
    exact choose_action_first_match edge tess cells eos pv pre post rule hpre hrule
  · intro seq rB rK hB hK hKc hBc hmesh hact
    obtain ⟨out, hout, hlen, _⟩ :=
      fillFluxes_ok (fun e => choose_action e tess cells eos pv seq) tess.getAllEdges 0
        (List.replicate tess.getAllEdges.length default)
        (fun e he => choose_action_ok_of_matched e tess cells eos pv seq (hact e he)
          (boundary_bulk_select e tess cells seq rB rK hB hK hKc (hBc e he) (hmesh e he)))
    exact ⟨out, hout, by simpa using hlen⟩
  · intro name edge x hm
    obtain ⟨h1, h2, _⟩ := RegularSpecialEdge_match name edge tess cells x hm
    exact IsBulkEdge_of_inRange edge tess cells h1 h2
  · intro name pre mid post rK rS edge hKc hSc
    by_cases hex : ∃ r ∈ pre ++ rK :: mid, (r.1 edge tess cells).1 = true
    · obtain ⟨a, r, b, hsplit, ha, hr⟩ :=
        exists_first_match edge tess cells (pre ++ rK :: mid) hex
      have e1 : pre ++ rK :: (mid ++ rS :: post) = a ++ r :: (b ++ rS :: post) := by
        have : pre ++ rK :: (mid ++ rS :: post) = (pre ++ rK :: mid) ++ rS :: post := by simp
        rw [this, hsplit]; simp
      have e2 : pre ++ rK :: (mid ++ post) = a ++ r :: (b ++ post) := by
        have : pre ++ rK :: (mid ++ post) = (pre ++ rK :: mid) ++ post := by simp
        rw [this, hsplit]; simp
      rw [e1, e2, choose_action_first_match edge tess cells eos pv a _ r ha hr,
        choose_action_first_match edge tess cells eos pv a _ r ha hr]
    · have hno : ∀ q ∈ pre ++ rK :: mid, (q.1 edge tess cells).1 = false := by
        intro q hq
        cases hqv : (q.1 edge tess cells).1 with
        | false => rfl
        | true => exact absurd ⟨q, hq, hqv⟩ hex
      have hK : (IsBulkEdge edge tess cells).1 = false := by
        rw [← hKc]
        exact hno rK (by simp)
      have hout : ¬ (0 ≤ edge.neighbors.1 ∧ edge.neighbors.1 < tess.GetPointNo) ∨
          ¬ (0 ≤ edge.neighbors.2 ∧ edge.neighbors.2 < tess.GetPointNo) := by
        by_contra hc
        have h1 : 0 ≤ edge.neighbors.1 ∧ edge.neighbors.1 < tess.GetPointNo := by
          by_contra h1; exact hc (Or.inl h1)
        have h2 : 0 ≤ edge.neighbors.2 ∧ edge.neighbors.2 < tess.GetPointNo := by
          by_contra h2; exact hc (Or.inr h2)
        rw [IsBulkEdge_of_inRange edge tess cells h1 h2] at hK
        cases hK
      have hS : (rS.1 edge tess cells).1 = false := by
        rw [hSc _ (RegularSpecialEdge_out name edge tess cells hout)]
      have e1 : pre ++ rK :: (mid ++ rS :: post) = (pre ++ rK :: mid) ++ ([rS] ++ post) := by
        simp
      have e2 : pre ++ rK :: (mid ++ post) = (pre ++ rK :: mid) ++ post := by simp
      rw [e1, e2, choose_action_skip edge tess cells eos pv _ _ hno,
        choose_action_skip edge tess cells eos pv _ _ hno,
        choose_action_skip edge tess cells eos pv [rS] post (by simpa using hS)]

end Predicates

section FluxTheorems

variable {R : Type} [LinearOrderedField R]

/-- Reading a key after an assignment. -/
theorem flatFind_flatAssign {α : Type} (m : List (String × α)) (key : String) (value : α)
    (k : String) :
    flatFind (flatAssign m key value) k = if key = k then some value else flatFind m k := by
  induction m with
  | nil => simp [flatAssign, flatFind]
  | cons entry rest ih =>
    simp only [flatAssign]
    split_ifs with h1 h2 h3 <;> simp only [flatFind] <;> (try rw [ih]) <;>
      split_ifs <;> simp_all

/-- Reading a key after the tracer loop of `conserved_to_extensive`, run on a
map with distinct keys. -/
theorem flatFind_foldl (mass : R) (k : String) :
    ∀ (entries acc : List (String × R)), (entries.map Prod.fst).Nodup →
      flatFind (entries.foldl (fun m it => flatAssign m it.1 (it.2 * mass)) acc) k
        = match flatFind entries k with
          | some value => some (value * mass)
          | none => flatFind acc k := by
  intro entries
  induction entries with
  | nil => intro acc _; rfl
  | cons entry rest ih =>
    intro acc hnd
    have hnd2 : (rest.map Prod.fst).Nodup := (List.nodup_cons.1 hnd).2
    have hnot : entry.1 ∉ rest.map Prod.fst := (List.nodup_cons.1 hnd).1
    simp only [List.foldl_cons]
    rw [ih _ hnd2]
    simp only [flatFind]
    by_cases h : entry.1 = k
    · rw [if_pos h]
      have hnone : flatFind rest k = none := by
        rw [← h]
        clear ih hnd hnd2 h
        induction rest with
        | nil => rfl
        | cons e2 r2 ih2 =>
          simp only [List.map_cons, List.mem_cons, not_or] at hnot
          simp only [flatFind]
          rw [if_neg (fun hc => hnot.1 hc.symm)]
          exact ih2 hnot.2
      rw [hnone]
      simp only []
      rw [flatFind_flatAssign, if_pos h]
    · rw [if_neg h]
      cases hf : flatFind rest k with
      | some v => rfl
      | none =>
        simp only []
        rw [flatFind_flatAssign, if_neg h]

/-- The tracer loop of `conserved_to_extensive` touches the tracer map only. -/
theorem foldl_tracers_fields (mass : R) :
    ∀ (entries : List (String × R)) (acc : Extensive R),
      (entries.foldl
        (fun a it => ({ a with tracers := flatAssign a.tracers it.1 (it.2 * mass) } :
          Extensive R)) acc)
        = { acc with tracers :=
              entries.foldl (fun m it => flatAssign m it.1 (it.2 * mass)) acc.tracers } := by
  intro entries
  induction entries with
  | nil => intro acc; rfl
  | cons entry rest ih =>
    intro acc
    simp only [List.foldl_cons]
    rw [ih]

/-- What `conserved_to_extensive` returns: the three conserved fluxes and, under
each tracer name of the cell, the tracer fraction times the mass flux. -/
theorem conserved_to_extensive_value (c : Conserved R) (cell : ComputationalCell R)
    (hkeys : (cell.tracers.map Prod.fst).Nodup) :
    (conserved_to_extensive c cell).mass = c.Mass ∧
    (conserved_to_extensive c cell).momentum = c.Momentum ∧
    (conserved_to_extensive c cell).energy = c.Energy ∧
    ∀ k, flatFind (conserved_to_extensive c cell).tracers k
      = (flatFind cell.tracers k).map (fun value => value * c.Mass) := by
  simp only [conserved_to_extensive]
  rw [foldl_tracers_fields]
  refine ⟨rfl, rfl, rfl, ?_⟩
  intro k
  simp only []
  rw [flatFind_foldl c.Mass k cell.tracers _ hkeys]
  cases flatFind cell.tracers k with
  | some v => rfl
  | none => rfl


/-- `RegularFlux` once its pieces return: the flux of the solver, tagged with
the tracers of the first cell for a positive mass flux and of the second cell
otherwise. -/
theorem RegularFlux_value {EOS RS : Type} (ext : External R EOS RS) (rs : RS)
    (edge : Edge R) (tess : Tessellation (Edge R)) (pv : List (Vector2D R))
    (cells : List (ComputationalCell R)) (eos : EOS) (aux : Bool)
    (w1 w2 : Vector2D R) (cell1 cell2 : ComputationalCell R) (left right : Primitive R)
    (c : Conserved R)
    (h1 : 0 ≤ edge.neighbors.1 ∧ edge.neighbors.1 < tess.GetPointNo)
    (h2 : 0 ≤ edge.neighbors.2 ∧ edge.neighbors.2 < tess.GetPointNo)
    (hw1 : pv[edge.neighbors.1.toNat]? = some w1)
    (hw2 : pv[edge.neighbors.2.toNat]? = some w2)
    (hc1 : cells[edge.neighbors.1.toNat]? = some cell1)
    (hc2 : cells[edge.neighbors.2.toNat]? = some cell2)
    (hl : ext.convert_to_primitive cell1 eos = Except.ok left)
    (hr : ext.convert_to_primitive cell2 eos = Except.ok right)
    (hc : ext.rotate_solve_rotate_back rs left right (regularVelocity ext edge tess w1 w2)
      (regularNormal ext edge tess) (edgeTangent ext edge) = Except.ok c) :
    RegularFlux ext rs edge tess pv cells eos aux
      = Except.ok (conserved_to_extensive c (if c.Mass > 0 then cell1 else cell2)) := by
  simp only [RegularFlux, regularFluxAsserts_ok edge tess h1 h2, velocityAt, cellAt,
    hw1, hw2, hc1, hc2, hl, hr, hc]

/-- Claim C16. `RegularFlux` donor tagging: for every edge with both neighbors
in range (whose point velocities and cells exist, with distinct tracer names in
each cell, and whose two primitive states are returned), with `c` the conserved
flux returned by `rotate_solve_rotate_back` for the two neighbor states,
`RegularFlux` returns an output with `mass = c.Mass`, `momentum = c.Momentum`,
`energy = c.Energy` whose tracer map holds, under each name, the donor's tracer
fraction times `c.Mass` and nothing under a name the donor does not have; the
donor is the first neighbor when `c.Mass > 0` and the second otherwise
(`c.Mass = 0` included). -/
theorem RegularFlux_donor {EOS RS : Type} (ext : External R EOS RS) (rs : RS)
    (edge : Edge R) (tess : Tessellation (Edge R)) (pv : List (Vector2D R))
    (cells : List (ComputationalCell R)) (eos : EOS) (aux : Bool)
    (w1 w2 : Vector2D R) (cell1 cell2 : ComputationalCell R) (left right : Primitive R)
    (c : Conserved R)
    (h1 : 0 ≤ edge.neighbors.1 ∧ edge.neighbors.1 < tess.GetPointNo)
    (h2 : 0 ≤ edge.neighbors.2 ∧ edge.neighbors.2 < tess.GetPointNo)
    (hw1 : pv[edge.neighbors.1.toNat]? = some w1)
    (hw2 : pv[edge.neighbors.2.toNat]? = some w2)
    (hc1 : cells[edge.neighbors.1.toNat]? = some cell1)
    (hc2 : cells[edge.neighbors.2.toNat]? = some cell2)
    (hk1 : (cell1.tracers.map Prod.fst).Nodup)
    (hk2 : (cell2.tracers.map Prod.fst).Nodup)
    (hl : ext.convert_to_primitive cell1 eos = Except.ok left)
    (hr : ext.convert_to_primitive cell2 eos = Except.ok right)
    (hc : ext.rotate_solve_rotate_back rs left right (regularVelocity ext edge tess w1 w2)
      (regularNormal ext edge tess) (edgeTangent ext edge) = Except.ok c) :
    ∃ out : Extensive R, RegularFlux ext rs edge tess pv cells eos aux = Except.ok out ∧
      out.mass = c.Mass ∧ out.momentum = c.Momentum ∧ out.energy = c.Energy ∧
      (c.Mass > 0 → ∀ k, flatFind out.tracers k
        = (flatFind cell1.tracers k).map (fun value => value * c.Mass)) ∧
      (¬ c.Mass > 0 → ∀ k, flatFind out.tracers k
        = (flatFind cell2.tracers k).map (fun value => value * c.Mass)) ∧
      (∀ k, flatFind (if c.Mass > 0 then cell1 else cell2).tracers k = none →
        flatFind out.tracers k = none) := by
  refine ⟨_, RegularFlux_value ext rs edge tess pv cells eos aux w1 w2 cell1 cell2 left
    right c h1 h2 hw1 hw2 hc1 hc2 hl hr hc, ?_⟩
  by_cases hm : c.Mass > 0
  · rw [if_pos hm]
    obtain ⟨a, b, d, e⟩ := conserved_to_extensive_value c cell1 hk1
    refine ⟨a, b, d, fun _ => e, fun hn => absurd hm hn, ?_⟩
    intro k hk
    rw [e k, hk]
    rfl
  · rw [if_neg hm]
    obtain ⟨a, b, d, e⟩ := conserved_to_extensive_value c cell2 hk2
    refine ⟨a, b, d, fun hp => absurd hp hm, fun _ => e, ?_⟩
    intro k hk
    rw [e k, hk]
    rfl

/-- `RigidWallFlux` once the entry assertion passes and the selected cell and
its primitive state are there: the solver is called on the pair built by
`rigid_wall_states` with face velocity `0`. -/
theorem RigidWallFlux_value {EOS RS : Type} (ext : External R EOS RS) (rs : RS)
    (edge : Edge R) (tess : Tessellation (Edge R)) (pv : List (Vector2D R))
    (cells : List (ComputationalCell R)) (eos : EOS) (aux : Bool)
    (cell : ComputationalCell R) (state : Primitive R)
    (hsel : 0 ≤ (if aux then edge.neighbors.1 else edge.neighbors.2) ∧
      (if aux then edge.neighbors.1 else edge.neighbors.2) < tess.GetPointNo)
    (hcell : cells[(if aux then edge.neighbors.1 else edge.neighbors.2).toNat]? = some cell)
    (hstate : ext.convert_to_primitive cell eos = Except.ok state) :
    RigidWallFlux ext rs edge tess pv cells eos aux
      = Except.map (fun c => conserved_to_extensive c cell)
          (ext.rotate_solve_rotate_back rs
            (rigid_wall_states state (edgeTangent ext edge) aux).1
            (rigid_wall_states state (edgeTangent ext edge) aux).2
            0 (oneSidedNormal ext edge tess aux) (edgeTangent ext edge)) := by
  simp only [RigidWallFlux, oneSidedAsserts_ok edge tess aux hsel, cellAt, hcell, hstate]
  cases ext.rotate_solve_rotate_back rs
      (rigid_wall_states state (edgeTangent ext edge) aux).1
      (rigid_wall_states state (edgeTangent ext edge) aux).2
      0 (oneSidedNormal ext edge tess aux) (edgeTangent ext edge) with
  | error m => rfl
  | ok c => rfl

/-- `FreeFlowFlux` once the entry assertion passes and the selected cell and
its primitive state are there: the solver is called on two copies of the
state with face velocity `0`. -/
theorem FreeFlowFlux_value {EOS RS : Type} (ext : External R EOS RS) (rs : RS)
    (edge : Edge R) (tess : Tessellation (Edge R)) (pv : List (Vector2D R))
    (cells : List (ComputationalCell R)) (eos : EOS) (aux : Bool)
    (cell : ComputationalCell R) (state : Primitive R)
    (hsel : 0 ≤ (if aux then edge.neighbors.1 else edge.neighbors.2) ∧
      (if aux then edge.neighbors.1 else edge.neighbors.2) < tess.GetPointNo)
    (hcell : cells[(if aux then edge.neighbors.1 else edge.neighbors.2).toNat]? = some cell)
    (hstate : ext.convert_to_primitive cell eos = Except.ok state) :
    FreeFlowFlux ext rs edge tess pv cells eos aux
      = Except.map (fun c => conserved_to_extensive c cell)
          (ext.rotate_solve_rotate_back rs state state
            0 (oneSidedNormal ext edge tess aux) (edgeTangent ext edge)) := by
  simp only [FreeFlowFlux, oneSidedAsserts_ok edge tess aux hsel, cellAt, hcell, hstate]
  cases ext.rotate_solve_rotate_back rs state state
      0 (oneSidedNormal ext edge tess aux) (edgeTangent ext edge) with
  | error m => rfl
  | ok c => rfl


/-- Claim C17. One-sided donor: for `RigidWallFlux` and for `FreeFlowFlux`, for
every edge and aux flag satisfying the entry assertion (the selected cell
exists, has distinct tracer names and its primitive state is returned), the
solver is invoked with face velocity `0`, and with `c` the flux it returns the
output carries `c` and, under each tracer name, `c.Mass` times the tracer
fraction of the cell selected by `aux` (the first neighbor when `aux` is true,
the second when false), whatever the sign of `c.Mass`; the other neighbor's
cell is never read: any cell vector with the same selected cell gives the same
result, and so does any vector of point velocities. Both rules are the solver
call with face velocity `0` followed by `conserved_to_extensive` on the
selected cell. -/
theorem oneSided_donor {EOS RS : Type} (ext : External R EOS RS) (rs : RS)
    (edge : Edge R) (tess : Tessellation (Edge R)) (pv : List (Vector2D R))
    (cells : List (ComputationalCell R)) (eos : EOS) (aux : Bool)
    (cell : ComputationalCell R) (state : Primitive R) (cR cF : Conserved R)
    (hsel : 0 ≤ (if aux then edge.neighbors.1 else edge.neighbors.2) ∧
      (if aux then edge.neighbors.1 else edge.neighbors.2) < tess.GetPointNo)
    (hcell : cells[(if aux then edge.neighbors.1 else edge.neighbors.2).toNat]? = some cell)
    (hkeys : (cell.tracers.map Prod.fst).Nodup)
    (hstate : ext.convert_to_primitive cell eos = Except.ok state)
    (hR : ext.rotate_solve_rotate_back rs
      (rigid_wall_states state (edgeTangent ext edge) aux).1
      (rigid_wall_states state (edgeTangent ext edge) aux).2
      0 (oneSidedNormal ext edge tess aux) (edgeTangent ext edge) = Except.ok cR)
    (hF : ext.rotate_solve_rotate_back rs state state
      0 (oneSidedNormal ext edge tess aux) (edgeTangent ext edge) = Except.ok cF) :
    (∃ out : Extensive R, RigidWallFlux ext rs edge tess pv cells eos aux = Except.ok out ∧
      out.mass = cR.Mass ∧ out.momentum = cR.Momentum ∧ out.energy = cR.Energy ∧
      ∀ k, flatFind out.tracers k
        = (flatFind cell.tracers k).map (fun value => value * cR.Mass)) ∧
    (∃ out : Extensive R, FreeFlowFlux ext rs edge tess pv cells eos aux = Except.ok out ∧
      out.mass = cF.Mass ∧ out.momentum = cF.Momentum ∧ out.energy = cF.Energy ∧
      ∀ k, flatFind out.tracers k
        = (flatFind cell.tracers k).map (fun value => value * cF.Mass)) ∧
    (∀ (cells2 : List (ComputationalCell R)) (pv2 : List (Vector2D R)),
      cells2[(if aux then edge.neighbors.1 else edge.neighbors.2).toNat]?
        = cells[(if aux then edge.neighbors.1 else edge.neighbors.2).toNat]? →
      RigidWallFlux ext rs edge tess pv2 cells2 eos aux
        = RigidWallFlux ext rs edge tess pv cells eos aux ∧
      FreeFlowFlux ext rs edge tess pv2 cells2 eos aux
        = FreeFlowFlux ext rs edge tess pv cells eos aux) ∧
    RigidWallFlux ext rs edge tess pv cells eos aux
      = Except.map (fun c => conserved_to_extensive c cell)
          (ext.rotate_solve_rotate_back rs
            (rigid_wall_states state (edgeTangent ext edge) aux).1
            (rigid_wall_states state (edgeTangent ext edge) aux).2
            0 (oneSidedNormal ext edge tess aux) (edgeTangent ext edge)) ∧
    FreeFlowFlux ext rs edge tess pv cells eos aux
      = Except.map (fun c => conserved_to_extensive c cell)
          (ext.rotate_solve_rotate_back rs state state
            0 (oneSidedNormal ext edge tess aux) (edgeTangent ext edge)) := by
  refine ⟨?_, ?_, ?_,
    RigidWallFlux_value ext rs edge tess pv cells eos aux cell state hsel hcell hstate,
    FreeFlowFlux_value ext rs edge tess pv cells eos aux cell state hsel hcell hstate⟩
  · refine ⟨conserved_to_extensive cR cell, ?_, conserved_to_extensive_value cR cell hkeys⟩
    rw [RigidWallFlux_value ext rs edge tess pv cells eos aux cell state hsel hcell hstate, hR]
    rfl
  · refine ⟨conserved_to_extensive cF cell, ?_, conserved_to_extensive_value cF cell hkeys⟩
    rw [FreeFlowFlux_value ext rs edge tess pv cells eos aux cell state hsel hcell hstate, hF]
    rfl
  · intro cells2 pv2 h
    have hcell2 : cells2[(if aux then edge.neighbors.1 else edge.neighbors.2).toNat]?
        = some cell := by rw [h, hcell]
    rw [RigidWallFlux_value ext rs edge tess pv cells eos aux cell state hsel hcell hstate,
      RigidWallFlux_value ext rs edge tess pv2 cells2 eos aux cell state hsel hcell2 hstate,
      FreeFlowFlux_value ext rs edge tess pv cells eos aux cell state hsel hcell hstate,
      FreeFlowFlux_value ext rs edge tess pv2 cells2 eos aux cell state hsel hcell2 hstate]
    exact ⟨rfl, rfl⟩

/-- A vector divided by its length has unit length, when the square root is
one and the vector is not zero. -/
theorem normalize_unit (sqrt : R → R) (v : Vector2D R)
    (hs : sqrt (ScalarProd v v) * sqrt (ScalarProd v v) = ScalarProd v v)
    (hv : ScalarProd v v ≠ 0) :
    ScalarProd (normalize sqrt v) (normalize sqrt v) = 1 := by
  have hne : sqrt (ScalarProd v v) ≠ 0 := by
    intro hz
    rw [hz, mul_zero] at hs
    exact hv hs.symm
  simp only [normalize, Vector2D.div, Vector2D.abs]
  simp only [ScalarProd] at hs hne ⊢
  field_simp
  linear_combination (-1 : R) * hs

/-- The mirrored velocity keeps its component along the axis. -/
theorem reflect_tangent (state : Primitive R) (axis : Vector2D R)
    (h : ScalarProd axis axis ≠ 0) :
    ScalarProd (reflect state axis).Velocity axis = ScalarProd state.Velocity axis := by
  simp only [reflect, Vector2D.sub, Vector2D.smul]
  simp only [ScalarProd] at h ⊢
  field_simp
  ring

/-- The mirrored velocity changes the sign of its component along any
direction normal to the axis. -/
theorem reflect_normal (state : Primitive R) (axis nrm : Vector2D R)
    (h : ScalarProd nrm axis = 0) :
    ScalarProd (reflect state axis).Velocity nrm = - ScalarProd state.Velocity nrm := by
  simp only [reflect, Vector2D.sub, Vector2D.smul]
  simp only [ScalarProd] at h ⊢
  have h2 : axis.x * nrm.x + axis.y * nrm.y = 0 := by linarith
  linear_combination
    (2 * (state.Velocity.x * axis.x + state.Velocity.y * axis.y)
      / (axis.x * axis.x + axis.y * axis.y)) * h2

/-- Claim C18. Wall reflection: in `RigidWallFlux` (entry assertion passed,
selected cell and its primitive state there) the two states handed to the
Riemann solver are the interior cell's primitive state and its reflection
about the edge's tangent `p`, the interior state being the left state when
`aux` is true and the right state when `aux` is false, with face velocity `0`;
`p` has unit length when the edge has two distinct end points and the square
root is one. The ghost state has the same density, pressure, energy and sound
speed as the interior state, the same velocity component along `p`, and the
opposite velocity component along every direction normal to `p`. -/
theorem rigid_wall_reflection {EOS RS : Type} (ext : External R EOS RS) (rs : RS)
    (edge : Edge R) (tess : Tessellation (Edge R)) (pv : List (Vector2D R))
    (cells : List (ComputationalCell R)) (eos : EOS) (aux : Bool)
    (cell : ComputationalCell R) (state : Primitive R)
    (hsel : 0 ≤ (if aux then edge.neighbors.1 else edge.neighbors.2) ∧
      (if aux then edge.neighbors.1 else edge.neighbors.2) < tess.GetPointNo)
    (hcell : cells[(if aux then edge.neighbors.1 else edge.neighbors.2).toNat]? = some cell)
    (hstate : ext.convert_to_primitive cell eos = Except.ok state) :
    RigidWallFlux ext rs edge tess pv cells eos aux
      = Except.map (fun c => conserved_to_extensive c cell)
          (ext.rotate_solve_rotate_back rs
            (if aux then state else reflect state (edgeTangent ext edge))
            (if aux then reflect state (edgeTangent ext edge) else state)
            0 (oneSidedNormal ext edge tess aux) (edgeTangent ext edge)) ∧
    rigid_wall_states state (edgeTangent ext edge) aux
      = (if aux then (state, reflect state (edgeTangent ext edge))
         else (reflect state (edgeTangent ext edge), state)) ∧
    (ext.sqrt (ScalarProd (Vector2D.sub edge.vertices.2 edge.vertices.1)
          (Vector2D.sub edge.vertices.2 edge.vertices.1))
        * ext.sqrt (ScalarProd (Vector2D.sub edge.vertices.2 edge.vertices.1)
          (Vector2D.sub edge.vertices.2 edge.vertices.1))
        = ScalarProd (Vector2D.sub edge.vertices.2 edge.vertices.1)
          (Vector2D.sub edge.vertices.2 edge.vertices.1) →
      ScalarProd (Vector2D.sub edge.vertices.2 edge.vertices.1)
          (Vector2D.sub edge.vertices.2 edge.vertices.1) ≠ 0 →
      ScalarProd (edgeTangent ext edge) (edgeTangent ext edge) = 1) ∧
    (reflect state (edgeTangent ext edge)).Density = state.Density ∧
    (reflect state (edgeTangent ext edge)).Pressure = state.Pressure ∧
    (reflect state (edgeTangent ext edge)).Energy = state.Energy ∧
    (reflect state (edgeTangent ext edge)).SoundSpeed = state.SoundSpeed ∧
    (ScalarProd (edgeTangent ext edge) (edgeTangent ext edge) ≠ 0 →
      ScalarProd (reflect state (edgeTangent ext edge)).Velocity (edgeTangent ext edge)
        = ScalarProd state.Velocity (edgeTangent ext edge)) ∧
    (∀ nrm : Vector2D R, ScalarProd nrm (edgeTangent ext edge) = 0 →
      ScalarProd (reflect state (edgeTangent ext edge)).Velocity nrm
        = - ScalarProd state.Velocity nrm) := by
  have hstates : rigid_wall_states state (edgeTangent ext edge) aux
      = (if aux then (state, reflect state (edgeTangent ext edge))
         else (reflect state (edgeTangent ext edge), state)) := by
    cases aux <;> rfl
  refine ⟨?_, hstates, ?_, rfl, rfl, rfl, rfl, ?_, ?_⟩
  · rw [RigidWallFlux_value ext rs edge tess pv cells eos aux cell state hsel hcell hstate,
      hstates]
    cases aux <;> rfl
  · intro hs hv
    exact normalize_unit ext.sqrt _ hs hv
  · intro h
    exact reflect_tangent state _ h
  · intro nrm h
    exact reflect_normal state _ nrm h

end FluxTheorems

section SampleMesh

/-- On the sample mesh the face velocity of the interior edge is zero. -/
theorem sample_regularVelocity :
    regularVelocity sampleExt interiorEdge meshTess ⟨0, 0⟩ ⟨0, 0⟩ = 0 := by
  norm_num [regularVelocity, regularNormal, sampleExt, normalize, Vector2D.div, Vector2D.abs,
    Vector2D.sub, ScalarProd, interiorEdge]

/-- Worked instance of `RegularFlux_donor`: the interior edge of the sample mesh;
the solved mass flux is `-1`, so the donor is the second cell. -/
theorem RegularFlux_donor_witness :
    (0 ≤ interiorEdge.neighbors.1 ∧ interiorEdge.neighbors.1 < meshTess.GetPointNo) ∧
    (0 ≤ interiorEdge.neighbors.2 ∧ interiorEdge.neighbors.2 < meshTess.GetPointNo) ∧
    meshVelocities[interiorEdge.neighbors.1.toNat]? = some ⟨0, 0⟩ ∧
    meshVelocities[interiorEdge.neighbors.2.toNat]? = some ⟨0, 0⟩ ∧
    meshCells[interiorEdge.neighbors.1.toNat]? = some cellZero ∧
    meshCells[interiorEdge.neighbors.2.toNat]? = some cellOne ∧
    (cellZero.tracers.map Prod.fst).Nodup ∧ (cellOne.tracers.map Prod.fst).Nodup ∧
    ∃ out : Extensive ℚ,
      RegularFlux sampleExt () interiorEdge meshTess meshVelocities meshCells () false
        = Except.ok out ∧
      out.mass = -1 ∧ out.momentum = ⟨0, 0⟩ ∧ out.energy = 0 ∧
      (∀ k, flatFind out.tracers k
        = (flatFind cellOne.tracers k).map (fun value => value * (-1))) := by
  have h := RegularFlux_donor sampleExt () interiorEdge meshTess meshVelocities meshCells ()
    false ⟨0, 0⟩ ⟨0, 0⟩ cellZero cellOne ⟨1, 1, ⟨1, 0⟩, 0, 1⟩ ⟨2, 1, ⟨0, 1⟩, 0, 1⟩
    ⟨-1, ⟨0, 0⟩, 0⟩ (by decide) (by decide) rfl rfl rfl rfl (by decide) (by decide) rfl rfl
    (by
      show Except.ok _ = Except.ok _
      rw [sample_regularVelocity]
      norm_num)
  obtain ⟨out, h1, h2, h3, h4, _, h6, _⟩ := h
  exact ⟨by decide, by decide, rfl, rfl, rfl, rfl, by decide, by decide,
    out, h1, h2, h3, h4, h6 (by norm_num)⟩

/-- On the sample mesh each rule of `sampleSequence` returns on the edges its
condition matches. -/
theorem sample_actions_return :
    ∀ edge ∈ meshTess.getAllEdges, ∀ r ∈ sampleSequence,
      (r.1 edge meshTess meshCells).1 = true →
      ∃ x, r.2 edge meshTess meshVelocities meshCells () (r.1 edge meshTess meshCells).2
        = Except.ok x := by
  intro edge he r hr hm
  simp only [meshTess, List.mem_cons, List.mem_singleton, List.not_mem_nil, or_false] at he
  simp only [sampleSequence, List.mem_cons, List.mem_singleton, List.not_mem_nil,
    or_false] at hr
  rcases he with rfl | rfl | rfl <;> rcases hr with rfl | rfl <;>
    first
    | exact ⟨_, rfl⟩
    | exact absurd hm (by decide)

/-- Worked instance of `call_error_iff_unmatched` with the rules of the
repository on the sample mesh. The incomplete set `bulkOnlySequence` covers the
interior edge, whose `RegularFlux` returns, and leaves the boundary edge that
follows it unmatched: the loop over the interior edge completes, `choose_action`
raises the error on the boundary edge and the call ends with it. The standard
set `sampleSequence` matches every edge and returns a vector. -/
theorem call_error_iff_unmatched_witness :
    (∀ e ∈ meshTess.getAllEdges, ∀ pre rule post, bulkOnlySequence = pre ++ rule :: post →
      (∀ q ∈ pre, (q.1 e meshTess meshCells).1 = false) →
      (rule.1 e meshTess meshCells).1 = true →
      ∃ x, rule.2 e meshTess meshVelocities meshCells () (rule.1 e meshTess meshCells).2
        = Except.ok x) ∧
    meshTess.getAllEdges = [interiorEdge] ++ boundaryEdge :: [boundaryEdgeFirst] ∧
    (∀ e2 ∈ [interiorEdge], ∃ r ∈ bulkOnlySequence, (r.1 e2 meshTess meshCells).1 = true) ∧
    (∀ r ∈ bulkOnlySequence, (r.1 boundaryEdge meshTess meshCells).1 = false) ∧
    ((∃ done, fillFluxes
        (fun e2 => choose_action e2 meshTess meshCells () meshVelocities bulkOnlySequence)
        [interiorEdge] 0 (List.replicate meshTess.getAllEdges.length default)
          = Except.ok done) ∧
      choose_action boundaryEdge meshTess meshCells () meshVelocities bulkOnlySequence
        = Except.error "Error in ConditionActionSequence" ∧
      call bulkOnlySequence meshTess meshVelocities meshCells ()
        = Except.error "Error in ConditionActionSequence" ∧
      ∀ res : List (Extensive ℚ),
        call bulkOnlySequence meshTess meshVelocities meshCells () ≠ Except.ok res) ∧
    (∀ e ∈ meshTess.getAllEdges, ∃ r ∈ sampleSequence, (r.1 e meshTess meshCells).1 = true) ∧
    (∃ res : List (Extensive ℚ),
      call sampleSequence meshTess meshVelocities meshCells () = Except.ok res) := by
  have hbulk : ∀ e ∈ meshTess.getAllEdges, ∀ pre rule post,
      bulkOnlySequence = pre ++ rule :: post →
      (∀ q ∈ pre, (q.1 e meshTess meshCells).1 = false) →
      (rule.1 e meshTess meshCells).1 = true →
      ∃ x, rule.2 e meshTess meshVelocities meshCells () (rule.1 e meshTess meshCells).2
        = Except.ok x := by
    intro e he pre rule post hseq _ hm
    have hmem : rule ∈ bulkOnlySequence := by rw [hseq]; simp
    simp only [bulkOnlySequence, List.mem_singleton] at hmem
    simp only [meshTess, List.mem_cons, List.mem_singleton, List.not_mem_nil, or_false] at he
    subst hmem
    rcases he with rfl | rfl | rfl <;>
      first
      | exact ⟨_, rfl⟩
      | exact absurd hm (by decide)
  have hstd : ∀ e ∈ meshTess.getAllEdges, ∀ pre rule post,
      sampleSequence = pre ++ rule :: post →
      (∀ q ∈ pre, (q.1 e meshTess meshCells).1 = false) →
      (rule.1 e meshTess meshCells).1 = true →
      ∃ x, rule.2 e meshTess meshVelocities meshCells () (rule.1 e meshTess meshCells).2
        = Except.ok x := by
    intro e he pre rule post hseq _ hm
    exact sample_actions_return e he rule (by rw [hseq]; simp) hm
  have hcover : ∀ e ∈ meshTess.getAllEdges,
      ∃ r ∈ sampleSequence, (r.1 e meshTess meshCells).1 = true := by decide
  have hpre : ∀ e2 ∈ [interiorEdge],
      ∃ r ∈ bulkOnlySequence, (r.1 e2 meshTess meshCells).1 = true := by decide
  have hun : ∀ r ∈ bulkOnlySequence, (r.1 boundaryEdge meshTess meshCells).1 = false := by
    decide
  exact ⟨hbulk, rfl, hpre, hun,
    (call_error_iff_unmatched bulkOnlySequence meshTess meshVelocities meshCells ()
      hbulk).2.2 [interiorEdge] boundaryEdge [boundaryEdgeFirst] rfl hpre hun,
    hcover,
    (call_error_iff_unmatched sampleSequence meshTess meshVelocities meshCells ()
      hstd).2.1 hcover⟩

/-- Worked instance of `boundary_bulk_partition`: the standard rule set on the
sample mesh, all of whose edges have a neighbor in range. -/
theorem boundary_bulk_partition_witness :
    (∀ edge ∈ meshTess.getAllEdges,
      (0 ≤ edge.neighbors.1 ∧ edge.neighbors.1 < meshTess.GetPointNo) ∨
      (0 ≤ edge.neighbors.2 ∧ edge.neighbors.2 < meshTess.GetPointNo)) ∧
    ∃ res : List (Extensive ℚ),
      call sampleSequence meshTess meshVelocities meshCells () = Except.ok res ∧
      res.length = meshTess.getAllEdges.length :=
  ⟨by decide,
   (boundary_bulk_partition meshTess meshCells meshVelocities ()).2.2.1 sampleSequence
     (IsBoundaryEdgeNoAssert, RigidWallFlux sampleExt ())
     (IsBulkEdge, RegularFlux sampleExt ())
     (by simp [sampleSequence]) (by simp [sampleSequence]) rfl
     (fun edge _ fa h => IsBoundaryEdge_noAssert edge meshTess meshCells fa h)
     (by decide) sample_actions_return⟩

/-- Worked instance of `oneSided_donor`: the boundary edge of the sample mesh
with `aux = true`; the interior cell is cell `1` and the mass flux is `1`. -/
theorem oneSided_donor_witness :
    (0 ≤ (if true then boundaryEdge.neighbors.1 else boundaryEdge.neighbors.2) ∧
      (if true then boundaryEdge.neighbors.1 else boundaryEdge.neighbors.2)
        < meshTess.GetPointNo) ∧
    meshCells[(if true then boundaryEdge.neighbors.1 else boundaryEdge.neighbors.2).toNat]?
      = some cellOne ∧
    (cellOne.tracers.map Prod.fst).Nodup ∧
    (∃ out : Extensive ℚ,
      RigidWallFlux sampleExt () boundaryEdge meshTess meshVelocities meshCells () true
        = Except.ok out ∧
      out.mass = 1 ∧
      ∀ k, flatFind out.tracers k = (flatFind cellOne.tracers k).map (fun value => value * 1)) ∧
    (∃ out : Extensive ℚ,
      FreeFlowFlux sampleExt () boundaryEdge meshTess meshVelocities meshCells () true
        = Except.ok out ∧
      out.mass = 1 ∧
      ∀ k, flatFind out.tracers k
        = (flatFind cellOne.tracers k).map (fun value => value * 1)) := by
  have h := oneSided_donor sampleExt () boundaryEdge meshTess meshVelocities meshCells ()
    true cellOne ⟨2, 1, ⟨0, 1⟩, 0, 1⟩ ⟨1, ⟨0, 0⟩, 0⟩ ⟨1, ⟨0, 0⟩, 0⟩
    (by decide) rfl (by decide) rfl
    (by show Except.ok _ = Except.ok _; norm_num [rigid_wall_states, reflect])
    (by show Except.ok _ = Except.ok _; norm_num)
  obtain ⟨⟨o1, a1, a2, _, _, a5⟩, ⟨o2, b1, b2, _, _, b5⟩, _⟩ := h
  exact ⟨by decide, rfl, by decide, ⟨o1, a1, a2, a5⟩, ⟨o2, b1, b2, b5⟩⟩

/-- Worked instance of `rigid_wall_reflection`: the boundary edge of the sample
mesh with `aux = true`, whose tangent has unit length. -/
theorem rigid_wall_reflection_witness :
    (0 ≤ (if true then boundaryEdge.neighbors.1 else boundaryEdge.neighbors.2) ∧
      (if true then boundaryEdge.neighbors.1 else boundaryEdge.neighbors.2)
        < meshTess.GetPointNo) ∧
    meshCells[(if true then boundaryEdge.neighbors.1 else boundaryEdge.neighbors.2).toNat]?
      = some cellOne ∧
    sampleExt.convert_to_primitive cellOne () = Except.ok ⟨2, 1, ⟨0, 1⟩, 0, 1⟩ ∧
    rigid_wall_states (⟨2, 1, ⟨0, 1⟩, 0, 1⟩ : Primitive ℚ) (edgeTangent sampleExt boundaryEdge)
        true
      = ((⟨2, 1, ⟨0, 1⟩, 0, 1⟩ : Primitive ℚ),
         reflect ⟨2, 1, ⟨0, 1⟩, 0, 1⟩ (edgeTangent sampleExt boundaryEdge)) ∧
    ScalarProd (edgeTangent sampleExt boundaryEdge) (edgeTangent sampleExt boundaryEdge) = 1 := by
  have h := rigid_wall_reflection sampleExt () boundaryEdge meshTess meshVelocities meshCells
    () true cellOne ⟨2, 1, ⟨0, 1⟩, 0, 1⟩ (by decide) rfl rfl
  obtain ⟨_, h2, h3, _⟩ := h
  refine ⟨by decide, rfl, rfl, h2, h3 ?_ ?_⟩
  · norm_num [sampleExt, boundaryEdge, Vector2D.sub, ScalarProd]
  · norm_num [boundaryEdge, Vector2D.sub, ScalarProd]

end SampleMesh

end ConditionActionSequence

namespace Tillotson

section RegionSelection

variable {R : Type} [LinearOrderedField R]

/-- The spec's region-I closed form is what `de2pI` computes. -/
theorem de2pI_eq_specPI (t : Tillotson R) (d e : R) : t.de2pI d e = t.specPI d e := by
  simp only [de2pI, specPI]
  ring

/-- The scratch members do not enter the forward map. -/
theorem de2p_scratch (exp : R → R) (t : Tillotson R) (x y d e : R) :
    ({ t with temp_d_ := x, temp_p_ := y } : Tillotson R).de2p exp d e = t.de2p exp d e := rfl

/-- Outside its early return `de2pIV` is the full region-IV form. -/
theorem de2pIV_full (exp : R → R) (t : Tillotson R) (d e : R)
    (hfull : t.alpha_ ≤ 35 * (d / t.rho0_) * (d / t.rho0_)) :
    t.de2pIV exp d e
      = t.a_ * d * e + exp (-t.alpha_ * (t.rho0_ / d - 1) ^ 2)
        * (t.b_ * d * e / (e / (t.E0_ * (d / t.rho0_) * (d / t.rho0_)) + 1)
            + t.A_ * (d / t.rho0_ - 1) * exp (-t.beta_ * (t.rho0_ / d - 1))) := by
  simp only [de2pIV]
  rw [if_neg (not_lt.2 hfull)]

/-- Inside its early return `de2pIV` is `a*d*e`. -/
theorem de2pIV_short (exp : R → R) (t : Tillotson R) (d e : R)
    (hcut : t.alpha_ > 35 * (d / t.rho0_) * (d / t.rho0_)) :
    t.de2pIV exp d e = t.a_ * d * e := by
  simp only [de2pIV]
  rw [if_pos hcut]

/-- Claim C5. Region selection of `de2p`, for thresholds in their order
`EIV < ECV` and every density and energy: with `eta = d/rho0`, `mu = eta - 1`,
`c = E0*eta^2`, `de2p(d,e)` is the region-I closed form
`P_I(d,e) = (a + b/(e/c+1))*d*e + A*mu + B*mu^2` whenever `d ≥ rho0` or
`e ≤ EIV`; it is the region-IV form `P_IV(d,e)` when `d < rho0` and `e ≥ ECV`;
and for `d < rho0`, `EIV < e < ECV` it is the blend `(1-w)*P_I + w*P_IV` with
`w = (e-EIV)/(ECV-EIV)`. Here `P_IV` is what `de2pIV` computes: the closed form
`a*d*e + exp_alpha*(b*d*e/(e/c+1) + A*mu*exp_beta)` when `alpha ≤ 35*eta^2`
and `a*d*e` when `alpha > 35*eta^2`.
In the scenario of the specification `de2p(2.7, 1e10) = P_I(2.7, 1e10)`; `de2p`
has no root-finder among its arguments, so none is invoked. -/
theorem de2p_region_selection (exp : R → R) (t : Tillotson R) (d e : R)
    (hlt : t.EIV_ < t.ECV_) :
    ((d ≥ t.rho0_ ∨ e ≤ t.EIV_) → t.de2p exp d e = t.specPI d e) ∧
    (d < t.rho0_ → e ≥ t.ECV_ → t.de2p exp d e = t.de2pIV exp d e) ∧
    (d < t.rho0_ → t.EIV_ < e → e < t.ECV_ →
      t.de2p exp d e
        = (1 - t.specWeight e) * t.specPI d e + t.specWeight e * t.de2pIV exp d e) ∧
    (t.alpha_ ≤ 35 * (d / t.rho0_) * (d / t.rho0_) →
      t.de2pIV exp d e
        = t.a_ * d * e + exp (-t.alpha_ * (t.rho0_ / d - 1) ^ 2)
          * (t.b_ * d * e / (e / (t.E0_ * (d / t.rho0_) * (d / t.rho0_)) + 1)
              + t.A_ * (d / t.rho0_ - 1) * exp (-t.beta_ * (t.rho0_ / d - 1)))) ∧
    (t.alpha_ > 35 * (d / t.rho0_) * (d / t.rho0_) → t.de2pIV exp d e = t.a_ * d * e) ∧
    (scenarioEos R).de2p exp 2.7 1e10 = (scenarioEos R).specPI 2.7 1e10 := by
  refine ⟨?_, ?_, ?_, de2pIV_full exp t d e, de2pIV_short exp t d e, ?_⟩
  · intro h
    rw [← de2pI_eq_specPI]
    simp only [de2p]
    rcases h with h | h
    · rw [if_pos h]
    · by_cases hd : d ≥ t.rho0_
      · rw [if_pos hd]
      · rw [if_neg hd, if_pos h]
  · intro hd h2
    have h1 : t.EIV_ < e := lt_of_lt_of_le hlt h2
    simp only [de2p]
    rw [if_neg (not_le.2 hd), if_neg (not_le.2 h1), if_pos h2]
  · intro hd h1 h2
    have hne : t.ECV_ - t.EIV_ ≠ 0 := sub_ne_zero.2 (ne_of_gt hlt)
    rw [← de2pI_eq_specPI]
    simp only [de2p]
    rw [if_neg (not_le.2 hd), if_neg (not_le.2 h1), if_neg (not_le.2 h2)]
    simp only [de2pII, specWeight]
    field_simp
    ring
  · rw [← de2pI_eq_specPI]
    simp only [de2p]
    rw [if_pos (by simp [scenarioEos, new])]

/-- Worked instance of `de2p_region_selection`: the scenario material, whose
thresholds are in order, at half the reference density, with one energy in
each region. -/
theorem de2p_region_selection_witness :
    (scenarioEos ℚ).EIV_ < (scenarioEos ℚ).ECV_ ∧
    ((scenarioEos ℚ).de2p (fun _ => 1) 1.35 1e10 = (scenarioEos ℚ).specPI 1.35 1e10) ∧
    ((scenarioEos ℚ).de2p (fun _ => 1) 1.35 2e11
      = (scenarioEos ℚ).de2pIV (fun _ => 1) 1.35 2e11) ∧
    ((scenarioEos ℚ).de2p (fun _ => 1) 1.35 1e11
      = (1 - (scenarioEos ℚ).specWeight 1e11) * (scenarioEos ℚ).specPI 1.35 1e11
        + (scenarioEos ℚ).specWeight 1e11 * (scenarioEos ℚ).de2pIV (fun _ => 1) 1.35 1e11) :=
  ⟨by norm_num [scenarioEos, new],
   (de2p_region_selection (fun _ => 1) (scenarioEos ℚ) 1.35 1e10
      (by norm_num [scenarioEos, new])).1
      (Or.inr (by norm_num [scenarioEos, new])),
   (de2p_region_selection (fun _ => 1) (scenarioEos ℚ) 1.35 2e11
      (by norm_num [scenarioEos, new])).2.1
      (by norm_num [scenarioEos, new]) (by norm_num [scenarioEos, new]),
   (de2p_region_selection (fun _ => 1) (scenarioEos ℚ) 1.35 1e11
      (by norm_num [scenarioEos, new])).2.2.1
      (by norm_num [scenarioEos, new]) (by norm_num [scenarioEos, new])
      (by norm_num [scenarioEos, new])⟩

/-- The order of the thresholds matters to the region-IV clause: with
`EIV = 2 > ECV = 1`, `d = 1/2 < rho0 = 1` and `e = 3/2`, which is both `≤ EIV`
and `≥ ECV`, `de2p` takes the branch `e ≤ EIV` first and returns the region-I
value `5/4`, while `de2pIV` is `1/4` there. -/
theorem de2p_reversed_thresholds :
    (reversedEos ℝ).ECV_ < (reversedEos ℝ).EIV_ ∧
    (1 / 2 : ℝ) < (reversedEos ℝ).rho0_ ∧ (3 / 2 : ℝ) ≥ (reversedEos ℝ).ECV_ ∧
    (3 / 2 : ℝ) ≤ (reversedEos ℝ).EIV_ ∧
    (reversedEos ℝ).de2p Real.exp (1 / 2) (3 / 2) = 5 / 4 ∧
    (reversedEos ℝ).de2pIV Real.exp (1 / 2) (3 / 2) = 1 / 4 := by
  refine ⟨by norm_num [reversedEos, new], by norm_num [reversedEos, new],
    by norm_num [reversedEos, new], by norm_num [reversedEos, new], ?_, ?_⟩
  · norm_num [reversedEos, new, de2p, de2pI]
  · norm_num [reversedEos, new, de2pIV]

/-- At `e = EIV` the blend is the region-I value. -/
theorem de2pII_at_EIV (exp : R → R) (t : Tillotson R) (d : R) (hne : t.EIV_ ≠ t.ECV_) :
    t.de2pII exp d t.EIV_ = t.de2pI d t.EIV_ := by
  have hsub : t.ECV_ - t.EIV_ ≠ 0 := sub_ne_zero.2 (Ne.symm hne)
  simp only [de2pII]
  field_simp

/-- At `e = ECV` the blend is the region-IV value. -/
theorem de2pII_at_ECV (exp : R → R) (t : Tillotson R) (d : R) (hne : t.EIV_ ≠ t.ECV_) :
    t.de2pII exp d t.ECV_ = t.de2pIV exp d t.ECV_ := by
  have hsub : t.ECV_ - t.EIV_ ≠ 0 := sub_ne_zero.2 (Ne.symm hne)
  simp only [de2pII]
  field_simp

/-- Claim C6. No seam discontinuity in pressure: for every density and every
parameter set with `EIV ≠ ECV`, the region-II blend satisfies
`de2pII(d,EIV) = de2pI(d,EIV)` and `de2pII(d,ECV) = de2pIV(d,ECV)`; hence for
`d < rho0`, as soon as region II holds an energy `e` (`EIV < e < ECV`), `de2p`
is the blend there and the blend agrees with `de2p` at `e = EIV` and at
`e = ECV`. -/
theorem de2pII_seams (exp : R → R) (t : Tillotson R) (d : R) (hne : t.EIV_ ≠ t.ECV_) :
    t.de2pII exp d t.EIV_ = t.de2pI d t.EIV_ ∧
    t.de2pII exp d t.ECV_ = t.de2pIV exp d t.ECV_ ∧
    (d < t.rho0_ → ∀ e, t.EIV_ < e → e < t.ECV_ →
      t.de2p exp d e = t.de2pII exp d e ∧
      t.de2pII exp d t.EIV_ = t.de2p exp d t.EIV_ ∧
      t.de2pII exp d t.ECV_ = t.de2p exp d t.ECV_) := by
  have h1 := de2pII_at_EIV exp t d hne
  have h2 := de2pII_at_ECV exp t d hne
  refine ⟨h1, h2, ?_⟩
  intro hd e he1 he2
  have hlt : t.EIV_ < t.ECV_ := lt_trans he1 he2
  refine ⟨?_, ?_, ?_⟩
  · simp only [de2p]
    rw [if_neg (not_le.2 hd), if_neg (not_le.2 he1), if_neg (not_le.2 he2)]
  · rw [h1]
    simp only [de2p]
    rw [if_neg (not_le.2 hd), if_pos (le_refl _)]
  · rw [h2]
    simp only [de2p]
    rw [if_neg (not_le.2 hd), if_neg (not_le.2 hlt), if_pos (le_refl _)]

/-- Worked instance of `de2pII_seams`: the scenario material at half the
reference density and an energy inside region II. -/
theorem de2pII_seams_witness :
    (scenarioEos ℚ).EIV_ ≠ (scenarioEos ℚ).ECV_ ∧
    ((scenarioEos ℚ).de2pII (fun _ => 1) 1.35 (scenarioEos ℚ).EIV_
        = (scenarioEos ℚ).de2pI 1.35 (scenarioEos ℚ).EIV_ ∧
     (scenarioEos ℚ).de2pII (fun _ => 1) 1.35 (scenarioEos ℚ).ECV_
        = (scenarioEos ℚ).de2pIV (fun _ => 1) 1.35 (scenarioEos ℚ).ECV_ ∧
     ((1.35 : ℚ) < (scenarioEos ℚ).rho0_ → ∀ e, (scenarioEos ℚ).EIV_ < e →
        e < (scenarioEos ℚ).ECV_ →
        (scenarioEos ℚ).de2p (fun _ => 1) 1.35 e = (scenarioEos ℚ).de2pII (fun _ => 1) 1.35 e ∧
        (scenarioEos ℚ).de2pII (fun _ => 1) 1.35 (scenarioEos ℚ).EIV_
          = (scenarioEos ℚ).de2p (fun _ => 1) 1.35 (scenarioEos ℚ).EIV_ ∧
        (scenarioEos ℚ).de2pII (fun _ => 1) 1.35 (scenarioEos ℚ).ECV_
          = (scenarioEos ℚ).de2p (fun _ => 1) 1.35 (scenarioEos ℚ).ECV_)) :=
  ⟨by norm_num [scenarioEos, new],
   de2pII_seams (fun _ => 1) (scenarioEos ℚ) 1.35 (by norm_num [scenarioEos, new])⟩

end RegionSelection

section Gate

variable {R : Type} [LinearOrderedField R]

/-- In the root-finder branch `dp2e` is decided by the bracket alone: first the
consistency gate, then the assertion `result > 0`. -/
theorem dp2e_regionII_value (sqrt exp : R → R) (bisect : Bisect R) (t : Tillotson R)
    (d p lo hi : R)
    (hd : d < t.rho0_) (hPIV : t.PIV d < p) (hPCV : p < t.PCV exp d)
    (hbis : t.bisectCall exp bisect d p = Except.ok (lo, hi)) :
    t.dp2e sqrt exp bisect d p =
      if t.de2p exp d (0.5 * (lo + hi)) > t.PIV d * 2 ∧
          |p - t.de2p exp d (0.5 * (lo + hi))| > 0.001 * p then
        Except.error (EosFailure.universalError "No dp2e convergence"
            [("Density", d), ("Pressure", p),
             ("New Pressure", t.de2p exp d (0.5 * (lo + hi))),
             ("EIV", t.EIV_), ("ECV", t.ECV_),
             ("First energy", lo), ("Second energy", hi),
             ("First pressure", t.de2p exp d lo),
             ("Second pressure", t.de2p exp d hi)])
      else if 0.5 * (lo + hi) > 0 then Except.ok (0.5 * (lo + hi))
      else Except.error (EosFailure.assertion "result > 0") := by
  simp only [PIV] at hPIV
  simp only [PCV] at hPCV
  simp only [dp2e]
  rw [if_neg (not_le.2 hd), if_neg (not_le.2 hPIV), if_neg (not_le.2 hPCV), hbis]
  simp only [de2p_scratch, PIV]

/-- Claim C8 (amended). Consistency gate of the region-II inverse: for `d < rho0`
and `PIV < p < PCV`, with `(lo, hi)` the bracket returned by the bisection over
`[EIV, ECV]`, `result = 0.5*(lo+hi)` and `newp = de2p(d, result)`: `dp2e` fails
with the `"No dp2e convergence"` diagnostic (carrying density, both pressures,
the thresholds, the bracket ends and their pressures) if and only if
`|p - newp| > 0.001*p` and `newp > 2*PIV`; in every other case it returns
`result` when `result > 0` and stops at the assertion `result > 0` otherwise;
`result > 0` holds whenever `EIV > 0` and the bracket lies at or above `EIV`. -/
theorem dp2e_regionII_gate (sqrt exp : R → R) (bisect : Bisect R) (t : Tillotson R)
    (d p lo hi : R)
    (hd : d < t.rho0_) (hPIV : t.PIV d < p) (hPCV : p < t.PCV exp d)
    (hbis : t.bisectCall exp bisect d p = Except.ok (lo, hi)) :
    ((∃ entries, t.dp2e sqrt exp bisect d p
        = Except.error (EosFailure.universalError "No dp2e convergence" entries)) ↔
      (|p - t.de2p exp d (0.5 * (lo + hi))| > 0.001 * p ∧
        t.de2p exp d (0.5 * (lo + hi)) > 2 * t.PIV d)) ∧
    ((|p - t.de2p exp d (0.5 * (lo + hi))| > 0.001 * p ∧
        t.de2p exp d (0.5 * (lo + hi)) > 2 * t.PIV d) →
      t.dp2e sqrt exp bisect d p
        = Except.error (EosFailure.universalError "No dp2e convergence"
            [("Density", d), ("Pressure", p),
             ("New Pressure", t.de2p exp d (0.5 * (lo + hi))),
             ("EIV", t.EIV_), ("ECV", t.ECV_),
             ("First energy", lo), ("Second energy", hi),
             ("First pressure", t.de2p exp d lo),
             ("Second pressure", t.de2p exp d hi)])) ∧
    (¬ (|p - t.de2p exp d (0.5 * (lo + hi))| > 0.001 * p ∧
        t.de2p exp d (0.5 * (lo + hi)) > 2 * t.PIV d) →
      0.5 * (lo + hi) > 0 →
      t.dp2e sqrt exp bisect d p = Except.ok (0.5 * (lo + hi))) ∧
    (¬ (|p - t.de2p exp d (0.5 * (lo + hi))| > 0.001 * p ∧
        t.de2p exp d (0.5 * (lo + hi)) > 2 * t.PIV d) →
      ¬ 0.5 * (lo + hi) > 0 →
      t.dp2e sqrt exp bisect d p = Except.error (EosFailure.assertion "result > 0")) ∧
    (0 < t.EIV_ → t.EIV_ ≤ lo → t.EIV_ ≤ hi → 0.5 * (lo + hi) > 0) := by
  have hgate : (t.de2p exp d (0.5 * (lo + hi)) > t.PIV d * 2 ∧
        |p - t.de2p exp d (0.5 * (lo + hi))| > 0.001 * p) ↔
      (|p - t.de2p exp d (0.5 * (lo + hi))| > 0.001 * p ∧
        t.de2p exp d (0.5 * (lo + hi)) > 2 * t.PIV d) := by
    rw [mul_comm (t.PIV d) 2]
    exact and_comm
  have hval := dp2e_regionII_value sqrt exp bisect t d p lo hi hd hPIV hPCV hbis
  refine ⟨⟨?_, ?_⟩, ?_, ?_, ?_, ?_⟩
  · rintro ⟨entries, he⟩
    rw [hval] at he
    by_contra hno
    rw [if_neg (fun h => hno (hgate.1 h))] at he
    split_ifs at he
    simp at he
  · intro hg
    rw [hval, if_pos (hgate.2 hg)]
    exact ⟨_, rfl⟩
  · intro hg
    rw [hval, if_pos (hgate.2 hg)]
  · intro hg hpos
    rw [hval, if_neg (fun h => hg (hgate.1 h)), if_pos hpos]
  · intro hg hpos
    rw [hval, if_neg (fun h => hg (hgate.1 h)), if_neg hpos]
  · intro h0 h1 h2
    have hsum : (0 : R) < lo + hi := by linarith
    have h5 : (0 : R) < 0.5 := by norm_num
    exact mul_pos h5 hsum

/-- The floor and the square root of `dep2cI` sit on top of `S_I`. -/
theorem dep2cI_eq (sqrt : R → R) (t : Tillotson R) (d e p : R) :
    t.dep2cI sqrt d e p = sqrt (max (t.S_I d e p) (1e-10 * t.E0_)) := rfl

/-- The floor and the square root of `dep2cIV` sit on top of `S_IV`. -/
theorem dep2cIV_eq (sqrt exp : R → R) (t : Tillotson R) (d e p : R) :
    t.dep2cIV sqrt exp d e p = sqrt (max (t.S_IV exp d e p) (1e-10 * t.E0_)) := rfl

/-- The weights of the blend formed in `dp2c`: the region-I sound speed is
weighted by `w = (e-EIV)/(ECV-EIV)` and the region-IV sound speed by `1 - w`. -/
theorem dp2cII_weights (sqrt exp : R → R) (t : Tillotson R) (d e p : R)
    (hne : t.EIV_ ≠ t.ECV_) :
    t.dp2cII sqrt exp d e p
      = t.specWeight e * t.dep2cI sqrt d e p
        + (1 - t.specWeight e) * t.dep2cIV sqrt exp d e p := by
  have hsub : t.ECV_ - t.EIV_ ≠ 0 := sub_ne_zero.2 (Ne.symm hne)
  simp only [dp2cII, specWeight]
  field_simp
  ring

end Gate

section RealArithmetic

/-- The region-I pressure is continuous in the energy away from the pole `e = -c`. -/
theorem de2pI_continuousAt (t : Tillotson ℝ) (d e0 : ℝ)
    (h : e0 / (t.E0_ * (d / t.rho0_) * (d / t.rho0_)) + 1 ≠ 0) :
    ContinuousAt (fun e => t.de2pI d e) e0 := by
  simp only [de2pI]
  fun_prop (disch := exact h)

/-- The region-IV pressure is continuous in the energy away from the pole `e = -c`. -/
theorem de2pIV_continuousAt (t : Tillotson ℝ) (d e0 : ℝ)
    (h : e0 / (t.E0_ * (d / t.rho0_) * (d / t.rho0_)) + 1 ≠ 0) :
    ContinuousAt (fun e => t.de2pIV Real.exp d e) e0 := by
  simp only [de2pIV]
  split_ifs
  · fun_prop
  · fun_prop (disch := exact h)

/-- The blend is continuous in the energy away from the pole `e = -c`. -/
theorem de2pII_continuousAt (t : Tillotson ℝ) (d e0 : ℝ)
    (h : e0 / (t.E0_ * (d / t.rho0_) * (d / t.rho0_)) + 1 ≠ 0) :
    ContinuousAt (fun e => t.de2pII Real.exp d e) e0 := by
  have h1 := de2pI_continuousAt t d e0 h
  have h2 := de2pIV_continuousAt t d e0 h
  simp only [de2pII]
  fun_prop

/-- Limit form of the seam property: for `d < rho0` and `EIV < ECV`, as `e` tends to
`EIV` (or to `ECV`) from inside region II, `de2p(d,e)` tends to `de2p(d,EIV)`
(or `de2p(d,ECV)`), provided the seam is not the pole `e = -c` of the closed forms. -/
theorem de2p_tendsto_seams (t : Tillotson ℝ) (d : ℝ) (hd : d < t.rho0_)
    (hlt : t.EIV_ < t.ECV_)
    (h1 : t.EIV_ / (t.E0_ * (d / t.rho0_) * (d / t.rho0_)) + 1 ≠ 0)
    (h2 : t.ECV_ / (t.E0_ * (d / t.rho0_) * (d / t.rho0_)) + 1 ≠ 0) :
    Filter.Tendsto (fun e => t.de2p Real.exp d e)
      (nhdsWithin t.EIV_ (Set.Ioo t.EIV_ t.ECV_)) (nhds (t.de2p Real.exp d t.EIV_)) ∧
    Filter.Tendsto (fun e => t.de2p Real.exp d e)
      (nhdsWithin t.ECV_ (Set.Ioo t.EIV_ t.ECV_)) (nhds (t.de2p Real.exp d t.ECV_)) := by
  have hne : t.EIV_ ≠ t.ECV_ := ne_of_lt hlt
  have heq : ∀ e ∈ Set.Ioo t.EIV_ t.ECV_, t.de2pII Real.exp d e = t.de2p Real.exp d e := by
    intro e he
    simp only [de2p]
    rw [if_neg (not_le.2 hd), if_neg (not_le.2 he.1), if_neg (not_le.2 he.2)]
  have hE1 : t.de2p Real.exp d t.EIV_ = t.de2pII Real.exp d t.EIV_ := by
    rw [de2pII_at_EIV Real.exp t d hne]
    simp only [de2p]
    rw [if_neg (not_le.2 hd), if_pos (le_refl _)]
  have hE2 : t.de2p Real.exp d t.ECV_ = t.de2pII Real.exp d t.ECV_ := by
    rw [de2pII_at_ECV Real.exp t d hne]
    simp only [de2p]
    rw [if_neg (not_le.2 hd), if_neg (not_le.2 hlt), if_pos (le_refl _)]
  constructor
  · rw [hE1]
    refine Filter.Tendsto.congr' ?_ ((de2pII_continuousAt t d t.EIV_ h1).tendsto.mono_left
      nhdsWithin_le_nhds)
    exact eventually_nhdsWithin_of_forall heq
  · rw [hE2]
    refine Filter.Tendsto.congr' ?_ ((de2pII_continuousAt t d t.ECV_ h2).tendsto.mono_left
      nhdsWithin_le_nhds)
    exact eventually_nhdsWithin_of_forall heq


/-- A square root is recovered from a non-negative number whose square is known. -/
theorem sqrt_eq_of_eq_sq {x s : ℝ} (hs : 0 ≤ s) (h : x = s ^ 2) : Real.sqrt x = s := by
  rw [h, Real.sqrt_sq hs]

/-- The `+` root of the region-I quadratic is the energy the pressure came from. -/
theorem quad_root (a b c d e A B : ℝ) (ha : 0 < a) (hb : 0 ≤ b) (hc : 0 < c) (hd : 0 < d)
    (he : 0 < e) :
    ((a + b / (e / c + 1)) * d * e + A + B - A - B - a * c * d - b * c * d
      + Real.sqrt (4 * a * c * d * ((a + b / (e / c + 1)) * d * e + A + B - A - B)
          + (A + B + (a + b) * c * d - ((a + b / (e / c + 1)) * d * e + A + B)) ^ 2))
      / (2 * a * d) = e := by
  have hec : 0 < e / c + 1 := by positivity
  have hS : 0 ≤ a * d * e + a * c * d + b * c * d / (e / c + 1) := by positivity
  rw [sqrt_eq_of_eq_sq hS (by field_simp; ring)]
  field_simp
  ring

/-- The map `e ↦ e / (e / c + 1)` is non-decreasing on the non-negative energies. -/
theorem frac_mono (c e1 e2 : ℝ) (hc : 0 < c) (h1 : 0 ≤ e1) (h12 : e1 ≤ e2) :
    e1 / (e1 / c + 1) ≤ e2 / (e2 / c + 1) := by
  have h2 : 0 ≤ e2 := le_trans h1 h12
  have hp1 : 0 < e1 / c + 1 := by positivity
  have hp2 : 0 < e2 / c + 1 := by positivity
  rw [div_le_div_iff₀ hp1 hp2]
  have : e1 * (e2 / c + 1) - e2 * (e1 / c + 1) = e1 - e2 := by field_simp; ring
  linarith

/-- The region-I pressure is non-decreasing in the energy. -/
theorem de2pI_mono (t : Tillotson ℝ) (d e1 e2 : ℝ)
    (ha : 0 ≤ t.a_) (hb : 0 ≤ t.b_) (hrho : 0 < t.rho0_) (hE0 : 0 < t.E0_)
    (hd : 0 < d) (h1 : 0 ≤ e1) (h12 : e1 ≤ e2) :
    t.de2pI d e1 ≤ t.de2pI d e2 := by
  have hc : 0 < t.E0_ * (d / t.rho0_) * (d / t.rho0_) := by positivity
  have hf := frac_mono _ e1 e2 hc h1 h12
  have h3 : t.a_ * d * e1 ≤ t.a_ * d * e2 :=
    mul_le_mul_of_nonneg_left h12 (by positivity)
  have h4 : t.b_ * d * (e1 / (e1 / (t.E0_ * (d / t.rho0_) * (d / t.rho0_)) + 1))
      ≤ t.b_ * d * (e2 / (e2 / (t.E0_ * (d / t.rho0_) * (d / t.rho0_)) + 1)) :=
    mul_le_mul_of_nonneg_left hf (by positivity)
  simp only [de2pI]
  have e1eq : ∀ e : ℝ, (t.a_ + t.b_ / (e / (t.E0_ * (d / t.rho0_) * (d / t.rho0_)) + 1)) * d * e
      = t.a_ * d * e + t.b_ * d * (e / (e / (t.E0_ * (d / t.rho0_) * (d / t.rho0_)) + 1)) := by
    intro e; ring
  rw [e1eq e1, e1eq e2]
  linarith

/-- The inverse `dp2EI` undoes `de2pI` on positive densities and energies,
and its assertion `E > 0` passes. -/
theorem dp2EI_de2pI (t : Tillotson ℝ) (d e : ℝ)
    (ha : 0 < t.a_) (hb : 0 ≤ t.b_) (hrho : 0 < t.rho0_) (hE0 : 0 < t.E0_)
    (hd : 0 < d) (he : 0 < e) :
    t.dp2EI Real.sqrt d (t.de2pI d e) = Except.ok e := by
  have hc : 0 < t.E0_ * (d / t.rho0_) * (d / t.rho0_) := by positivity
  simp only [dp2EI, de2pI]
  rw [quad_root t.a_ t.b_ _ d e _ _ ha hb hc hd he]
  rw [if_pos he]

/-- Claim C3. Round trip in region I: for parameters with `a > 0`, `b ≥ 0`,
`rho0 > 0`, `E0 > 0`, `0 < EIV < ECV`, for every `d ≥ rho0` with `e > 0` and
for every `0 < d < rho0` with `0 < e ≤ EIV`, `dp2e(d, de2p(d, e))` returns
exactly `e`; in particular the assertion `E > 0` of `dp2EI` passes, and the
root-finder result plays no part (any `bisect` gives the same value). -/
theorem dp2e_de2p_roundtrip_regionI (bisect : Bisect ℝ) (t : Tillotson ℝ) (d e : ℝ)
    (ha : 0 < t.a_) (hb : 0 ≤ t.b_) (hrho : 0 < t.rho0_) (hE0 : 0 < t.E0_)
    (hreg : (t.rho0_ ≤ d ∧ 0 < e) ∨ (0 < d ∧ d < t.rho0_ ∧ 0 < e ∧ e ≤ t.EIV_)) :
    t.dp2e Real.sqrt Real.exp bisect d (t.de2p Real.exp d e) = Except.ok e ∧
      t.dp2EI Real.sqrt d (t.de2p Real.exp d e) = Except.ok e := by
  rcases hreg with ⟨hd, he⟩ | ⟨hd0, hd, he, heE⟩
  · have hp : t.de2p Real.exp d e = t.de2pI d e := by
      simp only [de2p]
      rw [if_pos hd]
    have hinv := dp2EI_de2pI t d e ha hb hrho hE0 (lt_of_lt_of_le hrho hd) he
    rw [hp]
    refine ⟨?_, hinv⟩
    simp only [dp2e]
    rw [if_pos hd]
    exact hinv
  · have hp : t.de2p Real.exp d e = t.de2pI d e := by
      simp only [de2p]
      rw [if_neg (not_le.2 hd), if_pos heE]
    have hinv := dp2EI_de2pI t d e ha hb hrho hE0 hd0 he
    have hle : t.de2pI d e ≤ t.de2pI d t.EIV_ :=
      de2pI_mono t d e t.EIV_ ha.le hb hrho hE0 hd0 he.le heE
    rw [hp]
    refine ⟨?_, hinv⟩
    simp only [dp2e]
    rw [if_neg (not_le.2 hd), if_pos (by simpa only [de2pI] using hle)]
    exact hinv

/-- Worked instance of `dp2e_de2p_roundtrip_regionI`: the scenario material at
`d = rho0 = 2.7`, `e = 1e10`. -/
theorem dp2e_de2p_roundtrip_regionI_witness :
    (0 : ℝ) < (scenarioEos ℝ).a_ ∧ (0 : ℝ) ≤ (scenarioEos ℝ).b_ ∧
    (0 : ℝ) < (scenarioEos ℝ).rho0_ ∧ (0 : ℝ) < (scenarioEos ℝ).E0_ ∧
    (((scenarioEos ℝ).rho0_ ≤ 2.7 ∧ (0 : ℝ) < 1e10) ∨
      ((0 : ℝ) < 2.7 ∧ 2.7 < (scenarioEos ℝ).rho0_ ∧ (0 : ℝ) < 1e10 ∧
        1e10 ≤ (scenarioEos ℝ).EIV_)) ∧
    ((scenarioEos ℝ).dp2e Real.sqrt Real.exp idleBisect 2.7
        ((scenarioEos ℝ).de2p Real.exp 2.7 1e10) = Except.ok 1e10 ∧
      (scenarioEos ℝ).dp2EI Real.sqrt 2.7
        ((scenarioEos ℝ).de2p Real.exp 2.7 1e10) = Except.ok 1e10) :=
  ⟨by norm_num [scenarioEos, new], by norm_num [scenarioEos, new],
   by norm_num [scenarioEos, new], by norm_num [scenarioEos, new],
   Or.inl (by norm_num [scenarioEos, new]),
   dp2e_de2p_roundtrip_regionI idleBisect (scenarioEos ℝ) 2.7 1e10
     (by norm_num [scenarioEos, new]) (by norm_num [scenarioEos, new])
     (by norm_num [scenarioEos, new]) (by norm_num [scenarioEos, new])
     (Or.inl (by norm_num [scenarioEos, new]))⟩

/-- The `+` root of the region-IV quadratic is the energy the pressure came from. -/
theorem quad_rootIV (a b c d e x eb : ℝ) (ha : 0 < a) (hb : 0 ≤ b) (hc : 0 < c) (hd : 0 < d)
    (he : 0 < e) (hx : 0 ≤ x) :
    (a * d * e + x * (b * d * e / (e / c + 1) + eb) - x * eb - a * c * d - b * x * c * d
      + Real.sqrt (4 * a * c * d * (a * d * e + x * (b * d * e / (e / c + 1) + eb) - x * eb)
          + (x * eb + (a + b * x) * c * d
              - (a * d * e + x * (b * d * e / (e / c + 1) + eb))) ^ 2))
      / (2 * a * d) = e := by
  have hec : 0 < e / c + 1 := by positivity
  have hS : 0 ≤ a * d * e + a * c * d + b * x * c * d / (e / c + 1) := by positivity
  rw [sqrt_eq_of_eq_sq hS (by field_simp; ring)]
  field_simp
  ring

/-- The region-IV pressure (either form) is non-decreasing in the energy. -/
theorem de2pIV_mono (t : Tillotson ℝ) (d e1 e2 : ℝ)
    (ha : 0 ≤ t.a_) (hb : 0 ≤ t.b_) (hrho : 0 < t.rho0_) (hE0 : 0 < t.E0_)
    (hd : 0 < d) (h1 : 0 ≤ e1) (h12 : e1 ≤ e2) :
    t.de2pIV Real.exp d e1 ≤ t.de2pIV Real.exp d e2 := by
  have hc : 0 < t.E0_ * (d / t.rho0_) * (d / t.rho0_) := by positivity
  have h3 : t.a_ * d * e1 ≤ t.a_ * d * e2 :=
    mul_le_mul_of_nonneg_left h12 (by positivity)
  simp only [de2pIV]
  split_ifs with hcut
  · exact h3
  · have hf := frac_mono _ e1 e2 hc h1 h12
    have h4 : t.b_ * d * (e1 / (e1 / (t.E0_ * (d / t.rho0_) * (d / t.rho0_)) + 1))
        ≤ t.b_ * d * (e2 / (e2 / (t.E0_ * (d / t.rho0_) * (d / t.rho0_)) + 1)) :=
      mul_le_mul_of_nonneg_left hf (by positivity)
    have hx : 0 ≤ Real.exp (-t.alpha_ * (t.rho0_ / d - 1) ^ 2) := (Real.exp_pos _).le
    have e1eq : ∀ e : ℝ, t.b_ * d * e / (e / (t.E0_ * (d / t.rho0_) * (d / t.rho0_)) + 1)
        = t.b_ * d * (e / (e / (t.E0_ * (d / t.rho0_) * (d / t.rho0_)) + 1)) := by
      intro e; ring
    rw [e1eq e1, e1eq e2]
    have h5 := mul_le_mul_of_nonneg_left
      (add_le_add_right h4 (t.A_ * (d / t.rho0_ - 1) * Real.exp (-t.beta_ * (t.rho0_ / d - 1))))
      hx
    linarith

/-- The inverse `dp2EIV` undoes the full region-IV form, and its assertion
`E > 0` passes. -/
theorem dp2EIV_de2pIV (t : Tillotson ℝ) (d e : ℝ)
    (ha : 0 < t.a_) (hb : 0 ≤ t.b_) (hrho : 0 < t.rho0_) (hE0 : 0 < t.E0_)
    (hd : 0 < d) (he : 0 < e)
    (hfull : t.alpha_ ≤ 35 * (d / t.rho0_) * (d / t.rho0_)) :
    t.dp2EIV Real.sqrt Real.exp d (t.de2pIV Real.exp d e) = Except.ok e := by
  have hc : 0 < t.E0_ * (d / t.rho0_) * (d / t.rho0_) := by positivity
  rw [de2pIV_full Real.exp t d e hfull]
  simp only [dp2EIV]
  rw [quad_rootIV t.a_ t.b_ _ d e _ _ ha hb hc hd he (Real.exp_pos _).le]
  rw [if_pos he]

/-- Claim C4 (amended). Round trip in region IV where `de2pIV` is the full form
and the thresholds are ordered for the pressure at hand: for `a > 0`, `b ≥ 0`,
`rho0 > 0`, `E0 > 0`, `0 < EIV < ECV`, for every `0 < d < rho0` with
`alpha ≤ 35*(d/rho0)^2` and every `e ≥ ECV` whose pressure `de2pIV(d,e)` lies
above the threshold `PIV` of `dp2e`, `dp2e(d, de2p(d,e))` returns exactly `e`. -/
theorem dp2e_de2p_roundtrip_regionIV (bisect : Bisect ℝ) (t : Tillotson ℝ) (d e : ℝ)
    (ha : 0 < t.a_) (hb : 0 ≤ t.b_) (hrho : 0 < t.rho0_) (hE0 : 0 < t.E0_)
    (hEIV : 0 < t.EIV_) (hECV : t.EIV_ < t.ECV_)
    (hd0 : 0 < d) (hd : d < t.rho0_) (he : t.ECV_ ≤ e)
    (hfull : t.alpha_ ≤ 35 * (d / t.rho0_) * (d / t.rho0_))
    (hPIV : t.PIV d < t.de2pIV Real.exp d e) :
    t.dp2e Real.sqrt Real.exp bisect d (t.de2p Real.exp d e) = Except.ok e := by
  have hECV0 : 0 < t.ECV_ := lt_trans hEIV hECV
  have he0 : 0 < e := lt_of_lt_of_le hECV0 he
  have hp : t.de2p Real.exp d e = t.de2pIV Real.exp d e := by
    simp only [de2p]
    rw [if_neg (not_le.2 hd), if_neg (not_le.2 (lt_of_lt_of_le hECV he)), if_pos he]
  have hmono : t.de2pIV Real.exp d t.ECV_ ≤ t.de2pIV Real.exp d e :=
    de2pIV_mono t d t.ECV_ e ha.le hb hrho hE0 hd0 hECV0.le he
  rw [de2pIV_full Real.exp t d t.ECV_ hfull] at hmono
  rw [hp]
  simp only [dp2e]
  rw [if_neg (not_le.2 hd), if_neg (not_le.2 (by simpa only [PIV] using hPIV)), if_pos hmono]
  exact dp2EIV_de2pIV t d e ha hb hrho hE0 hd0 he0 hfull

/-- Worked instance of `dp2e_de2p_roundtrip_regionIV`: `plainEos` at half the
reference density and `e = ECV = 2`. -/
theorem dp2e_de2p_roundtrip_regionIV_witness :
    (0 : ℝ) < (plainEos ℝ).a_ ∧ (0 : ℝ) ≤ (plainEos ℝ).b_ ∧
    (0 : ℝ) < (plainEos ℝ).rho0_ ∧ (0 : ℝ) < (plainEos ℝ).E0_ ∧
    (0 : ℝ) < (plainEos ℝ).EIV_ ∧ (plainEos ℝ).EIV_ < (plainEos ℝ).ECV_ ∧
    (0 : ℝ) < 1 / 2 ∧ (1 / 2 : ℝ) < (plainEos ℝ).rho0_ ∧ (plainEos ℝ).ECV_ ≤ 2 ∧
    (plainEos ℝ).alpha_ ≤ 35 * (1 / 2 / (plainEos ℝ).rho0_) * (1 / 2 / (plainEos ℝ).rho0_) ∧
    (plainEos ℝ).PIV (1 / 2) < (plainEos ℝ).de2pIV Real.exp (1 / 2) 2 ∧
    (plainEos ℝ).dp2e Real.sqrt Real.exp idleBisect (1 / 2)
      ((plainEos ℝ).de2p Real.exp (1 / 2) 2) = Except.ok 2 :=
  ⟨by norm_num [plainEos, new], by norm_num [plainEos, new],
   by norm_num [plainEos, new], by norm_num [plainEos, new],
   by norm_num [plainEos, new], by norm_num [plainEos, new],
   by norm_num, by norm_num [plainEos, new], by norm_num [plainEos, new],
   by norm_num [plainEos, new], by norm_num [plainEos, new, PIV, de2pIV],
   dp2e_de2p_roundtrip_regionIV idleBisect (plainEos ℝ) (1 / 2) 2
     (by norm_num [plainEos, new]) (by norm_num [plainEos, new])
     (by norm_num [plainEos, new]) (by norm_num [plainEos, new])
     (by norm_num [plainEos, new]) (by norm_num [plainEos, new])
     (by norm_num) (by norm_num [plainEos, new]) (by norm_num [plainEos, new])
     (by norm_num [plainEos, new]) (by norm_num [plainEos, new, PIV, de2pIV])⟩

/-- A lower bound on `exp (-9)`, from `exp 1 < 3`. -/
theorem exp_neg_nine_bound : (1 : ℝ) / 20000 < Real.exp (-9) := by
  have h1 : Real.exp 1 < 3 := lt_trans Real.exp_one_lt_d9 (by norm_num)
  have h9 : Real.exp 9 = Real.exp 1 ^ 9 := by
    rw [← Real.exp_nat_mul]; norm_num
  have h9lt : Real.exp 9 < 20000 := by
    rw [h9]
    calc Real.exp 1 ^ 9 < 3 ^ 9 := pow_lt_pow_left₀ h1 (Real.exp_pos 1).le (by norm_num)
      _ < 20000 := by norm_num
  rw [Real.exp_neg, one_div]
  exact inv_strictAnti₀ (Real.exp_pos 9) h9lt

/-- Claim C4, counterexample. Two parameter sets meeting every hypothesis of the
claim, at `d = 1/2 < rho0 = 1` and `e = ECV = 2`.
(1) `shortcutEos` (`alpha = 9 > 35*(d/rho0)^2`): `de2p` returns the shortened
`a*d*e = 1`, which `dp2e` inverts with the full region-IV form, returning
`2 + 100000*exp(-9) > 7` instead of `2`.
(2) `stiffEos` (`alpha = 0`, full form): `de2p` returns `1/2`, below the
threshold `PIV = 25`, so `dp2e` inverts the region-I form and stops at the
assertion `E > 0` of `dp2EI`. -/
theorem dp2e_de2p_roundtrip_regionIV_counterexample :
    ((0 : ℝ) < (shortcutEos ℝ).a_ ∧ (0 : ℝ) ≤ (shortcutEos ℝ).b_ ∧
      (0 : ℝ) < (shortcutEos ℝ).A_ ∧ (0 : ℝ) < (shortcutEos ℝ).rho0_ ∧
      (0 : ℝ) < (shortcutEos ℝ).E0_ ∧ (0 : ℝ) ≤ (shortcutEos ℝ).alpha_ ∧
      (0 : ℝ) ≤ (shortcutEos ℝ).beta_ ∧ (0 : ℝ) < (shortcutEos ℝ).EIV_ ∧
      (shortcutEos ℝ).EIV_ < (shortcutEos ℝ).ECV_ ∧ (0 : ℝ) < 1 / 2 ∧
      (1 / 2 : ℝ) < (shortcutEos ℝ).rho0_ ∧ (2 : ℝ) ≥ (shortcutEos ℝ).ECV_) ∧
    (shortcutEos ℝ).de2p Real.exp (1 / 2) 2 = 1 ∧
    (shortcutEos ℝ).dp2e Real.sqrt Real.exp idleBisect (1 / 2)
      ((shortcutEos ℝ).de2p Real.exp (1 / 2) 2) = Except.ok (2 + 100000 * Real.exp (-9)) ∧
    (7 : ℝ) < 2 + 100000 * Real.exp (-9) ∧
    ((0 : ℝ) < (stiffEos ℝ).a_ ∧ (0 : ℝ) ≤ (stiffEos ℝ).b_ ∧
      (0 : ℝ) < (stiffEos ℝ).A_ ∧ (0 : ℝ) < (stiffEos ℝ).rho0_ ∧
      (0 : ℝ) < (stiffEos ℝ).E0_ ∧ (0 : ℝ) ≤ (stiffEos ℝ).alpha_ ∧
      (0 : ℝ) ≤ (stiffEos ℝ).beta_ ∧ (0 : ℝ) < (stiffEos ℝ).EIV_ ∧
      (stiffEos ℝ).EIV_ < (stiffEos ℝ).ECV_ ∧ (0 : ℝ) < 1 / 2 ∧
      (1 / 2 : ℝ) < (stiffEos ℝ).rho0_ ∧ (2 : ℝ) ≥ (stiffEos ℝ).ECV_) ∧
    (stiffEos ℝ).de2p Real.exp (1 / 2) 2 = 1 / 2 ∧
    (stiffEos ℝ).PIV (1 / 2) = 25 ∧
    (stiffEos ℝ).dp2e Real.sqrt Real.exp idleBisect (1 / 2)
      ((stiffEos ℝ).de2p Real.exp (1 / 2) 2)
      = Except.error (EosFailure.assertion "E > 0") := by
  have hx : 0 < Real.exp (-9) := Real.exp_pos _
  have hp : (shortcutEos ℝ).de2p Real.exp (1 / 2) 2 = 1 := by
    norm_num [shortcutEos, new, de2p, de2pIV]
  have hq : (stiffEos ℝ).de2p Real.exp (1 / 2) 2 = 1 / 2 := by
    norm_num [stiffEos, new, de2p, de2pIV]
  refine ⟨by norm_num [shortcutEos, new], hp, ?_, ?_, by norm_num [stiffEos, new], hq,
    by norm_num [stiffEos, new, PIV], ?_⟩
  · rw [hp]
    simp only [dp2e, dp2EIV, shortcutEos, new]
    norm_num
    rw [if_pos hx.le,
      sqrt_eq_of_eq_sq (s := 1 + Real.exp (-9) * 50000 + 1 / 8) (by positivity) (by ring),
      if_pos (by linarith)]
    congr 1
    ring
  · have hb := exp_neg_nine_bound
    linarith
  · rw [hq]
    simp only [dp2e, dp2EI, stiffEos, new]
    rw [sqrt_eq_of_eq_sq (s := 191 / 8) (by norm_num) (by norm_num)]
    norm_num

/-- The region-II blend is non-decreasing in the energy when both closed forms
are and the region-IV form lies above the region-I form at the lower energy. -/
theorem de2pII_mono (t : Tillotson ℝ) (d e1 e2 : ℝ)
    (ha : 0 ≤ t.a_) (hb : 0 ≤ t.b_) (hrho : 0 < t.rho0_) (hE0 : 0 < t.E0_)
    (hEIV : 0 < t.EIV_) (hd : 0 < d)
    (h1 : t.EIV_ ≤ e1) (h12 : e1 ≤ e2) (h2 : e2 ≤ t.ECV_)
    (hord : t.de2pI d e1 ≤ t.de2pIV Real.exp d e1) :
    t.de2pII Real.exp d e1 ≤ t.de2pII Real.exp d e2 := by
  have he1 : 0 ≤ e1 := le_trans hEIV.le h1
  have hI := de2pI_mono t d e1 e2 ha hb hrho hE0 hd he1 h12
  have hIV := de2pIV_mono t d e1 e2 ha hb hrho hE0 hd he1 h12
  simp only [de2pII]
  rcases eq_or_lt_of_le (le_trans h1 (le_trans h12 h2)) with heq | hlt
  · have hz : t.ECV_ - t.EIV_ = 0 := by rw [heq]; ring
    rw [hz, div_zero, div_zero]
  · have hpos : 0 < t.ECV_ - t.EIV_ := sub_pos.2 hlt
    rw [div_le_div_iff_of_pos_right hpos]
    have k1 := mul_nonneg (sub_nonneg.2 (le_trans h1 h12)) (sub_nonneg.2 hIV)
    have k2 := mul_nonneg (sub_nonneg.2 h2) (sub_nonneg.2 hI)
    have k3 := mul_nonneg (sub_nonneg.2 h12) (sub_nonneg.2 hord)
    nlinarith [k1, k2, k3]

/-- Claim C7 (amended). Monotonicity: for `a, b ≥ 0`, `rho0, E0 > 0` and
`0 < EIV < ECV`, for every density `d > 0` at which the region-IV pressure is
not below the region-I pressure on `[EIV, ECV]` (a condition only for
`d < rho0`), and all energies `0 < e1 ≤ e2`, `de2p(d,e1) ≤ de2p(d,e2)`: the
pressure is non-decreasing in `e` across regions I, II, IV and both seams. -/
theorem de2p_mono_of_ordered (t : Tillotson ℝ) (d e1 e2 : ℝ)
    (ha : 0 ≤ t.a_) (hb : 0 ≤ t.b_) (hrho : 0 < t.rho0_) (hE0 : 0 < t.E0_)
    (hEIV : 0 < t.EIV_) (hECV : t.EIV_ < t.ECV_)
    (hd : 0 < d) (he1 : 0 < e1) (h12 : e1 ≤ e2)
    (hord : d < t.rho0_ → ∀ e, t.EIV_ ≤ e → e ≤ t.ECV_ →
      t.de2pI d e ≤ t.de2pIV Real.exp d e) :
    t.de2p Real.exp d e1 ≤ t.de2p Real.exp d e2 := by
  by_cases hdr : t.rho0_ ≤ d
  · simp only [de2p]
    rw [if_pos hdr, if_pos hdr]
    exact de2pI_mono t d e1 e2 ha hb hrho hE0 hd he1.le h12
  · have hdlt : d < t.rho0_ := not_le.1 hdr
    have hne : t.EIV_ ≠ t.ECV_ := ne_of_lt hECV
    have fI : ∀ e, e ≤ t.EIV_ → t.de2p Real.exp d e = t.de2pI d e := by
      intro e he
      simp only [de2p]
      rw [if_neg hdr, if_pos he]
    have fIV : ∀ e, t.ECV_ ≤ e → t.de2p Real.exp d e = t.de2pIV Real.exp d e := by
      intro e he
      simp only [de2p]
      rw [if_neg hdr, if_neg (not_le.2 (lt_of_lt_of_le hECV he)), if_pos he]
    have fII : ∀ e, t.EIV_ ≤ e → e ≤ t.ECV_ →
        t.de2p Real.exp d e = t.de2pII Real.exp d e := by
      intro e he1 he2
      rcases eq_or_lt_of_le he1 with h | h
      · rw [← h, fI _ (le_refl _), de2pII_at_EIV Real.exp t d hne]
      · rcases eq_or_lt_of_le he2 with h2 | h2
        · rw [h2, fIV _ (le_refl _), de2pII_at_ECV Real.exp t d hne]
        · simp only [de2p]
          rw [if_neg hdr, if_neg (not_le.2 h), if_neg (not_le.2 h2)]
    have mI : ∀ x y, 0 < x → x ≤ y → y ≤ t.EIV_ →
        t.de2p Real.exp d x ≤ t.de2p Real.exp d y := by
      intro x y hx hxy hy
      rw [fI x (le_trans hxy hy), fI y hy]
      exact de2pI_mono t d x y ha hb hrho hE0 hd hx.le hxy
    have mII : ∀ x y, t.EIV_ ≤ x → x ≤ y → y ≤ t.ECV_ →
        t.de2p Real.exp d x ≤ t.de2p Real.exp d y := by
      intro x y hx hxy hy
      rw [fII x hx (le_trans hxy hy), fII y (le_trans hx hxy) hy]
      exact de2pII_mono t d x y ha hb hrho hE0 hEIV hd hx hxy hy
        (hord hdlt x hx (le_trans hxy hy))
    have mIV : ∀ x y, t.ECV_ ≤ x → x ≤ y →
        t.de2p Real.exp d x ≤ t.de2p Real.exp d y := by
      intro x y hx hxy
      rw [fIV x hx, fIV y (le_trans hx hxy)]
      exact de2pIV_mono t d x y ha hb hrho hE0 hd
        (le_trans (lt_trans hEIV hECV).le hx) hxy
    rcases le_total e2 t.EIV_ with c2 | c2
    · exact mI e1 e2 he1 h12 c2
    · rcases le_total e1 t.EIV_ with c1 | c1
      · rcases le_total e2 t.ECV_ with c3 | c3
        · exact le_trans (mI e1 _ he1 c1 (le_refl _)) (mII _ e2 (le_refl _) c2 c3)
        · exact le_trans (mI e1 _ he1 c1 (le_refl _))
            (le_trans (mII _ _ (le_refl _) hECV.le (le_refl _)) (mIV _ e2 (le_refl _) c3))
      · rcases le_total e2 t.ECV_ with c3 | c3
        · exact mII e1 e2 c1 h12 c3
        · rcases le_total e1 t.ECV_ with c4 | c4
          · exact le_trans (mII e1 _ c1 c4 (le_refl _)) (mIV _ e2 (le_refl _) c3)
          · exact mIV e1 e2 c4 h12

/-- At half the reference density `orderedEos` has its region-IV pressure above
its region-I pressure on `[EIV, ECV]`. -/
theorem orderedEos_ordered : (1 / 2 : ℝ) < (orderedEos ℝ).rho0_ →
    ∀ e : ℝ, (orderedEos ℝ).EIV_ ≤ e → e ≤ (orderedEos ℝ).ECV_ →
      (orderedEos ℝ).de2pI (1 / 2) e ≤ (orderedEos ℝ).de2pIV Real.exp (1 / 2) e := by
  intro _ e h1 h2
  simp only [orderedEos, new] at h1 h2
  simp only [de2pI, de2pIV, orderedEos, new]
  norm_num
  have h5 : (5 : ℝ) ≤ e / (1 / 4) + 1 := by linarith
  have hinv : (e / (1 / 4) + 1)⁻¹ ≤ (5 : ℝ)⁻¹ := inv_anti₀ (by norm_num) h5
  have hinv0 : 0 ≤ (e / (1 / 4) + 1)⁻¹ := by positivity
  nlinarith [mul_le_mul hinv h2 (by linarith) (by norm_num : (0 : ℝ) ≤ 5⁻¹)]

/-- Worked instance of `de2p_mono_of_ordered`: `orderedEos` at half the reference
density, from `e1 = 1/2` (region I) to `e2 = 3` (region IV). -/
theorem de2p_mono_of_ordered_witness :
    (0 : ℝ) ≤ (orderedEos ℝ).a_ ∧ (0 : ℝ) ≤ (orderedEos ℝ).b_ ∧
    (0 : ℝ) < (orderedEos ℝ).rho0_ ∧ (0 : ℝ) < (orderedEos ℝ).E0_ ∧
    (0 : ℝ) < (orderedEos ℝ).EIV_ ∧ (orderedEos ℝ).EIV_ < (orderedEos ℝ).ECV_ ∧
    (0 : ℝ) < 1 / 2 ∧ (0 : ℝ) < 1 / 2 ∧ (1 / 2 : ℝ) ≤ 3 ∧
    ((1 / 2 : ℝ) < (orderedEos ℝ).rho0_ →
      ∀ e : ℝ, (orderedEos ℝ).EIV_ ≤ e → e ≤ (orderedEos ℝ).ECV_ →
        (orderedEos ℝ).de2pI (1 / 2) e ≤ (orderedEos ℝ).de2pIV Real.exp (1 / 2) e) ∧
    (orderedEos ℝ).de2p Real.exp (1 / 2) (1 / 2) ≤ (orderedEos ℝ).de2p Real.exp (1 / 2) 3 :=
  ⟨by norm_num [orderedEos, new], by norm_num [orderedEos, new],
   by norm_num [orderedEos, new], by norm_num [orderedEos, new],
   by norm_num [orderedEos, new], by norm_num [orderedEos, new],
   by norm_num, by norm_num, by norm_num, orderedEos_ordered,
   de2p_mono_of_ordered (orderedEos ℝ) (1 / 2) (1 / 2) 3
     (by norm_num [orderedEos, new]) (by norm_num [orderedEos, new])
     (by norm_num [orderedEos, new]) (by norm_num [orderedEos, new])
     (by norm_num [orderedEos, new]) (by norm_num [orderedEos, new])
     (by norm_num) (by norm_num) (by norm_num) orderedEos_ordered⟩

/-- Claim C7, counterexample. `stiffEosB` meets every hypothesis of the claim
(`a, b, A, B, rho0, E0 > 0`, `alpha, beta ≥ 0`, `0 < EIV < ECV`); at
`d = 1/2` the pressure falls from `de2p(d, 1) = 251/10` (region I, `e = EIV`)
to `de2p(d, 2) = 11/18` (region IV, `e = ECV`). -/
theorem de2p_mono_counterexample :
    (0 : ℝ) < (stiffEosB ℝ).a_ ∧ (0 : ℝ) < (stiffEosB ℝ).b_ ∧ (0 : ℝ) < (stiffEosB ℝ).A_ ∧
    (0 : ℝ) < (stiffEosB ℝ).B_ ∧ (0 : ℝ) < (stiffEosB ℝ).rho0_ ∧ (0 : ℝ) < (stiffEosB ℝ).E0_ ∧
    (0 : ℝ) ≤ (stiffEosB ℝ).alpha_ ∧ (0 : ℝ) ≤ (stiffEosB ℝ).beta_ ∧
    (0 : ℝ) < (stiffEosB ℝ).EIV_ ∧ (stiffEosB ℝ).EIV_ < (stiffEosB ℝ).ECV_ ∧
    (0 : ℝ) < 1 / 2 ∧ (0 : ℝ) < 1 ∧ (1 : ℝ) ≤ 2 ∧
    (stiffEosB ℝ).de2p Real.exp (1 / 2) 1 = 251 / 10 ∧
    (stiffEosB ℝ).de2p Real.exp (1 / 2) 2 = 11 / 18 ∧
    ¬ ((stiffEosB ℝ).de2p Real.exp (1 / 2) 1 ≤ (stiffEosB ℝ).de2p Real.exp (1 / 2) 2) := by
  have h1 : (stiffEosB ℝ).de2p Real.exp (1 / 2) 1 = 251 / 10 := by
    norm_num [stiffEosB, new, de2p, de2pI]
  have h2 : (stiffEosB ℝ).de2p Real.exp (1 / 2) 2 = 11 / 18 := by
    norm_num [stiffEosB, new, de2p, de2pIV]
  refine ⟨by norm_num [stiffEosB, new], by norm_num [stiffEosB, new],
    by norm_num [stiffEosB, new], by norm_num [stiffEosB, new], by norm_num [stiffEosB, new],
    by norm_num [stiffEosB, new], by norm_num [stiffEosB, new], by norm_num [stiffEosB, new],
    by norm_num [stiffEosB, new], by norm_num [stiffEosB, new], by norm_num, by norm_num,
    by norm_num, h1, h2, ?_⟩
  rw [h1, h2]
  norm_num

/-- `negativeEos` at `d = 1/2`: the threshold `PIV` is `0`. -/
theorem negativeEos_PIV : (negativeEos ℝ).PIV (1 / 2) = 0 := by
  norm_num [negativeEos, new, PIV]

/-- `negativeEos` at `d = 1/2`: the threshold `PCV` is `1/2`. -/
theorem negativeEos_PCV : (negativeEos ℝ).PCV Real.exp (1 / 2) = 1 / 2 := by
  norm_num [negativeEos, new, PCV]

/-- Claim C8, counterexample. `negativeEos` (`EIV = -1`, `ECV = 1`) at
`d = 1/2 < rho0`, `p = 1/4` with `PIV = 0 < p < PCV = 1/2`: the residual
vanishes at `e = 0`, the midpoint of `[EIV, ECV]`, so the bisection ends on the
bracket `(0, 0)`; `result = 0`, `newp = 1/4 = p`, the gate does not trip, and
`dp2e` stops at the assertion `result > 0` instead of returning `result`. -/
theorem dp2e_regionII_gate_counterexample :
    (0 : ℝ) < 1 / 2 ∧ (1 / 2 : ℝ) < (negativeEos ℝ).rho0_ ∧
    (negativeEos ℝ).PIV (1 / 2) < 1 / 4 ∧ (1 / 4 : ℝ) < (negativeEos ℝ).PCV Real.exp (1 / 2) ∧
    dp2eII Real.exp { negativeEos ℝ with temp_d_ := 1 / 2, temp_p_ := 1 / 4 } 0 = 0 ∧
    (negativeEos ℝ).bisectCall Real.exp (exactBisect 0) (1 / 2) (1 / 4) = Except.ok (0, 0) ∧
    (negativeEos ℝ).de2p Real.exp (1 / 2) (0.5 * (0 + 0)) = 1 / 4 ∧
    ¬ (|(1 / 4 : ℝ) - (negativeEos ℝ).de2p Real.exp (1 / 2) (0.5 * (0 + 0))| > 0.001 * (1 / 4) ∧
        (negativeEos ℝ).de2p Real.exp (1 / 2) (0.5 * (0 + 0))
          > 2 * (negativeEos ℝ).PIV (1 / 2)) ∧
    (negativeEos ℝ).dp2e Real.sqrt Real.exp (exactBisect 0) (1 / 2) (1 / 4)
      = Except.error (EosFailure.assertion "result > 0") ∧
    (negativeEos ℝ).dp2e Real.sqrt Real.exp (exactBisect 0) (1 / 2) (1 / 4)
      ≠ Except.ok (0.5 * (0 + 0)) := by
  have hPIV := negativeEos_PIV
  have hPCV := negativeEos_PCV
  have hnewp : (negativeEos ℝ).de2p Real.exp (1 / 2) (0.5 * (0 + 0)) = 1 / 4 := by
    norm_num [negativeEos, new, de2p, de2pII, de2pI, de2pIV]
  have hbis : (negativeEos ℝ).bisectCall Real.exp (exactBisect 0) (1 / 2) (1 / 4)
      = Except.ok (0, 0) := by
    simp [bisectCall, exactBisect]
  have hgate : ¬ (|(1 / 4 : ℝ) - (negativeEos ℝ).de2p Real.exp (1 / 2) (0.5 * (0 + 0))|
        > 0.001 * (1 / 4) ∧
      (negativeEos ℝ).de2p Real.exp (1 / 2) (0.5 * (0 + 0))
        > 2 * (negativeEos ℝ).PIV (1 / 2)) := by
    rw [hnewp, hPIV]
    norm_num
  have hres : (negativeEos ℝ).dp2e Real.sqrt Real.exp (exactBisect 0) (1 / 2) (1 / 4)
      = Except.error (EosFailure.assertion "result > 0") := by
    rw [dp2e_regionII_value Real.sqrt Real.exp (exactBisect 0) (negativeEos ℝ)
      (1 / 2) (1 / 4) 0 0 (by norm_num [negativeEos, new]) (by rw [hPIV]; norm_num)
      (by rw [hPCV]; norm_num) hbis, hnewp, hPIV]
    norm_num
  refine ⟨by norm_num, by norm_num [negativeEos, new], by rw [hPIV]; norm_num,
    by rw [hPCV]; norm_num, ?_, hbis, hnewp, hgate, hres, ?_⟩
  · norm_num [negativeEos, new, dp2eII, de2pII, de2pI, de2pIV]
  · rw [hres]
    simp

/-- `soundEos` at `d = 1/2`, `p = 3/4`, the bisection ending on the root `e = 2`:
`dp2e` returns `2`. -/
theorem soundEos_dp2e :
    (soundEos ℝ).dp2e Real.sqrt Real.exp (exactBisect 2) (1 / 2) (3 / 4) = Except.ok 2 := by
  simp only [dp2e, bisectCall, exactBisect, soundEos, new, de2p, de2pII, de2pI, de2pIV]
  norm_num

/-- `soundEos`: the region-I sound speed at `d = 1/2`, `e = 2`, `p = 3/4` is `4`. -/
theorem soundEos_cI : (soundEos ℝ).dep2cI Real.sqrt (1 / 2) 2 (3 / 4) = 4 := by
  simp only [dep2cI, soundEos, new]
  norm_num
  exact sqrt_eq_of_eq_sq (by norm_num) (by norm_num)

/-- `soundEos`: the region-IV sound speed at `d = 1/2`, `e = 2`, `p = 3/4` is `2`. -/
theorem soundEos_cIV : (soundEos ℝ).dep2cIV Real.sqrt Real.exp (1 / 2) 2 (3 / 4) = 2 := by
  simp only [dep2cIV, soundEos, new]
  norm_num
  exact sqrt_eq_of_eq_sq (by norm_num) (by norm_num)

/-- `soundEos`: the blend formed in `dp2c` at `d = 1/2`, `e = 2`, `p = 3/4` is `5/2`. -/
theorem soundEos_blend : (soundEos ℝ).dp2cII Real.sqrt Real.exp (1 / 2) 2 (3 / 4) = 5 / 2 := by
  simp only [dp2cII]
  rw [soundEos_cI, soundEos_cIV]
  norm_num [soundEos, new]

/-- `soundEos` at `d = 1/2`: the thresholds are `PIV = 1/4` and `PCV = 9/4`. -/
theorem soundEos_thresholds :
    (soundEos ℝ).PIV (1 / 2) = 1 / 4 ∧ (soundEos ℝ).PCV Real.exp (1 / 2) = 9 / 4 := by
  constructor
  · norm_num [soundEos, new, PIV]
  · norm_num [soundEos, new, PCV]

/-- Worked instance of `dp2e_regionII_gate`: `soundEos` at `d = 1/2`, `p = 3/4`
with the bisection ending on the root `e = 2`. -/
theorem dp2e_regionII_gate_witness :
    (1 / 2 : ℝ) < (soundEos ℝ).rho0_ ∧ (soundEos ℝ).PIV (1 / 2) < 3 / 4 ∧
    (3 / 4 : ℝ) < (soundEos ℝ).PCV Real.exp (1 / 2) ∧
    (soundEos ℝ).bisectCall Real.exp (exactBisect 2) (1 / 2) (3 / 4) = Except.ok (2, 2) ∧
    (((∃ entries, (soundEos ℝ).dp2e Real.sqrt Real.exp (exactBisect 2) (1 / 2) (3 / 4)
        = Except.error (EosFailure.universalError "No dp2e convergence" entries)) ↔
      (|(3 / 4 : ℝ) - (soundEos ℝ).de2p Real.exp (1 / 2) (0.5 * (2 + 2))| > 0.001 * (3 / 4) ∧
        (soundEos ℝ).de2p Real.exp (1 / 2) (0.5 * (2 + 2)) > 2 * (soundEos ℝ).PIV (1 / 2))) ∧
    ((|(3 / 4 : ℝ) - (soundEos ℝ).de2p Real.exp (1 / 2) (0.5 * (2 + 2))| > 0.001 * (3 / 4) ∧
        (soundEos ℝ).de2p Real.exp (1 / 2) (0.5 * (2 + 2)) > 2 * (soundEos ℝ).PIV (1 / 2)) →
      (soundEos ℝ).dp2e Real.sqrt Real.exp (exactBisect 2) (1 / 2) (3 / 4)
        = Except.error (EosFailure.universalError "No dp2e convergence"
            [("Density", 1 / 2), ("Pressure", 3 / 4),
             ("New Pressure", (soundEos ℝ).de2p Real.exp (1 / 2) (0.5 * (2 + 2))),
             ("EIV", (soundEos ℝ).EIV_), ("ECV", (soundEos ℝ).ECV_),
             ("First energy", 2), ("Second energy", 2),
             ("First pressure", (soundEos ℝ).de2p Real.exp (1 / 2) 2),
             ("Second pressure", (soundEos ℝ).de2p Real.exp (1 / 2) 2)])) ∧
    (¬ (|(3 / 4 : ℝ) - (soundEos ℝ).de2p Real.exp (1 / 2) (0.5 * (2 + 2))| > 0.001 * (3 / 4) ∧
        (soundEos ℝ).de2p Real.exp (1 / 2) (0.5 * (2 + 2)) > 2 * (soundEos ℝ).PIV (1 / 2)) →
      (0.5 : ℝ) * (2 + 2) > 0 →
      (soundEos ℝ).dp2e Real.sqrt Real.exp (exactBisect 2) (1 / 2) (3 / 4)
        = Except.ok (0.5 * (2 + 2))) ∧
    (¬ (|(3 / 4 : ℝ) - (soundEos ℝ).de2p Real.exp (1 / 2) (0.5 * (2 + 2))| > 0.001 * (3 / 4) ∧
        (soundEos ℝ).de2p Real.exp (1 / 2) (0.5 * (2 + 2)) > 2 * (soundEos ℝ).PIV (1 / 2)) →
      ¬ (0.5 : ℝ) * (2 + 2) > 0 →
      (soundEos ℝ).dp2e Real.sqrt Real.exp (exactBisect 2) (1 / 2) (3 / 4)
        = Except.error (EosFailure.assertion "result > 0")) ∧
    ((0 : ℝ) < (soundEos ℝ).EIV_ → (soundEos ℝ).EIV_ ≤ 2 → (soundEos ℝ).EIV_ ≤ 2 →
      (0.5 : ℝ) * (2 + 2) > 0)) :=
  ⟨by norm_num [soundEos, new], by rw [soundEos_thresholds.1]; norm_num,
   by rw [soundEos_thresholds.2]; norm_num, by simp [bisectCall, exactBisect],
   dp2e_regionII_gate Real.sqrt Real.exp (exactBisect 2) (soundEos ℝ) (1 / 2) (3 / 4) 2 2
     (by norm_num [soundEos, new]) (by rw [soundEos_thresholds.1]; norm_num)
     (by rw [soundEos_thresholds.2]; norm_num) (by simp [bisectCall, exactBisect])⟩

/-- Claim C9, the code at a failing input. `soundEos` at `d = 1/2 < rho0`,
`p = 3/4`, where `dp2e` returns `e = 2` inside `(EIV, ECV) = (1, 5)`, so the
pressure weight is `w = 1/4`. The region-I sound speed is `4`, the region-IV
sound speed is `2`. The value formed in `dp2c` is `5/2 = w*4 + (1-w)*2`: the
region-I value carries `w` and the region-IV value `1 - w`, the reverse of the
pressure blend `de2pII`; the blend of the claim, `w*2 + (1-w)*4 = 7/2`, is a
different number, and `dp2c` returns `sqrt (5/2)`. -/
theorem dp2c_blend_weights_swapped :
    (soundEos ℝ).dp2e Real.sqrt Real.exp (exactBisect 2) (1 / 2) (3 / 4) = Except.ok 2 ∧
    (soundEos ℝ).EIV_ < 2 ∧ (2 : ℝ) < (soundEos ℝ).ECV_ ∧
    (soundEos ℝ).specWeight 2 = 1 / 4 ∧
    (soundEos ℝ).dep2cI Real.sqrt (1 / 2) 2 (3 / 4) = 4 ∧
    (soundEos ℝ).dep2cIV Real.sqrt Real.exp (1 / 2) 2 (3 / 4) = 2 ∧
    (soundEos ℝ).dp2cII Real.sqrt Real.exp (1 / 2) 2 (3 / 4) = 5 / 2 ∧
    (soundEos ℝ).dp2cII Real.sqrt Real.exp (1 / 2) 2 (3 / 4)
      = (soundEos ℝ).specWeight 2 * (soundEos ℝ).dep2cI Real.sqrt (1 / 2) 2 (3 / 4)
        + (1 - (soundEos ℝ).specWeight 2)
          * (soundEos ℝ).dep2cIV Real.sqrt Real.exp (1 / 2) 2 (3 / 4) ∧
    (soundEos ℝ).dp2cII Real.sqrt Real.exp (1 / 2) 2 (3 / 4)
      ≠ (soundEos ℝ).specWeight 2 * (soundEos ℝ).dep2cIV Real.sqrt Real.exp (1 / 2) 2 (3 / 4)
        + (1 - (soundEos ℝ).specWeight 2)
          * (soundEos ℝ).dep2cI Real.sqrt (1 / 2) 2 (3 / 4) ∧
    (soundEos ℝ).dp2c Real.sqrt Real.exp (exactBisect 2) (1 / 2) (3 / 4)
      = Except.ok (Real.sqrt (5 / 2)) := by
  have hw : (soundEos ℝ).specWeight 2 = 1 / 4 := by
    norm_num [soundEos, new, specWeight]
  refine ⟨soundEos_dp2e, by norm_num [soundEos, new], by norm_num [soundEos, new], hw,
    soundEos_cI, soundEos_cIV, soundEos_blend, ?_, ?_, ?_⟩
  · rw [soundEos_blend, soundEos_cI, soundEos_cIV, hw]
    norm_num
  · rw [soundEos_blend, soundEos_cI, soundEos_cIV, hw]
    norm_num
  · simp only [dp2c]
    rw [soundEos_dp2e]
    simp only []
    rw [soundEos_blend]
    norm_num [soundEos, new]

/-- With `E0 > 0` and `d ≥ rho0`, `dp2c` returns the square root of the square
root of the floored region-I value. -/
theorem dp2c_regionI_value (bisect : Bisect ℝ) (t : Tillotson ℝ) (d p e : ℝ)
    (hE0 : 0 < t.E0_) (hd : t.rho0_ ≤ d)
    (he : t.dp2e Real.sqrt Real.exp bisect d p = Except.ok e) :
    t.dp2c Real.sqrt Real.exp bisect d p
      = Except.ok (Real.sqrt (Real.sqrt (max (t.S_I d e p) (1e-10 * t.E0_)))) := by
  have hfloor : (0 : ℝ) < 1e-10 * t.E0_ := mul_pos (by norm_num) hE0
  have hpos : 0 < Real.sqrt (max (t.S_I d e p) (1e-10 * t.E0_)) :=
    Real.sqrt_pos.2 (lt_of_lt_of_le hfloor (le_max_right _ _))
  simp only [dp2c]
  rw [he]
  simp only []
  rw [if_pos (Or.inl hd), dep2cI_eq, if_pos hpos]

/-- Claim C10, the code at two failing inputs. `squareEos` (`E0 = 1 > 0`).
(1) `d = rho0 = 1`, `p = 1`: `dp2e` returns `e = 1`, the floored region-I value
`max(S_I, 1e-10*E0)` is `16`, and `dp2c` returns `2`, whose square is `4`.
(2) `d = 1/2 < rho0`, `p = -5/2`: `dp2e` returns `e = 8 ≥ ECV`, the floored
region-IV value is `16`, and `dp2c` returns `2` again.
In both, `dp2c` takes the square root twice, so `dp2c^2` is the square root
of the floored value and not the floored value. -/
theorem dp2c_double_sqrt :
    ((0 : ℝ) < (squareEos ℝ).E0_ ∧ (1 : ℝ) ≥ (squareEos ℝ).rho0_ ∧
      (squareEos ℝ).dp2e Real.sqrt Real.exp idleBisect 1 1 = Except.ok 1 ∧
      max ((squareEos ℝ).S_I 1 1 1) (1e-10 * (squareEos ℝ).E0_) = 16 ∧
      (squareEos ℝ).dp2c Real.sqrt Real.exp idleBisect 1 1 = Except.ok 2 ∧
      (2 : ℝ) ^ 2 ≠ max ((squareEos ℝ).S_I 1 1 1) (1e-10 * (squareEos ℝ).E0_)) ∧
    ((1 / 2 : ℝ) < (squareEos ℝ).rho0_ ∧ (8 : ℝ) ≥ (squareEos ℝ).ECV_ ∧
      (squareEos ℝ).dp2e Real.sqrt Real.exp idleBisect (1 / 2) (-5 / 2) = Except.ok 8 ∧
      max ((squareEos ℝ).S_IV Real.exp (1 / 2) 8 (-5 / 2)) (1e-10 * (squareEos ℝ).E0_) = 16 ∧
      (squareEos ℝ).dp2c Real.sqrt Real.exp idleBisect (1 / 2) (-5 / 2) = Except.ok 2 ∧
      (2 : ℝ) ^ 2
        ≠ max ((squareEos ℝ).S_IV Real.exp (1 / 2) 8 (-5 / 2)) (1e-10 * (squareEos ℝ).E0_)) := by
  have he1 : (squareEos ℝ).dp2e Real.sqrt Real.exp idleBisect 1 1 = Except.ok 1 := by
    simp only [dp2e, dp2EI, squareEos, new]
    rw [sqrt_eq_of_eq_sq (s := 2) (by norm_num) (by norm_num)]
    norm_num
  have hS1 : max ((squareEos ℝ).S_I 1 1 1) (1e-10 * (squareEos ℝ).E0_) = 16 := by
    norm_num [S_I, squareEos, new]
  have hc1 : (squareEos ℝ).dep2cI Real.sqrt 1 1 1 = 4 := by
    rw [dep2cI_eq, hS1]
    exact sqrt_eq_of_eq_sq (by norm_num) (by norm_num)
  have he2 : (squareEos ℝ).dp2e Real.sqrt Real.exp idleBisect (1 / 2) (-5 / 2)
      = Except.ok 8 := by
    simp only [dp2e, dp2EIV, squareEos, new]
    rw [sqrt_eq_of_eq_sq (s := 33 / 8) (by norm_num) (by norm_num)]
    norm_num
  have hS2 : max ((squareEos ℝ).S_IV Real.exp (1 / 2) 8 (-5 / 2))
      (1e-10 * (squareEos ℝ).E0_) = 16 := by
    norm_num [S_IV, squareEos, new]
  have hc2 : (squareEos ℝ).dep2cIV Real.sqrt Real.exp (1 / 2) 8 (-5 / 2) = 4 := by
    rw [dep2cIV_eq, hS2]
    exact sqrt_eq_of_eq_sq (by norm_num) (by norm_num)
  refine ⟨⟨by norm_num [squareEos, new], by norm_num [squareEos, new], he1, hS1, ?_, ?_⟩,
    ⟨by norm_num [squareEos, new], by norm_num [squareEos, new], he2, hS2, ?_, ?_⟩⟩
  · simp only [dp2c]
    rw [he1]
    simp only []
    rw [hc1]
    norm_num [squareEos, new]
    exact sqrt_eq_of_eq_sq (by norm_num) (by norm_num)
  · rw [hS1]; norm_num
  · simp only [dp2c]
    rw [he2]
    simp only []
    rw [hc2]
    norm_num [squareEos, new]
    exact sqrt_eq_of_eq_sq (by norm_num) (by norm_num)
  · rw [hS2]; norm_num

end RealArithmetic

end Tillotson

namespace Tillotson

section DensityCheck

variable {R : Type} [LinearOrderedField R]

/-- Claim C12 (amended). `de2p` makes no test on the density: for `rho0 > 0`, every
`d ≤ 0` and every `e` it returns a pressure, the value of the region formula
picked by `e` alone, as for any other density below `rho0`: `P_I(d,e)` when
`e ≤ EIV`, `de2pIV(d,e)` when `e > EIV` and `e ≥ ECV`, the blend `de2pII(d,e)`
otherwise. -/
theorem de2p_no_density_check (exp : R → R) (t : Tillotson R) (d e : R)
    (hrho : 0 < t.rho0_) (hd : d ≤ 0) :
    t.de2p exp d e =
      if e ≤ t.EIV_ then t.specPI d e
      else if e ≥ t.ECV_ then t.de2pIV exp d e
      else t.de2pII exp d e := by
  have hlt : ¬ d ≥ t.rho0_ := not_le.2 (lt_of_le_of_lt hd hrho)
  simp only [de2p]
  rw [if_neg hlt, de2pI_eq_specPI]

/-- Worked instance of `de2p_no_density_check`: `plainEos` at `d = -1`, `e = 1`. -/
theorem de2p_no_density_check_witness :
    (0 : ℝ) < (plainEos ℝ).rho0_ ∧ (-1 : ℝ) ≤ 0 ∧
    (plainEos ℝ).de2p Real.exp (-1) 1 =
      if (1 : ℝ) ≤ (plainEos ℝ).EIV_ then (plainEos ℝ).specPI (-1) 1
      else if (1 : ℝ) ≥ (plainEos ℝ).ECV_ then (plainEos ℝ).de2pIV Real.exp (-1) 1
      else (plainEos ℝ).de2pII Real.exp (-1) 1 :=
  ⟨by norm_num [plainEos, new], by norm_num,
   de2p_no_density_check Real.exp (plainEos ℝ) (-1) 1 (by norm_num [plainEos, new])
     (by norm_num)⟩

end DensityCheck

/-- Claim C12, counterexample. `plainEos` at the non-positive densities `d = -1`
and `d = 0` with `e = 1`: `de2p` returns the pressures `-7/2` and `-1`; it
has no failure path. -/
theorem de2p_no_density_check_counterexample :
    (-1 : ℝ) ≤ 0 ∧ (plainEos ℝ).de2p Real.exp (-1) 1 = -7 / 2 ∧
    (0 : ℝ) ≤ 0 ∧ (plainEos ℝ).de2p Real.exp 0 1 = -1 := by
  refine ⟨by norm_num, ?_, le_refl _, ?_⟩
  · norm_num [plainEos, new, de2p, de2pI]
  · norm_num [plainEos, new, de2p, de2pI]

/-- Claim C11. Sound-speed positivity: for `E0 > 0`, every density `d` and every
`p` for which `dp2e(d,p)` returns an energy `e`, `dp2c(d,p)` returns a value
`c > 0`, in region I, region II and region IV alike (`e = EIV` and `e = ECV`
included), so none of the three assertions `res > 0` of `dp2c` fires; the same
holds for `de2c(d,e)` whenever `dp2e(d, de2p(d,e))` returns. -/
theorem dp2c_pos (bisect : Bisect ℝ) (t : Tillotson ℝ) (d : ℝ) (hE0 : 0 < t.E0_) :
    (∀ p e, t.dp2e Real.sqrt Real.exp bisect d p = Except.ok e →
      ∃ c, t.dp2c Real.sqrt Real.exp bisect d p = Except.ok c ∧ 0 < c ∧
        t.dp2c Real.sqrt Real.exp bisect d p ≠ Except.error (EosFailure.assertion "res > 0")) ∧
    (∀ e0 e, t.dp2e Real.sqrt Real.exp bisect d (t.de2p Real.exp d e0) = Except.ok e →
      ∃ c, t.de2c Real.sqrt Real.exp bisect d e0 = Except.ok c ∧ 0 < c) := by
  have hfloor : (0 : ℝ) < 1e-10 * t.E0_ := mul_pos (by norm_num) hE0
  have hI : ∀ e p, 0 < t.dep2cI Real.sqrt d e p := by
    intro e p
    rw [dep2cI_eq]
    exact Real.sqrt_pos.2 (lt_of_lt_of_le hfloor (le_max_right _ _))
  have hIV : ∀ e p, 0 < t.dep2cIV Real.sqrt Real.exp d e p := by
    intro e p
    rw [dep2cIV_eq]
    exact Real.sqrt_pos.2 (lt_of_lt_of_le hfloor (le_max_right _ _))
  have main : ∀ p e, t.dp2e Real.sqrt Real.exp bisect d p = Except.ok e →
      ∃ c, t.dp2c Real.sqrt Real.exp bisect d p = Except.ok c ∧ 0 < c := by
    intro p e he
    simp only [dp2c]
    rw [he]
    simp only []
    by_cases h1 : d ≥ t.rho0_ ∨ e ≤ t.EIV_
    · rw [if_pos h1, if_pos (hI e p)]
      exact ⟨_, rfl, Real.sqrt_pos.2 (hI e p)⟩
    · rw [if_neg h1]
      by_cases h2 : e ≥ t.ECV_
      · rw [if_pos h2, if_pos (hIV e p)]
        exact ⟨_, rfl, Real.sqrt_pos.2 (hIV e p)⟩
      · rw [if_neg h2]
        have hlo : t.EIV_ < e := by
          by_contra hc
          exact h1 (Or.inr (not_lt.1 hc))
        have hhi : e < t.ECV_ := not_le.1 h2
        have hblend : 0 < t.dp2cII Real.sqrt Real.exp d e p := by
          simp only [dp2cII]
          exact div_pos
            (add_pos (mul_pos (hIV e p) (sub_pos.2 hhi)) (mul_pos (hI e p) (sub_pos.2 hlo)))
            (sub_pos.2 (lt_trans hlo hhi))
        rw [if_pos hblend]
        exact ⟨_, rfl, Real.sqrt_pos.2 hblend⟩
  constructor
  · intro p e he
    obtain ⟨c, hc, hpos⟩ := main p e he
    refine ⟨c, hc, hpos, ?_⟩
    rw [hc]
    exact fun h => by cases h
  · intro e0 e he
    simp only [de2c]
    exact main _ e he

/-- Worked instance of `dp2c_pos`: `soundEos` at `d = 1/2`, `p = 3/4`, where
`dp2e` returns `e = 2` inside region II. -/
theorem dp2c_pos_witness :
    (0 : ℝ) < (soundEos ℝ).E0_ ∧
    (soundEos ℝ).dp2e Real.sqrt Real.exp (exactBisect 2) (1 / 2) (3 / 4) = Except.ok 2 ∧
    ∃ c, (soundEos ℝ).dp2c Real.sqrt Real.exp (exactBisect 2) (1 / 2) (3 / 4) = Except.ok c ∧
      0 < c ∧
      (soundEos ℝ).dp2c Real.sqrt Real.exp (exactBisect 2) (1 / 2) (3 / 4)
        ≠ Except.error (EosFailure.assertion "res > 0") :=
  ⟨by norm_num [soundEos, new], soundEos_dp2e,
   (dp2c_pos (exactBisect 2) (soundEos ℝ) (1 / 2) (by norm_num [soundEos, new])).1
     (3 / 4) 2 soundEos_dp2e⟩

end Tillotson

namespace Tillotson

section Thresholds

variable {R : Type} [LinearOrderedField R]

/-- The lower threshold of `dp2e` is the forward map at `EIV`, for every density. -/
theorem PIV_eq_de2p (exp : R → R) (t : Tillotson R) (d : R) :
    t.PIV d = t.de2p exp d t.EIV_ := by
  simp only [de2p]
  rw [if_pos (le_refl t.EIV_), ite_self]
  rfl

/-- The upper threshold of `dp2e` is the full region-IV form at `ECV`: it has
no counterpart of the early return of `de2pIV`. -/
theorem PCV_eq_full (exp : R → R) (t : Tillotson R) (d : R) :
    t.PCV exp d
      = t.a_ * d * t.ECV_ + exp (-t.alpha_ * (t.rho0_ / d - 1) ^ 2)
        * (t.b_ * d * t.ECV_ / (t.ECV_ / (t.E0_ * (d / t.rho0_) * (d / t.rho0_)) + 1)
            + t.A_ * (d / t.rho0_ - 1) * exp (-t.beta_ * (t.rho0_ / d - 1))) := rfl

/-- Below `rho0`, with `EIV < ECV`, the forward map at `ECV` is `de2pIV`. -/
theorem de2p_at_ECV (exp : R → R) (t : Tillotson R) (d : R)
    (hd : d < t.rho0_) (hlt : t.EIV_ < t.ECV_) :
    t.de2p exp d t.ECV_ = t.de2pIV exp d t.ECV_ := by
  simp only [de2p]
  rw [if_neg (not_le.2 hd), if_neg (not_le.2 hlt), if_pos (le_refl t.ECV_)]

/-- Where `de2pIV` is the full form, the upper threshold of `dp2e` is the
forward map at `ECV`. -/
theorem PCV_eq_de2p_of_full (exp : R → R) (t : Tillotson R) (d : R)
    (hd : d < t.rho0_) (hlt : t.EIV_ < t.ECV_)
    (hfull : t.alpha_ ≤ 35 * (d / t.rho0_) * (d / t.rho0_)) :
    t.PCV exp d = t.de2p exp d t.ECV_ := by
  rw [de2p_at_ECV exp t d hd hlt, de2pIV_full exp t d t.ECV_ hfull, PCV_eq_full]

/-- Where `de2pIV` takes its early return, the upper threshold of `dp2e`
exceeds the forward map at `ECV` by the damped term the early return drops. -/
theorem PCV_eq_de2p_add_of_short (exp : R → R) (t : Tillotson R) (d : R)
    (hd : d < t.rho0_) (hlt : t.EIV_ < t.ECV_)
    (hcut : t.alpha_ > 35 * (d / t.rho0_) * (d / t.rho0_)) :
    t.PCV exp d
      = t.de2p exp d t.ECV_ + exp (-t.alpha_ * (t.rho0_ / d - 1) ^ 2)
        * (t.b_ * d * t.ECV_ / (t.ECV_ / (t.E0_ * (d / t.rho0_) * (d / t.rho0_)) + 1)
            + t.A_ * (d / t.rho0_ - 1) * exp (-t.beta_ * (t.rho0_ / d - 1))) := by
  rw [de2p_at_ECV exp t d hd hlt, de2pIV_short exp t d t.ECV_ hcut, PCV_eq_full]

/-- The residual handed to the root-finder, at the two ends of `[EIV, ECV]`. -/
theorem dp2eII_ends (exp : R → R) (t : Tillotson R) (d p : R) (hne : t.EIV_ ≠ t.ECV_) :
    dp2eII exp { t with temp_d_ := d, temp_p_ := p } t.EIV_ = 1 - t.de2pI d t.EIV_ / p ∧
    dp2eII exp { t with temp_d_ := d, temp_p_ := p } t.ECV_
      = 1 - t.de2pIV exp d t.ECV_ / p := by
  have h1 := de2pII_at_EIV exp { t with temp_d_ := d, temp_p_ := p } d hne
  have h2 := de2pII_at_ECV exp { t with temp_d_ := d, temp_p_ := p } d hne
  constructor
  · simp only [dp2eII]
    rw [h1]
    rfl
  · simp only [dp2eII]
    rw [h2]
    rfl

/-- A relative residual `1 - q/p` changes sign between a value `q1 < p` and a
value `q2 > p`. -/
theorem residual_sign_change (p q1 q2 : R) (hp : p ≠ 0) (h1 : q1 < p) (h2 : p < q2) :
    (1 - q1 / p) * (1 - q2 / p) < 0 := by
  have h : (1 - q1 / p) * (1 - q2 / p) = (p - q1) * (p - q2) / (p * p) := by
    field_simp
  rw [h]
  exact div_neg_of_neg_of_pos (mul_neg_of_pos_of_neg (sub_pos.2 h1) (sub_neg.2 h2))
    (mul_self_pos.2 hp)

/-- The thresholds of `dp2e` in the regime where `de2pIV` is the full form:
for `d < rho0`, `EIV < ECV` and `alpha ≤ 35*(d/rho0)^2`, `PIV = de2p(d,EIV)`,
`PCV = de2p(d,ECV)`, and for every `p ≠ 0` with `PIV < p < PCV` the residual
`1 - de2pII(d,e)/p` has opposite signs at `e = EIV` and `e = ECV`. -/
theorem thresholds_images_of_full (exp : R → R) (t : Tillotson R) (d : R)
    (hd : d < t.rho0_) (hlt : t.EIV_ < t.ECV_)
    (hfull : t.alpha_ ≤ 35 * (d / t.rho0_) * (d / t.rho0_)) :
    t.PIV d = t.de2p exp d t.EIV_ ∧ t.PCV exp d = t.de2p exp d t.ECV_ ∧
    ∀ p, p ≠ 0 → t.PIV d < p → p < t.PCV exp d →
      dp2eII exp { t with temp_d_ := d, temp_p_ := p } t.EIV_
        * dp2eII exp { t with temp_d_ := d, temp_p_ := p } t.ECV_ < 0 := by
  refine ⟨PIV_eq_de2p exp t d, PCV_eq_de2p_of_full exp t d hd hlt hfull, ?_⟩
  intro p hp h1 h2
  obtain ⟨e1, e2⟩ := dp2eII_ends exp t d p (ne_of_lt hlt)
  rw [e1, e2]
  have hq : t.de2pIV exp d t.ECV_ = t.PCV exp d := by
    rw [de2pIV_full exp t d t.ECV_ hfull, PCV_eq_full]
  rw [hq]
  exact residual_sign_change p _ _ hp h1 h2

end Thresholds

section ThresholdSample

/-- Worked instance of `thresholds_images_of_full`: `plainEos` (`alpha = 0`) at
`d = 1/2`, with the pressure `p = 1/2` between the two thresholds. -/
theorem thresholds_images_of_full_instance :
    (plainEos ℝ).PIV (1 / 2) = (plainEos ℝ).de2p Real.exp (1 / 2) (plainEos ℝ).EIV_ ∧
    (plainEos ℝ).PCV Real.exp (1 / 2)
      = (plainEos ℝ).de2p Real.exp (1 / 2) (plainEos ℝ).ECV_ ∧
    dp2eII Real.exp { plainEos ℝ with temp_d_ := 1 / 2, temp_p_ := 1 / 2 } (plainEos ℝ).EIV_
      * dp2eII Real.exp { plainEos ℝ with temp_d_ := 1 / 2, temp_p_ := 1 / 2 }
          (plainEos ℝ).ECV_ < 0 := by
  have h := thresholds_images_of_full Real.exp (plainEos ℝ) (1 / 2)
    (by norm_num [plainEos, new]) (by norm_num [plainEos, new]) (by norm_num [plainEos, new])
  exact ⟨h.1, h.2.1, h.2.2 (1 / 2) (by norm_num) (by norm_num [plainEos, new, PIV])
    (by norm_num [plainEos, new, PCV])⟩

/-- In region II a failure of the root-finder is the outcome of `dp2e`. -/
theorem dp2e_regionII_error (sqrt exp : ℝ → ℝ) (bisect : Bisect ℝ) (t : Tillotson ℝ)
    (d p : ℝ) (err : EosFailure ℝ)
    (hd : d < t.rho0_) (hPIV : t.PIV d < p) (hPCV : p < t.PCV exp d)
    (hbis : t.bisectCall exp bisect d p = Except.error err) :
    t.dp2e sqrt exp bisect d p = Except.error err := by
  simp only [PIV] at hPIV
  simp only [PCV] at hPCV
  simp only [dp2e]
  rw [if_neg (not_le.2 hd), if_neg (not_le.2 hPIV), if_neg (not_le.2 hPCV), hbis]

/-- The lower threshold of `thresholdEos` at half the reference density. -/
theorem thresholdEos_PIV : (thresholdEos ℝ).PIV (1 / 2) = 23 / 40 := by
  norm_num [thresholdEos, new, PIV]

/-- The forward map of `thresholdEos` at `d = 1/2`, `e = EIV`. -/
theorem thresholdEos_de2p_EIV :
    (thresholdEos ℝ).de2p Real.exp (1 / 2) (thresholdEos ℝ).EIV_ = 23 / 40 := by
  norm_num [thresholdEos, new, de2p, de2pI]

/-- The forward map of `thresholdEos` at `d = 1/2` and an energy `e ≥ ECV`
is the shortened `a*d*e = e/2`. -/
theorem thresholdEos_de2p_high (e : ℝ) (he : 2 ≤ e) :
    (thresholdEos ℝ).de2p Real.exp (1 / 2) e = e / 2 := by
  have h1 : ¬ e ≤ 1 := by linarith
  simp only [de2p, de2pIV, thresholdEos, new]
  rw [if_neg (by norm_num), if_neg h1, if_pos he, if_pos (by norm_num)]
  ring

/-- The upper threshold of `thresholdEos` at half the reference density. -/
theorem thresholdEos_PCV :
    (thresholdEos ℝ).PCV Real.exp (1 / 2)
      = 1 + Real.exp (-9) * (1 / 9 - Real.exp (-1) / 20) := by
  norm_num [thresholdEos, new, PCV]
  ring

/-- The term dropped by the early return of `de2pIV` is above `10⁻⁶` here. -/
theorem thresholdEos_gap :
    (1 / 1000000 : ℝ) < Real.exp (-9) * (1 / 9 - Real.exp (-1) / 20) := by
  have h9 := exp_neg_nine_bound
  have h1 : Real.exp (-1) < 1 := Real.exp_lt_one_iff.2 (by norm_num)
  have hpos : (0 : ℝ) < Real.exp (-9) := Real.exp_pos _
  nlinarith

/-- The residual of `thresholdEos` at `d = 1/2`, `p = 1.000001`, at both ends
of `[EIV, ECV]`. -/
theorem thresholdEos_residuals :
    dp2eII Real.exp { thresholdEos ℝ with temp_d_ := 1 / 2, temp_p_ := 1000001 / 1000000 }
        (thresholdEos ℝ).EIV_ = 17000040 / 40000040 ∧
    dp2eII Real.exp { thresholdEos ℝ with temp_d_ := 1 / 2, temp_p_ := 1000001 / 1000000 }
        (thresholdEos ℝ).ECV_ = 1 / 1000001 := by
  constructor
  · norm_num [dp2eII, de2pII, de2pI, de2pIV, thresholdEos, new]
  · norm_num [dp2eII, de2pII, de2pI, de2pIV, thresholdEos, new]

/-- Claim C21. The pressure thresholds of `dp2e` should be the images of the
energy thresholds under the forward map, `PIV = de2p(d,EIV)` and
`PCV = de2p(d,ECV)` for `0 < d < rho0`, so that for `PIV < p < PCV` the
residual `1 - de2pII(d,e)/p` changes sign over `[EIV, ECV]`. The code computes
`PCV` with the full region-IV form, without the early return of `de2pIV`:
for `thresholdEos` (all constants positive, `0 < EIV < ECV`) at
`d = 1/2 < rho0 = 1`, where `alpha = 9 > 35*(d/rho0)^2`, `PIV = de2p(d,EIV) = 23/40`
but `de2p(d,ECV) = 1 < PCV = 1 + exp(-9)*(1/9 - exp(-1)/20)`; the pressure
`p = 1.000001 = de2p(d, 2.000002)` of region IV lies between `PIV` and `PCV`,
the residual is positive at both `e = EIV` and `e = ECV`, and `dp2e` hands this
interval to the root-finder. -/
theorem dp2e_PCV_not_image :
    ((0 : ℝ) < (thresholdEos ℝ).a_ ∧ (0 : ℝ) < (thresholdEos ℝ).b_ ∧
      (0 : ℝ) < (thresholdEos ℝ).A_ ∧ (0 : ℝ) < (thresholdEos ℝ).B_ ∧
      (0 : ℝ) < (thresholdEos ℝ).rho0_ ∧ (0 : ℝ) < (thresholdEos ℝ).E0_ ∧
      (0 : ℝ) < (thresholdEos ℝ).EIV_ ∧ (thresholdEos ℝ).EIV_ < (thresholdEos ℝ).ECV_ ∧
      (0 : ℝ) < (thresholdEos ℝ).alpha_ ∧ (0 : ℝ) < (thresholdEos ℝ).beta_ ∧
      (0 : ℝ) < 1 / 2 ∧ (1 / 2 : ℝ) < (thresholdEos ℝ).rho0_ ∧
      (thresholdEos ℝ).alpha_
        > 35 * (1 / 2 / (thresholdEos ℝ).rho0_) * (1 / 2 / (thresholdEos ℝ).rho0_)) ∧
    (thresholdEos ℝ).PIV (1 / 2)
      = (thresholdEos ℝ).de2p Real.exp (1 / 2) (thresholdEos ℝ).EIV_ ∧
    (thresholdEos ℝ).de2p Real.exp (1 / 2) (thresholdEos ℝ).ECV_ = 1 ∧
    (thresholdEos ℝ).PCV Real.exp (1 / 2)
      = 1 + Real.exp (-9) * (1 / 9 - Real.exp (-1) / 20) ∧
    (thresholdEos ℝ).de2p Real.exp (1 / 2) (thresholdEos ℝ).ECV_
      < (thresholdEos ℝ).PCV Real.exp (1 / 2) ∧
    (thresholdEos ℝ).PCV Real.exp (1 / 2)
      ≠ (thresholdEos ℝ).de2p Real.exp (1 / 2) (thresholdEos ℝ).ECV_ ∧
    (thresholdEos ℝ).de2p Real.exp (1 / 2) (1000001 / 500000) = 1000001 / 1000000 ∧
    (thresholdEos ℝ).PIV (1 / 2) < 1000001 / 1000000 ∧
    (1000001 / 1000000 : ℝ) < (thresholdEos ℝ).PCV Real.exp (1 / 2) ∧
    0 < dp2eII Real.exp
        { thresholdEos ℝ with temp_d_ := 1 / 2, temp_p_ := 1000001 / 1000000 }
        (thresholdEos ℝ).EIV_ ∧
    0 < dp2eII Real.exp
        { thresholdEos ℝ with temp_d_ := 1 / 2, temp_p_ := 1000001 / 1000000 }
        (thresholdEos ℝ).ECV_ ∧
    (thresholdEos ℝ).dp2e Real.sqrt Real.exp idleBisect (1 / 2) (1000001 / 1000000)
      = Except.error (EosFailure.library "bisect") := by
  have hg := thresholdEos_gap
  have hE : (thresholdEos ℝ).ECV_ = 2 := rfl
  have hhigh : (thresholdEos ℝ).de2p Real.exp (1 / 2) (thresholdEos ℝ).ECV_ = 1 := by
    rw [hE, thresholdEos_de2p_high 2 (le_refl 2)]
    norm_num
  have hlt : (thresholdEos ℝ).de2p Real.exp (1 / 2) (thresholdEos ℝ).ECV_
      < (thresholdEos ℝ).PCV Real.exp (1 / 2) := by
    rw [hhigh, thresholdEos_PCV]
    linarith
  have hlow : (thresholdEos ℝ).PIV (1 / 2) < 1000001 / 1000000 := by
    rw [thresholdEos_PIV]
    norm_num
  have hup : (1000001 / 1000000 : ℝ) < (thresholdEos ℝ).PCV Real.exp (1 / 2) := by
    rw [thresholdEos_PCV]
    linarith
  obtain ⟨r1, r2⟩ := thresholdEos_residuals
  refine ⟨by norm_num [thresholdEos, new], ?_, hhigh, thresholdEos_PCV, hlt, ne_of_gt hlt,
    ?_, hlow, hup, ?_, ?_, ?_⟩
  · rw [thresholdEos_PIV, thresholdEos_de2p_EIV]
  · rw [thresholdEos_de2p_high _ (by norm_num)]
    norm_num
  · rw [r1]
    norm_num
  · rw [r2]
    norm_num
  · exact dp2e_regionII_error Real.sqrt Real.exp idleBisect (thresholdEos ℝ) (1 / 2) _ _
      (by norm_num [thresholdEos, new]) hlow hup
      (by simp only [bisectCall, idleBisect, ite_self])

end ThresholdSample

end Tillotson
